import Mathlib

/-!
# GridTurbulenceDouble (CRPropa3): a shallow embedding

The definitions below follow `src/magneticField/turbulentField/GridTurbulenceDouble.cpp`.

* `double` is an arbitrary linearly ordered field `F` (ideal arithmetic: no rounding, no NaN,
  no infinities); the functions of `<cmath>` the code calls are the fields of `Libm F`.
  A quotient of `double`s with divisor zero has the value 0 in the model; the theorems whose
  result rests on a quotient state when its divisor is not zero.
* `size_t` is `Nat` reduced modulo `2 ^ 64`; a `size_t` stored in an `int` is reduced to the
  two's complement range of 32 bits (`toInt`).
* An exception (`std::runtime_error`) and an execution with no defined behaviour (an array
  access outside the allocated block, an integer division by zero) end a run with a `Fault`.
* The loops over `(ix, iy, iz)` are folds over the list of index triples in row-major order.
-/

namespace crpropa

/-! ## Machine integers -/

/-- The value of a natural number stored in a `size_t` (64 bit, unsigned). -/
def toSizeT (x : Nat) : Nat := x % 2 ^ 64

/-- The value of a `size_t` stored in an `int` (32 bit, two's complement). -/
def toInt (x : Nat) : Int :=
  if x % 2 ^ 32 < 2 ^ 31 then ((x % 2 ^ 32 : Nat) : Int) else ((x % 2 ^ 32 : Nat) : Int) - 2 ^ 32

/-- How a run ends when it does not return normally. -/
inductive Fault where
  | runtimeError (what : String)
  | undefinedBehaviour
  deriving DecidableEq

/-! ## Collaborators that are not part of the translation unit -/

/-- The functions and constants of `<cmath>` that the code uses (`std::sqrt`, `std::cos`,
`std::sin`, `acos`, `M_PI`). -/
structure Libm (F : Type) where
  sqrt : F → F
  cos : F → F
  sin : F → F
  acos : F → F
  pi : F

/-- The laws of exact real arithmetic that the proofs use of a `Libm`. -/
structure Libm.Exact {F : Type} [LinearOrderedField F] (m : Libm F) : Prop where
  sqrt_nonneg : ∀ x, 0 ≤ m.sqrt x
  sqrt_mul_self : ∀ x, 0 ≤ x → m.sqrt x * m.sqrt x = x
  cos_sq_add_sin_sq : ∀ x, m.cos x * m.cos x + m.sin x * m.sin x = 1
  acos_one : m.acos 1 = 0

/-- Modelled from the spec: `Vector3d` (crpropa/Vector3.h is not under src/), a vector of
three `double` components. -/
structure Vector3 (F : Type) where
  x : F
  y : F
  z : F

namespace Vector3

variable {F : Type} [LinearOrderedField F]

/-- Modelled from the spec: `Vector3d::dot`. -/
def dot (a b : Vector3 F) : F := a.x * b.x + a.y * b.y + a.z * b.z

/-- Modelled from the spec: `Vector3d::cross`. -/
def cross (a b : Vector3 F) : Vector3 F :=
  ⟨a.y * b.z - a.z * b.y, a.z * b.x - a.x * b.z, a.x * b.y - a.y * b.x⟩

/-- Modelled from the spec: `Vector3d::getR2`, the squared norm. -/
def getR2 (a : Vector3 F) : F := a.x * a.x + a.y * a.y + a.z * a.z

/-- Modelled from the spec: `Vector3d::getR`, the norm. -/
def getR (m : Libm F) (a : Vector3 F) : F := m.sqrt (a.x * a.x + a.y * a.y + a.z * a.z)

/-- Modelled from the spec: `Vector3d::operator*(double)`. -/
def mul (a : Vector3 F) (f : F) : Vector3 F := ⟨a.x * f, a.y * f, a.z * f⟩

/-- Modelled from the spec: `Vector3d::operator/=(double)`. -/
def div (a : Vector3 F) (f : F) : Vector3 F := ⟨a.x / f, a.y / f, a.z / f⟩

/-- Modelled from the spec: `Vector3d::operator+`. -/
def add (a b : Vector3 F) : Vector3 F := ⟨a.x + b.x, a.y + b.y, a.z + b.z⟩

/-- Modelled from the spec: `Vector3d::getAngleTo`, the angle between two vectors. -/
def getAngleTo (m : Libm F) (a v : Vector3 F) : F := m.acos (a.dot v / v.getR m / a.getR m)

/-- Modelled from the spec: `Vector3d::isParallelTo`, "parallel within a tolerance": the angle
between the vectors is below `maxAngle`. -/
def isParallelTo (m : Libm F) (a v : Vector3 F) (maxAngle : F) : Bool :=
  decide (a.getAngleTo m v < maxAngle)

end Vector3

/-- Modelled from the spec: `GridProperties` (crpropa/Grid.h is not under src/): the number of
cells per axis and the spacing. -/
structure GridProperties (F : Type) where
  Nx : Nat
  Ny : Nat
  Nz : Nat
  spacing : Vector3 F

/-- Modelled from the spec: `Grid3d` (crpropa/Grid.h is not under src/): a grid of vectors,
`data ix iy iz` being the vector that `get(ix, iy, iz)` refers to. -/
structure Grid3 (F : Type) where
  Nx : Nat
  Ny : Nat
  Nz : Nat
  spacing : Vector3 F
  data : Nat → Nat → Nat → Vector3 F

/-- Modelled from the spec: `TurbulenceSpectrum` (TurbulentField.h is not under src/): the scale
bounds, the bend-over scale, the target RMS and the spectral energy function. -/
structure TurbulenceSpectrum (F : Type) where
  Brms : F
  lMin : F
  lMax : F
  lBendover : F
  energySpectrum : F → F

/-- Modelled from the spec: `Random` (crpropa/Random.h is not under src/): a stream of uniform
draws; `drawn` counts the calls of `rand()` so far. -/
structure Random (F : Type) where
  stream : Nat → F
  drawn : Nat

namespace Random

variable {F : Type}

/-- Modelled from the spec: the default constructor of `Random` seeds the generator with a
value the caller does not control (`entropy`); `rng s` is the stream that seed `s` yields. -/
def default (rng : Nat → Nat → F) (entropy : Nat) : Random F := ⟨rng entropy, 0⟩

/-- Modelled from the spec: `Random::seed` restarts the generator from the given seed. -/
def seed (rng : Nat → Nat → F) (_r : Random F) (s : Nat) : Random F := ⟨rng s, 0⟩

/-- Modelled from the spec: `Random::rand`, the next uniform draw and the advanced stream. -/
def rand (r : Random F) : F × Random F := (r.stream r.drawn, { r with drawn := r.drawn + 1 })

end Random

section Model

variable {F : Type} [LinearOrderedField F]

/-- Modelled from the spec: the `Grid3d` constructor; all cells start as the zero vector. -/
def Grid3.ofProperties (p : GridProperties F) : Grid3 F :=
  { Nx := p.Nx, Ny := p.Ny, Nz := p.Nz, spacing := p.spacing, data := fun _ _ _ => ⟨0, 0, 0⟩ }

/-- Modelled from the spec: assignment through the reference `grid->get(ix, iy, iz)`. -/
def Grid3.set (g : Grid3 F) (ix iy iz : Nat) (v : Vector3 F) : Grid3 F :=
  { g with data := fun a b c => if a = ix ∧ b = iy ∧ c = iz then v else g.data a b c }

/-- Modelled from the spec: `rmsFieldStrength` (crpropa/GridTools.h is not under src/), the
square root of the mean of the squared norm over all cells. -/
def rmsFieldStrength (m : Libm F) (g : Grid3 F) : F :=
  m.sqrt ((∑ ix in Finset.range g.Nx, ∑ iy in Finset.range g.Ny, ∑ iz in Finset.range g.Nz,
    (g.data ix iy iz).getR2) / (g.Nx : F) / (g.Ny : F) / (g.Nz : F))

/-- Modelled from the spec: `scaleGrid` (crpropa/GridTools.h is not under src/): every cell of
the grid is multiplied by the factor. -/
def scaleGrid (g : Grid3 F) (a : F) : Grid3 F :=
  { g with data := fun ix iy iz =>
      if ix < g.Nx ∧ iy < g.Ny ∧ iz < g.Nz then (g.data ix iy iz).mul a else g.data ix iy iz }

/-! ## GridTurbulenceDouble.cpp -/

/-- The four messages of `checkGridRequirements`, lines 141, 143, 145, 147. -/
def msgCubic : String := "turbulentField: only cubic grid supported"

def msgSpacing : String := "turbulentField: only equal spacing suported"

def msgLMin : String := "turbulentField: lMin < 2 * spacing"

def msgLMax : String := "turbulentField: lMax > size"

/-- `GridTurbulenceDouble::checkGridRequirements`, lines 133-148: `.error what` stands for
`throw std::runtime_error(what)`. -/
def checkGridRequirements (grid : Grid3 F) (lMin lMax : F) : Except String Unit :=
  let Nx := grid.Nx
  let Ny := grid.Ny
  let Nz := grid.Nz
  let spacing := grid.spacing
  if Nx ≠ Ny ∨ Ny ≠ Nz then
    .error msgCubic
  else if spacing.x ≠ spacing.y ∨ spacing.y ≠ spacing.z then
    .error msgSpacing
  else if lMin < 2 * spacing.x then
    .error msgLMin
  else if lMax > (Nx : F) * spacing.x then
    .error msgLMax
  else
    .ok ()

/-- `GridTurbulenceDouble::initGrid`, lines 19-21. -/
def initGrid (p : GridProperties F) : Grid3 F := Grid3.ofProperties p

/-- The table `K` of lines 46-49, `K[i] = (double)i / n - i / (n / 2)`: the second quotient
is an integer division. -/
def wavenumber (n i : Nat) : F := (i : F) / (n : F) - ((i / (n / 2) : Nat) : F)

/-- Lines 47-49 as a whole: filling the table divides by `n / 2`, which is zero for `n = 1`. -/
def wavenumberTable (n : Nat) : Except Fault (Nat → F) :=
  if 0 < n ∧ n / 2 = 0 then .error .undefinedBehaviour else .ok (fun i => wavenumber n i)

/-- Line 60: the lower cutoff `kMin = spacing.x / spectrum.getLmax()`. -/
def kMin (spectrum : TurbulenceSpectrum F) (grid : Grid3 F) : F :=
  grid.spacing.x / spectrum.lMax

/-- Line 61: the upper cutoff `kMax = spacing.x / spectrum.getLmin()`. -/
def kMax (spectrum : TurbulenceSpectrum F) (grid : Grid3 F) : F :=
  grid.spacing.x / spectrum.lMin

/-- Line 62: `lambda = spectrum.getLbendover() / spacing.x * 2 * M_PI`. -/
def lambda (m : Libm F) (spectrum : TurbulenceSpectrum F) (grid : Grid3 F) : F :=
  spectrum.lBendover / grid.spacing.x * 2 * m.pi

/-- Line 73: the wavevector `ek` of the index triple `(ix, iy, iz)` on a grid of size `n`. -/
def wavevector (n ix iy iz : Nat) : Vector3 F :=
  ⟨wavenumber n ix, wavenumber n iy, wavenumber n iz⟩

/-- The index triples in the order the loops of lines 68-70 visit them. -/
def visited (n : Nat) : List (Nat × Nat × Nat) :=
  (List.range n).flatMap fun ix =>
    (List.range n).flatMap fun iy =>
      (List.range (n / 2 + 1)).map fun iz => (ix, iy, iz)

/-- Line 72, with exact integers: `ix * n * n2 + iy * n2 + iz`. -/
def coefficientIndex (n ix iy iz : Nat) : Nat := ix * n * (n / 2 + 1) + iy * (n / 2 + 1) + iz

/-- Line 72 as executed: the `size_t` expression stored in `int i`. -/
def initTurbulenceIndex (n ix iy iz : Nat) : Int :=
  toInt (toSizeT (ix * n * (n / 2 + 1) + iy * (n / 2 + 1) + iz))

/-- Lines 66 and 87-98: the orthogonal base `e1`, `e2` for the wavevector `ek`. -/
def transverseBasis (m : Libm F) (ek : Vector3 F) : Vector3 F × Vector3 F :=
  let n0 : Vector3 F := ⟨1, 1, 1⟩
  let e : Vector3 F × Vector3 F :=
    if ek.isParallelTo m n0 (1 / 1000) then
      (⟨-1, 1, 0⟩, ⟨1, 1, -2⟩)
    else
      (n0.cross ek, ek.cross (n0.cross ek))
  (e.1.div (e.1.getR m), e.2.div (e.2.getR m))

/-- Lines 100-117 for one wavevector `ek`: `r1` and `r2` are the two values `random.rand()`
returns, in this order; the result is `(Bkx[i], Bky[i], Bkz[i])`, each a pair
(real part, imaginary part). -/
def modeCoefficients (m : Libm F) (spectrum : TurbulenceSpectrum F) (lambda : F)
    (ek : Vector3 F) (r1 r2 : F) : (F × F) × (F × F) × (F × F) :=
  let k := ek.getR m
  let e := transverseBasis m ek
  let theta := 2 * m.pi * r1
  let b := ((e.1.mul (m.cos theta)).add (e.2.mul (m.sin theta))).mul
    (m.sqrt (spectrum.energySpectrum (k * lambda)))
  let phase := 2 * m.pi * r2
  let cosPhase := m.cos phase
  let sinPhase := m.sin phase
  ((b.x * cosPhase, b.x * sinPhase), (b.y * cosPhase, b.y * sinPhase),
    (b.z * cosPhase, b.z * sinPhase))

/-- The squared modulus of a coefficient vector `(Bkx[i], Bky[i], Bkz[i])`: the sum over the
three components of `re * re + im * im`. -/
def squaredModulus (c : (F × F) × (F × F) × (F × F)) : F :=
  c.1.1 * c.1.1 + c.1.2 * c.1.2 + (c.2.1.1 * c.2.1.1 + c.2.1.2 * c.2.1.2) +
    (c.2.2.1 * c.2.2.1 + c.2.2.2 * c.2.2.2)

/-- The state the loop of lines 68-120 works on: the three coefficient arrays (`none` is an
element not written yet) and the random stream. -/
structure Synthesis (F : Type) where
  Bkx : Nat → Option (F × F)
  Bky : Nat → Option (F × F)
  Bkz : Nat → Option (F × F)
  random : Random F

/-- The test of line 77: the wave is outside of the turbulent range. -/
def outOfBand (m : Libm F) (K : Nat → F) (kMin kMax : F) (t : Nat × Nat × Nat) : Bool :=
  let ek : Vector3 F := ⟨K t.1, K t.2.1, K t.2.2⟩
  let k := ek.getR m
  decide (k < kMin ∨ k > kMax)

/-- The body of the loop, lines 72-117, at the index triple `t = (ix, iy, iz)`. The arrays
hold `n * n * n2` elements (lines 38-40); indexing outside of them is undefined. -/
def synthesisStep (m : Libm F) (spectrum : TurbulenceSpectrum F) (n : Nat) (K : Nat → F)
    (kMin kMax lambda : F) (st : Synthesis F) (t : Nat × Nat × Nat) :
    Except Fault (Synthesis F) :=
  let i := initTurbulenceIndex n t.1 t.2.1 t.2.2
  if i < 0 ∨ ((n * n * (n / 2 + 1) : Nat) : Int) ≤ i then
    .error .undefinedBehaviour
  else
    let ek : Vector3 F := ⟨K t.1, K t.2.1, K t.2.2⟩
    if outOfBand m K kMin kMax t then
      .ok { st with
        Bkx := Function.update st.Bkx i.toNat (some (0, 0))
        Bky := Function.update st.Bky i.toNat (some (0, 0))
        Bkz := Function.update st.Bkz i.toNat (some (0, 0)) }
    else
      let d1 := st.random.rand
      let d2 := d1.2.rand
      let c := modeCoefficients m spectrum lambda ek d1.1 d2.1
      .ok { Bkx := Function.update st.Bkx i.toNat (some c.1)
            Bky := Function.update st.Bky i.toNat (some c.2.1)
            Bkz := Function.update st.Bkz i.toNat (some c.2.2)
            random := d2.2 }

/-- Lines 31-120 of `initTurbulence`: allocation, seeding, the wavenumber table, the cutoffs
and the loop over the wavevectors. `rng` and `entropy` are as in `Random.default`. -/
def synthesize (m : Libm F) (rng : Nat → Nat → F) (entropy : Nat)
    (spectrum : TurbulenceSpectrum F) (grid : Grid3 F) (seed : Nat) :
    Except Fault (Synthesis F) :=
  let n := grid.Nx
  let random0 : Random F := Random.default rng entropy
  let random : Random F := if seed ≠ 0 then random0.seed rng seed else random0
  match wavenumberTable (F := F) n with
  | .error e => .error e
  | .ok K =>
    (visited n).foldlM
      (synthesisStep m spectrum n K (kMin spectrum grid) (kMax spectrum grid)
        (lambda m spectrum grid))
      { Bkx := fun _ => none, Bky := fun _ => none, Bkz := fun _ => none, random := random }

/-- The wavevectors inside the band `kMin ≤ k ≤ kMax`, in the order the loop visits them. -/
def inBandWavevectors (m : Libm F) (spectrum : TurbulenceSpectrum F) (grid : Grid3 F) :
    List (Nat × Nat × Nat) :=
  (visited grid.Nx).filter fun t =>
    !outOfBand m (fun i => wavenumber grid.Nx i) (kMin spectrum grid) (kMax spectrum grid) t

/-- The cells in the order the loops of lines 180-182 visit them. -/
def cells (n : Nat) : List (Nat × Nat × Nat) :=
  (List.range n).flatMap fun ix =>
    (List.range n).flatMap fun iy =>
      (List.range n).map fun iz => (ix, iy, iz)

/-- Line 183, with exact integers: `ix * n * 2 * n2 + iy * 2 * n2 + iz`. -/
def paddedIndex (n ix iy iz : Nat) : Nat :=
  ix * n * 2 * (n / 2 + 1) + iy * 2 * (n / 2 + 1) + iz

/-- Line 183 as executed: the `size_t` expression stored in `int i`. -/
def executeInverseFFTIndex (n ix iy iz : Nat) : Int :=
  toInt (toSizeT (ix * n * 2 * (n / 2 + 1) + iy * 2 * (n / 2 + 1) + iz))

/-- The body of the loop of lines 180-190: the real arrays hold `2 * (n * n * n2)` doubles. -/
def copyStep (n : Nat) (Bx By Bz : Nat → F) (grid : Grid3 F) (t : Nat × Nat × Nat) :
    Except Fault (Grid3 F) :=
  let i := executeInverseFFTIndex n t.1 t.2.1 t.2.2
  if i < 0 ∨ ((2 * (n * n * (n / 2 + 1)) : Nat) : Int) ≤ i then
    .error .undefinedBehaviour
  else
    .ok (grid.set t.1 t.2.1 t.2.2 ⟨Bx i.toNat, By i.toNat, Bz i.toNat⟩)

/-- `GridTurbulenceDouble::executeInverseFFTInplace`, lines 152-191. `c2r n B` is the real
array that the in-place plan `fftw_plan_dft_c2r_3d(n, n, n, B, B, FFTW_ESTIMATE)` leaves in
the memory of the complex array `B` (FFTW is not part of the repository). -/
def executeInverseFFTInplace (c2r : Nat → (Nat → Option (F × F)) → Nat → F) (grid : Grid3 F)
    (Bkx Bky Bkz : Nat → Option (F × F)) : Except Fault (Grid3 F) :=
  let n := grid.Nx
  let Bx := c2r n Bkx
  let By := c2r n Bky
  let Bz := c2r n Bkz
  (cells n).foldlM (copyStep n Bx By Bz) grid

/-- Lines 31-126 of `initTurbulence`: the grid before it is normalized. -/
def unnormalizedField (m : Libm F) (c2r : Nat → (Nat → Option (F × F)) → Nat → F)
    (rng : Nat → Nat → F) (entropy : Nat) (spectrum : TurbulenceSpectrum F) (grid : Grid3 F)
    (seed : Nat) : Except Fault (Grid3 F) :=
  match synthesize m rng entropy spectrum grid seed with
  | .error e => .error e
  | .ok s => executeInverseFFTInplace c2r grid s.Bkx s.Bky s.Bkz

/-- `GridTurbulenceDouble::initTurbulence`, lines 29-130. -/
def initTurbulence (m : Libm F) (c2r : Nat → (Nat → Option (F × F)) → Nat → F)
    (rng : Nat → Nat → F) (entropy : Nat) (spectrum : TurbulenceSpectrum F) (grid : Grid3 F)
    (seed : Nat) : Except Fault (Grid3 F) :=
  match unnormalizedField m c2r rng entropy spectrum grid seed with
  | .error e => .error e
  | .ok g => .ok (scaleGrid g (spectrum.Brms / rmsFieldStrength m g))

/-- What a run of the constructor leaves behind: how it ended (the grid of the field, or the
fault), how many times `random.rand()` was called, and the coefficient arrays it filled
(recorded for the runs in which the loop of lines 68-120 completes). -/
structure Construction (F : Type) where
  result : Except Fault (Grid3 F)
  draws : Nat
  coefficients : Option (Synthesis F)

/-- The constructor `GridTurbulenceDouble::GridTurbulenceDouble`, lines 10-17: `initGrid`,
then `checkGridRequirements`, then `initTurbulence`. -/
def construct (m : Libm F) (c2r : Nat → (Nat → Option (F × F)) → Nat → F)
    (rng : Nat → Nat → F) (entropy : Nat) (spectrum : TurbulenceSpectrum F)
    (gridProp : GridProperties F) (seed : Nat) : Construction F :=
  let gridPtr := initGrid gridProp
  match checkGridRequirements gridPtr spectrum.lMin spectrum.lMax with
  | .error what => { result := .error (.runtimeError what), draws := 0, coefficients := none }
  | .ok () =>
    match synthesize m rng entropy spectrum gridPtr seed with
    | .error e => { result := .error e, draws := 0, coefficients := none }
    | .ok s =>
      { result := initTurbulence m c2r rng entropy spectrum gridPtr seed
        draws := s.random.drawn
        coefficients := some s }

end Model

/-! ## Theorems -/

section Validation

variable {F : Type} [LinearOrderedField F]

/-- A grid that `checkGridRequirements` accepts meets the four constraints. -/
theorem constraints_of_checkGridRequirements (grid : Grid3 F) (lMin lMax : F)
    (h : checkGridRequirements grid lMin lMax = .ok ()) :
    (grid.Nx = grid.Ny ∧ grid.Ny = grid.Nz) ∧
      (grid.spacing.x = grid.spacing.y ∧ grid.spacing.y = grid.spacing.z) ∧
      2 * grid.spacing.x ≤ lMin ∧ lMax ≤ (grid.Nx : F) * grid.spacing.x := by
  unfold checkGridRequirements at h
  simp only [] at h
  split_ifs at h with h1 h2 h3 h4
  push_neg at h1 h2 h3 h4
  exact ⟨h1, h2, h3, h4⟩

/-- An error of `checkGridRequirements` carries one of the four messages. -/
theorem checkGridRequirements_eq_error (grid : Grid3 F) (lMin lMax : F)
    (h : checkGridRequirements grid lMin lMax ≠ .ok ()) :
    ∃ what, what ∈ [msgCubic, msgSpacing, msgLMin, msgLMax] ∧
      checkGridRequirements grid lMin lMax = .error what := by
  unfold checkGridRequirements at h ⊢
  simp only []
  simp only [] at h
  split_ifs at h ⊢ with h1 h2 h3 h4
  · exact ⟨msgCubic, by simp, rfl⟩
  · exact ⟨msgSpacing, by simp, rfl⟩
  · exact ⟨msgLMin, by simp, rfl⟩
  · exact ⟨msgLMax, by simp, rfl⟩
  · exact absurd rfl h

/-- C1: `checkGridRequirements` returns normally if and only if the grid is cubic, the spacing
is isotropic, `2 * spacing.x ≤ lMin` and `lMax ≤ Nx * spacing.x`. -/
theorem checkGridRequirements_ok_iff (grid : Grid3 F) (lMin lMax : F) :
    checkGridRequirements grid lMin lMax = .ok () ↔
      (grid.Nx = grid.Ny ∧ grid.Ny = grid.Nz) ∧
      (grid.spacing.x = grid.spacing.y ∧ grid.spacing.y = grid.spacing.z) ∧
      2 * grid.spacing.x ≤ lMin ∧ lMax ≤ (grid.Nx : F) * grid.spacing.x := by
  unfold checkGridRequirements
  by_cases hc : grid.Nx ≠ grid.Ny ∨ grid.Ny ≠ grid.Nz
  · rw [if_pos hc]
    constructor
    · intro h; cases h
    · rintro ⟨⟨h1, h2⟩, -⟩
      rcases hc with hc | hc
      · exact absurd h1 hc
      · exact absurd h2 hc
  · rw [if_neg hc]
    have hc2 : grid.Nx = grid.Ny ∧ grid.Ny = grid.Nz := by
      constructor
      · by_contra h; exact hc (Or.inl h)
      · by_contra h; exact hc (Or.inr h)
    by_cases hs : grid.spacing.x ≠ grid.spacing.y ∨ grid.spacing.y ≠ grid.spacing.z
    · rw [if_pos hs]
      constructor
      · intro h; cases h
      · rintro ⟨-, ⟨h1, h2⟩, -⟩
        rcases hs with hs | hs
        · exact absurd h1 hs
        · exact absurd h2 hs
    · rw [if_neg hs]
      have hs2 : grid.spacing.x = grid.spacing.y ∧ grid.spacing.y = grid.spacing.z := by
        constructor
        · by_contra h; exact hs (Or.inl h)
        · by_contra h; exact hs (Or.inr h)
      by_cases h3 : lMin < 2 * grid.spacing.x
      · rw [if_pos h3]
        constructor
        · intro h; cases h
        · rintro ⟨-, -, h, -⟩
          exact absurd h3 (not_lt.mpr h)
      · rw [if_neg h3]
        by_cases h4 : lMax > (grid.Nx : F) * grid.spacing.x
        · rw [if_pos h4]
          constructor
          · intro h; cases h
          · rintro ⟨-, -, -, h⟩
            exact absurd h4 (not_lt.mpr h)
        · rw [if_neg h4]
          exact ⟨fun _ => ⟨hc2, hs2, not_lt.mp h3, not_lt.mp h4⟩, fun _ => rfl⟩

/-- C2: the four constraints have four pairwise distinct messages, and the error raised
carries the message of the first violated constraint in the order cubic, spacing, lMin, lMax
(so, of the violated one when exactly one is violated). -/
theorem checkGridRequirements_message (grid : Grid3 F) (lMin lMax : F) :
    (msgCubic ≠ msgSpacing ∧ msgCubic ≠ msgLMin ∧ msgCubic ≠ msgLMax ∧
      msgSpacing ≠ msgLMin ∧ msgSpacing ≠ msgLMax ∧ msgLMin ≠ msgLMax) ∧
    (¬ (grid.Nx = grid.Ny ∧ grid.Ny = grid.Nz) →
      checkGridRequirements grid lMin lMax = .error msgCubic) ∧
    ((grid.Nx = grid.Ny ∧ grid.Ny = grid.Nz) →
      ¬ (grid.spacing.x = grid.spacing.y ∧ grid.spacing.y = grid.spacing.z) →
      checkGridRequirements grid lMin lMax = .error msgSpacing) ∧
    ((grid.Nx = grid.Ny ∧ grid.Ny = grid.Nz) →
      (grid.spacing.x = grid.spacing.y ∧ grid.spacing.y = grid.spacing.z) →
      ¬ (2 * grid.spacing.x ≤ lMin) →
      checkGridRequirements grid lMin lMax = .error msgLMin) ∧
    ((grid.Nx = grid.Ny ∧ grid.Ny = grid.Nz) →
      (grid.spacing.x = grid.spacing.y ∧ grid.spacing.y = grid.spacing.z) →
      2 * grid.spacing.x ≤ lMin → ¬ (lMax ≤ (grid.Nx : F) * grid.spacing.x) →
      checkGridRequirements grid lMin lMax = .error msgLMax) := by
  refine ⟨by decide, ?_, ?_, ?_, ?_⟩
  · intro h
    have hc : grid.Nx ≠ grid.Ny ∨ grid.Ny ≠ grid.Nz := by
      by_contra hn
      push_neg at hn
      exact h hn
    simp only [checkGridRequirements, if_pos hc]
  · intro hc hs
    have hc1 : ¬ (grid.Nx ≠ grid.Ny ∨ grid.Ny ≠ grid.Nz) := by
      push_neg; exact hc
    have hs1 : grid.spacing.x ≠ grid.spacing.y ∨ grid.spacing.y ≠ grid.spacing.z := by
      by_contra hn
      push_neg at hn
      exact hs hn
    simp only [checkGridRequirements, if_neg hc1, if_pos hs1]
  · intro hc hs h3
    have hc1 : ¬ (grid.Nx ≠ grid.Ny ∨ grid.Ny ≠ grid.Nz) := by
      push_neg; exact hc
    have hs1 : ¬ (grid.spacing.x ≠ grid.spacing.y ∨ grid.spacing.y ≠ grid.spacing.z) := by
      push_neg; exact hs
    simp only [checkGridRequirements, if_neg hc1, if_neg hs1, if_pos (not_le.mp h3)]
  · intro hc hs h3 h4
    have hc1 : ¬ (grid.Nx ≠ grid.Ny ∨ grid.Ny ≠ grid.Nz) := by
      push_neg; exact hc
    have hs1 : ¬ (grid.spacing.x ≠ grid.spacing.y ∨ grid.spacing.y ≠ grid.spacing.z) := by
      push_neg; exact hs
    simp only [checkGridRequirements, if_neg hc1, if_neg hs1, if_neg (not_lt.mpr h3),
      if_pos (not_le.mp h4)]

/-- C2, at four grids that each violate exactly one constraint. -/
theorem checkGridRequirements_message_witness :
    checkGridRequirements (F := ℚ) ⟨2, 3, 3, ⟨1, 1, 1⟩, fun _ _ _ => ⟨0, 0, 0⟩⟩ 2 2
      = .error msgCubic ∧
    checkGridRequirements (F := ℚ) ⟨32, 32, 32, ⟨1, 2, 1⟩, fun _ _ _ => ⟨0, 0, 0⟩⟩ 2 32
      = .error msgSpacing ∧
    checkGridRequirements (F := ℚ) ⟨32, 32, 32, ⟨1, 1, 1⟩, fun _ _ _ => ⟨0, 0, 0⟩⟩ 1 32
      = .error msgLMin ∧
    checkGridRequirements (F := ℚ) ⟨32, 32, 32, ⟨1, 1, 1⟩, fun _ _ _ => ⟨0, 0, 0⟩⟩ 2 33
      = .error msgLMax :=
  ⟨(checkGridRequirements_message _ _ _).2.1 (by norm_num),
   (checkGridRequirements_message _ _ _).2.2.1 (by norm_num) (by norm_num),
   (checkGridRequirements_message _ _ _).2.2.2.1 (by norm_num) (by norm_num) (by norm_num),
   (checkGridRequirements_message _ _ _).2.2.2.2 (by norm_num) (by norm_num) (by norm_num)
     (by norm_num)⟩

/-- C3: when the spectrum and grid violate any of the four constraints, the constructor ends
with the `std::runtime_error` of `checkGridRequirements` (one of its four messages), no call of
`random.rand()` has been made and no coefficient array has been filled. -/
theorem construct_geometryError (m : Libm F) (c2r : Nat → (Nat → Option (F × F)) → Nat → F)
    (rng : Nat → Nat → F) (entropy : Nat) (spectrum : TurbulenceSpectrum F)
    (gridProp : GridProperties F) (seed : Nat)
    (h : ¬ ((gridProp.Nx = gridProp.Ny ∧ gridProp.Ny = gridProp.Nz) ∧
      (gridProp.spacing.x = gridProp.spacing.y ∧ gridProp.spacing.y = gridProp.spacing.z) ∧
      2 * gridProp.spacing.x ≤ spectrum.lMin ∧
      spectrum.lMax ≤ (gridProp.Nx : F) * gridProp.spacing.x)) :
    ∃ what, what ∈ [msgCubic, msgSpacing, msgLMin, msgLMax] ∧
      checkGridRequirements (initGrid gridProp) spectrum.lMin spectrum.lMax = .error what ∧
      construct m c2r rng entropy spectrum gridProp seed =
        { result := .error (.runtimeError what), draws := 0, coefficients := none } := by
  have hne : checkGridRequirements (initGrid gridProp) spectrum.lMin spectrum.lMax ≠ .ok () := by
    intro hok
    exact h (constraints_of_checkGridRequirements _ _ _ hok)
  obtain ⟨what, hmem, hw⟩ := checkGridRequirements_eq_error _ _ _ hne
  refine ⟨what, hmem, hw, ?_⟩
  simp only [construct, hw]

/-- C3, at the grid of 32 cells per axis with spacing 1 and `lMin = 1`. -/
theorem construct_geometryError_witness :
    ¬ (((32 : Nat) = 32 ∧ (32 : Nat) = 32) ∧ ((1 : ℝ) = 1 ∧ (1 : ℝ) = 1) ∧
      2 * (1 : ℝ) ≤ 1 ∧ (32 : ℝ) ≤ ((32 : Nat) : ℝ) * 1) ∧
    ∃ what, what ∈ [msgCubic, msgSpacing, msgLMin, msgLMax] ∧
      checkGridRequirements (initGrid (F := ℝ) ⟨32, 32, 32, ⟨1, 1, 1⟩⟩) 1 32 = .error what ∧
      construct ⟨Real.sqrt, Real.cos, Real.sin, Real.arccos, Real.pi⟩ (fun _ _ _ => 0)
        (fun _ _ => 0) 0 ⟨1, 1, 32, 8, fun _ => 1⟩ ⟨32, 32, 32, ⟨1, 1, 1⟩⟩ 42 =
        { result := .error (.runtimeError what), draws := 0, coefficients := none } :=
  ⟨by norm_num,
   construct_geometryError ⟨Real.sqrt, Real.cos, Real.sin, Real.arccos, Real.pi⟩
     (fun _ _ _ => 0) (fun _ _ => 0) 0 ⟨1, 1, 32, 8, fun _ => 1⟩ ⟨32, 32, 32, ⟨1, 1, 1⟩⟩ 42
     (by norm_num)⟩

end Validation

section Wavenumbers
variable {F : Type} [LinearOrderedField F]

/-- The table `K` on the indices below `2 * (N div 2)`: for every grid size `N ≥ 2` and index
`i < N`, `K[i] = i/N` when `i < N div 2` and `K[i] = i/N - 1` when
`N div 2 ≤ i < 2 * (N div 2)`; for even `N` these are all the indices and every `K[i]` lies in
`[-1/2, 1/2)`. -/
theorem wavenumber_folding (N i : Nat) (hN : 2 ≤ N) (hi : i < N) :
    (i < N / 2 → wavenumber (F := F) N i = (i : F) / (N : F)) ∧
    (N / 2 ≤ i → i < 2 * (N / 2) → wavenumber (F := F) N i = (i : F) / (N : F) - 1) ∧
    (N % 2 = 0 → -1 / 2 ≤ wavenumber (F := F) N i ∧ wavenumber (F := F) N i < 1 / 2) := by
  have hNpos : (0 : F) < (N : F) := by exact_mod_cast (by omega : 0 < N)
  have hlow : i < N / 2 → wavenumber (F := F) N i = (i : F) / (N : F) := by
    intro h
    simp [wavenumber, Nat.div_eq_of_lt h]
  have hhigh : N / 2 ≤ i → i < 2 * (N / 2) →
      wavenumber (F := F) N i = (i : F) / (N : F) - 1 := by
    intro h1 h2
    have hd : i / (N / 2) = 1 := Nat.div_eq_of_lt_le (by omega) (by omega)
    simp [wavenumber, hd]
  refine ⟨hlow, hhigh, ?_⟩
  intro heven
  have hN2 : 2 * (N / 2) = N := by omega
  by_cases h : i < N / 2
  · rw [hlow h]
    have h2 : (2 : F) * (i : F) < (N : F) := by exact_mod_cast (by omega : 2 * i < N)
    have h0 : (0 : F) ≤ (i : F) / (N : F) := div_nonneg (Nat.cast_nonneg _) hNpos.le
    constructor
    · linarith
    · rw [div_lt_iff₀ hNpos]; linarith
  · have h1 : N / 2 ≤ i := not_lt.mp h
    rw [hhigh h1 (by omega)]
    have h2 : (N : F) ≤ 2 * (i : F) := by exact_mod_cast (by omega : N ≤ 2 * i)
    have h3 : (i : F) < (N : F) := by exact_mod_cast hi
    constructor
    · have : (1 : F) / 2 ≤ (i : F) / (N : F) := by
        rw [le_div_iff₀ hNpos]; linarith
      linarith
    · have : (i : F) / (N : F) < 1 := by
        rw [div_lt_iff₀ hNpos]; linarith
      linarith

/-- The folding on an even grid, for `N = 4` and `i = 3`. -/
theorem wavenumber_folding_witness :
    wavenumber (F := ℚ) 4 3 = (3 : ℚ) / 4 - 1 ∧
      -1 / 2 ≤ wavenumber (F := ℚ) 4 3 ∧ wavenumber (F := ℚ) 4 3 < 1 / 2 :=
  ⟨(wavenumber_folding (F := ℚ) 4 3 (by decide) (by decide)).2.1 (by decide) (by decide),
   (wavenumber_folding (F := ℚ) 4 3 (by decide) (by decide)).2.2 (by decide)⟩

end Wavenumbers

section Basis
variable {F : Type} [LinearOrderedField F]

/-- An exact square root is the nonnegative solution of `y * y = x`. -/
theorem Libm.Exact.sqrt_eq {m : Libm F} (hm : m.Exact) {x y : F} (hy : 0 ≤ y)
    (h : y * y = x) : m.sqrt x = y := by
  have hx : 0 ≤ x := by rw [← h]; exact mul_self_nonneg y
  exact (mul_self_inj (hm.sqrt_nonneg x) hy).mp (by rw [hm.sqrt_mul_self x hx, h])

/-- An exact square root of a positive number is positive. -/
theorem Libm.Exact.sqrt_pos {m : Libm F} (hm : m.Exact) {x : F} (hx : 0 < x) :
    0 < m.sqrt x := by
  rcases (hm.sqrt_nonneg x).lt_or_eq with h | h
  · exact h
  · have := hm.sqrt_mul_self x hx.le
    rw [← h] at this
    simp at this
    exact absurd this.symm hx.ne'

/-- A vector of positive squared norm divided by its norm has norm 1. -/
theorem getR_div_getR {m : Libm F} (hm : m.Exact) (v : Vector3 F)
    (hv : 0 < v.x * v.x + v.y * v.y + v.z * v.z) :
    (v.div (v.getR m)).getR m = 1 := by
  have hs := hm.sqrt_mul_self _ hv.le
  have hpos := hm.sqrt_pos hv
  apply hm.sqrt_eq zero_le_one
  simp only [Vector3.div, Vector3.getR]
  field_simp
  linarith

/-- The dot product of two vectors divided by scalars. -/
theorem dot_div_div (a b : Vector3 F) (s t : F) :
    (a.div s).dot (b.div t) = a.dot b / (s * t) := by
  simp only [Vector3.div, Vector3.dot]
  by_cases hs : s = 0
  · simp [hs]
  by_cases ht : t = 0
  · simp [ht]
  field_simp

/-- The dot product with a vector divided by a scalar. -/
theorem dot_div_left (a b : Vector3 F) (s : F) :
    (a.div s).dot b = a.dot b / s := by
  simp only [Vector3.div, Vector3.dot]
  by_cases hs : s = 0
  · simp [hs]
  field_simp


/-- The squared norm of a nonzero vector is positive. -/
theorem getR2_pos_of_ne_zero (v : Vector3 F) (hv : v ≠ ⟨0, 0, 0⟩) :
    0 < v.x * v.x + v.y * v.y + v.z * v.z := by
  by_contra hn
  have hx := mul_self_nonneg v.x
  have hy := mul_self_nonneg v.y
  have hz := mul_self_nonneg v.z
  have h1 : v.x * v.x = 0 := by linarith
  have h2 : v.y * v.y = 0 := by linarith
  have h3 : v.z * v.z = 0 := by linarith
  apply hv
  cases v with
  | mk x y z =>
    simp only [mul_self_eq_zero] at h1 h2 h3
    simp [h1, h2, h3]

/-- C7 fails for a wavevector anti-parallel to `(1, 1, 1)`: `ek = (-1, -1, -1)` is nonzero and
does not take the special case (its angle to `n0` is `pi`), but `e1 = n0 x ek` is the zero
vector, its norm is 0, and the division by that norm does not make it a unit vector. -/
theorem transverseBasis_antiparallel_counterexample :
    (⟨-1, -1, -1⟩ : Vector3 ℝ) ≠ ⟨0, 0, 0⟩ ∧
    Vector3.isParallelTo ⟨Real.sqrt, Real.cos, Real.sin, Real.arccos, Real.pi⟩
      (⟨-1, -1, -1⟩ : Vector3 ℝ) ⟨1, 1, 1⟩ (1 / 1000) = false ∧
    (transverseBasis ⟨Real.sqrt, Real.cos, Real.sin, Real.arccos, Real.pi⟩
      (⟨-1, -1, -1⟩ : Vector3 ℝ)).1.getR ⟨Real.sqrt, Real.cos, Real.sin, Real.arccos, Real.pi⟩
      ≠ 1 := by
  have hcos : (-3 : ℝ) / Real.sqrt 3 / Real.sqrt 3 = -1 := by
    rw [div_div, Real.mul_self_sqrt (by norm_num)]; norm_num
  have hpar : Vector3.isParallelTo ⟨Real.sqrt, Real.cos, Real.sin, Real.arccos, Real.pi⟩
      (⟨-1, -1, -1⟩ : Vector3 ℝ) ⟨1, 1, 1⟩ (1 / 1000) = false := by
    simp only [Vector3.isParallelTo, Vector3.getAngleTo, Vector3.dot, Vector3.getR,
      decide_eq_false_iff_not, not_lt]
    norm_num
    rw [hcos, Real.arccos_neg_one]
    linarith [Real.pi_gt_three]
  refine ⟨?_, hpar, ?_⟩
  · intro h
    have := congrArg Vector3.x h
    norm_num at this
  · simp only [transverseBasis, hpar]
    norm_num [Vector3.cross, Vector3.div, Vector3.getR]

/-- C7, amended: for every wavevector `ek` with `n0 x ek ≠ 0` (so `ek` is neither zero nor a
positive or negative multiple of `(1, 1, 1)`) that does not take the special case, the vectors
`e1 = n0 x ek` and `e2 = ek x e1` after normalization are of unit length, orthogonal to each
other and both orthogonal to `ek`. -/
theorem transverseBasis_orthonormal (m : Libm F) (hm : m.Exact) (ek : Vector3 F)
    (hpar : ek.isParallelTo m ⟨1, 1, 1⟩ (1 / 1000) = false)
    (hcross : Vector3.cross ⟨1, 1, 1⟩ ek ≠ ⟨0, 0, 0⟩) :
    (transverseBasis m ek).1 =
        (Vector3.cross ⟨1, 1, 1⟩ ek).div ((Vector3.cross ⟨1, 1, 1⟩ ek).getR m) ∧
    (transverseBasis m ek).2 =
        (ek.cross (Vector3.cross ⟨1, 1, 1⟩ ek)).div
          ((ek.cross (Vector3.cross ⟨1, 1, 1⟩ ek)).getR m) ∧
    (transverseBasis m ek).1.getR m = 1 ∧ (transverseBasis m ek).2.getR m = 1 ∧
    (transverseBasis m ek).1.dot (transverseBasis m ek).2 = 0 ∧
    (transverseBasis m ek).1.dot ek = 0 ∧ (transverseBasis m ek).2.dot ek = 0 := by
  have h1 := getR2_pos_of_ne_zero _ hcross
  -- the squared norm of `e2` is the product of those of `ek` and `e1`
  have h2 : 0 < (ek.cross (Vector3.cross ⟨1, 1, 1⟩ ek)).x * (ek.cross (Vector3.cross ⟨1, 1, 1⟩ ek)).x
      + (ek.cross (Vector3.cross ⟨1, 1, 1⟩ ek)).y * (ek.cross (Vector3.cross ⟨1, 1, 1⟩ ek)).y
      + (ek.cross (Vector3.cross ⟨1, 1, 1⟩ ek)).z * (ek.cross (Vector3.cross ⟨1, 1, 1⟩ ek)).z := by
    have hek : 0 < ek.x * ek.x + ek.y * ek.y + ek.z * ek.z := by
      apply getR2_pos_of_ne_zero
      intro h0
      apply hcross
      rw [h0]
      simp [Vector3.cross]
    have hprod := mul_pos hek h1
    simp only [Vector3.cross] at hprod ⊢
    nlinarith [hprod]
  have he1 : (transverseBasis m ek).1 =
      (Vector3.cross ⟨1, 1, 1⟩ ek).div ((Vector3.cross ⟨1, 1, 1⟩ ek).getR m) := by
    simp only [transverseBasis, hpar, Bool.false_eq_true, if_false]
  have he2 : (transverseBasis m ek).2 =
      (ek.cross (Vector3.cross ⟨1, 1, 1⟩ ek)).div
        ((ek.cross (Vector3.cross ⟨1, 1, 1⟩ ek)).getR m) := by
    simp only [transverseBasis, hpar, Bool.false_eq_true, if_false]
  refine ⟨he1, he2, ?_, ?_, ?_, ?_, ?_⟩
  · rw [he1]; exact getR_div_getR hm _ h1
  · rw [he2]; exact getR_div_getR hm _ h2
  · rw [he1, he2, dot_div_div]
    have : (Vector3.cross ⟨1, 1, 1⟩ ek).dot (ek.cross (Vector3.cross ⟨1, 1, 1⟩ ek)) = 0 := by
      simp only [Vector3.cross, Vector3.dot]; ring
    rw [this, zero_div]
  · rw [he1, dot_div_left]
    have : (Vector3.cross ⟨1, 1, 1⟩ ek).dot ek = 0 := by
      simp only [Vector3.cross, Vector3.dot]; ring
    rw [this, zero_div]
  · rw [he2, dot_div_left]
    have : (ek.cross (Vector3.cross ⟨1, 1, 1⟩ ek)).dot ek = 0 := by
      simp only [Vector3.cross, Vector3.dot]; ring
    rw [this, zero_div]


/-- The functions of the real numbers are an exact `Libm`. -/
theorem real_exact : Libm.Exact ⟨Real.sqrt, Real.cos, Real.sin, Real.arccos, Real.pi⟩ where
  sqrt_nonneg := Real.sqrt_nonneg
  sqrt_mul_self := fun x hx => Real.mul_self_sqrt hx
  cos_sq_add_sin_sq := fun x => by
    have h := Real.cos_sq_add_sin_sq x
    simp only [sq] at h
    exact h
  acos_one := Real.arccos_one

/-- C7 as amended, for `ek = (1, -1, 0)`, at a right angle to `(1, 1, 1)`. -/
theorem transverseBasis_orthonormal_witness :
    (transverseBasis ⟨Real.sqrt, Real.cos, Real.sin, Real.arccos, Real.pi⟩
      (⟨1, -1, 0⟩ : Vector3 ℝ)).1.getR ⟨Real.sqrt, Real.cos, Real.sin, Real.arccos, Real.pi⟩ = 1 ∧
    (transverseBasis ⟨Real.sqrt, Real.cos, Real.sin, Real.arccos, Real.pi⟩
      (⟨1, -1, 0⟩ : Vector3 ℝ)).2.getR ⟨Real.sqrt, Real.cos, Real.sin, Real.arccos, Real.pi⟩ = 1 ∧
    (transverseBasis ⟨Real.sqrt, Real.cos, Real.sin, Real.arccos, Real.pi⟩
      (⟨1, -1, 0⟩ : Vector3 ℝ)).1.dot
      (transverseBasis ⟨Real.sqrt, Real.cos, Real.sin, Real.arccos, Real.pi⟩
        (⟨1, -1, 0⟩ : Vector3 ℝ)).2 = 0 ∧
    (transverseBasis ⟨Real.sqrt, Real.cos, Real.sin, Real.arccos, Real.pi⟩
      (⟨1, -1, 0⟩ : Vector3 ℝ)).1.dot ⟨1, -1, 0⟩ = 0 ∧
    (transverseBasis ⟨Real.sqrt, Real.cos, Real.sin, Real.arccos, Real.pi⟩
      (⟨1, -1, 0⟩ : Vector3 ℝ)).2.dot ⟨1, -1, 0⟩ = 0 :=
  (transverseBasis_orthonormal ⟨Real.sqrt, Real.cos, Real.sin, Real.arccos, Real.pi⟩ real_exact
    (⟨1, -1, 0⟩ : Vector3 ℝ)
    (by
      simp only [Vector3.isParallelTo, Vector3.getAngleTo, Vector3.dot, Vector3.getR,
        decide_eq_false_iff_not, not_lt]
      norm_num
      linarith [Real.pi_gt_three])
    (by
      intro h
      have := congrArg Vector3.x h
      norm_num [Vector3.cross] at this)).2.2

/-- C8: for every `ek` that is a positive multiple of `(1, 1, 1)` the special case is taken,
the returned vectors are `e1 = (-1, 1, 0) / sqrt 2` and `e2 = (1, 1, -2) / sqrt 6`, and they
are of unit length, orthogonal to each other and both orthogonal to `ek`. -/
theorem transverseBasis_parallel (m : Libm F) (hm : m.Exact) (c : F) (hc : 0 < c) :
    Vector3.isParallelTo m ⟨c, c, c⟩ ⟨1, 1, 1⟩ (1 / 1000) = true ∧
    transverseBasis m ⟨c, c, c⟩ =
      ((⟨-1, 1, 0⟩ : Vector3 F).div (m.sqrt 2), (⟨1, 1, -2⟩ : Vector3 F).div (m.sqrt 6)) ∧
    (transverseBasis m ⟨c, c, c⟩).1.getR m = 1 ∧ (transverseBasis m ⟨c, c, c⟩).2.getR m = 1 ∧
    (transverseBasis m ⟨c, c, c⟩).1.dot (transverseBasis m ⟨c, c, c⟩).2 = 0 ∧
    (transverseBasis m ⟨c, c, c⟩).1.dot ⟨c, c, c⟩ = 0 ∧
    (transverseBasis m ⟨c, c, c⟩).2.dot ⟨c, c, c⟩ = 0 := by
  have h3 : (0 : F) < 1 * 1 + 1 * 1 + 1 * 1 := by norm_num
  have hs := hm.sqrt_mul_self _ h3.le
  have hspos := hm.sqrt_pos h3
  have hek : m.sqrt (c * c + c * c + c * c) = c * m.sqrt (1 * 1 + 1 * 1 + 1 * 1) := by
    apply hm.sqrt_eq (mul_nonneg hc.le hspos.le)
    calc c * m.sqrt (1 * 1 + 1 * 1 + 1 * 1) * (c * m.sqrt (1 * 1 + 1 * 1 + 1 * 1))
        = c * c * (m.sqrt (1 * 1 + 1 * 1 + 1 * 1) * m.sqrt (1 * 1 + 1 * 1 + 1 * 1)) := by ring
      _ = c * c + c * c + c * c := by rw [hs]; ring
  have hpar : Vector3.isParallelTo m ⟨c, c, c⟩ ⟨1, 1, 1⟩ (1 / 1000) = true := by
    simp only [Vector3.isParallelTo, Vector3.getAngleTo, Vector3.dot, Vector3.getR,
      decide_eq_true_eq]
    have hq : (c * 1 + c * 1 + c * 1) / m.sqrt (1 * 1 + 1 * 1 + 1 * 1) /
        m.sqrt (c * c + c * c + c * c) = 1 := by
      rw [hek, div_div, div_eq_one_iff_eq (by positivity)]
      calc c * 1 + c * 1 + c * 1
          = c * (1 * 1 + 1 * 1 + 1 * 1) := by ring
        _ = c * (m.sqrt (1 * 1 + 1 * 1 + 1 * 1) * m.sqrt (1 * 1 + 1 * 1 + 1 * 1)) := by rw [hs]
        _ = m.sqrt (1 * 1 + 1 * 1 + 1 * 1) * (c * m.sqrt (1 * 1 + 1 * 1 + 1 * 1)) := by ring
    rw [hq, hm.acos_one]
    norm_num
  have h2 : ((-1 : F) * -1 + 1 * 1 + 0 * 0) = 2 := by norm_num
  have h6 : ((1 : F) * 1 + 1 * 1 + -2 * -2) = 6 := by norm_num
  have hb : transverseBasis m ⟨c, c, c⟩ =
      ((⟨-1, 1, 0⟩ : Vector3 F).div (m.sqrt 2), (⟨1, 1, -2⟩ : Vector3 F).div (m.sqrt 6)) := by
    simp only [transverseBasis, hpar, if_true, Vector3.getR, h2, h6]
  have hp2 : (0 : F) < (-1) * (-1) + 1 * 1 + 0 * 0 := by norm_num
  have hp6 : (0 : F) < 1 * 1 + 1 * 1 + (-2) * (-2) := by norm_num
  have hn1 := getR_div_getR hm (⟨-1, 1, 0⟩ : Vector3 F) hp2
  have hn2 := getR_div_getR hm (⟨1, 1, -2⟩ : Vector3 F) hp6
  simp only [Vector3.getR, h2, h6] at hn1 hn2
  refine ⟨hpar, hb, ?_, ?_, ?_, ?_, ?_⟩
  · rw [hb]; exact hn1
  · rw [hb]; exact hn2
  · rw [hb, dot_div_div]; simp [Vector3.dot]
  · rw [hb, dot_div_left]; simp [Vector3.dot]
  · rw [hb, dot_div_left]; simp only [Vector3.dot]; ring_nf

/-- C8, for `ek = (1/4, 1/4, 1/4)`. -/
theorem transverseBasis_parallel_witness :
    transverseBasis ⟨Real.sqrt, Real.cos, Real.sin, Real.arccos, Real.pi⟩
        (⟨1 / 4, 1 / 4, 1 / 4⟩ : Vector3 ℝ) =
      ((⟨-1, 1, 0⟩ : Vector3 ℝ).div (Real.sqrt 2), (⟨1, 1, -2⟩ : Vector3 ℝ).div (Real.sqrt 6)) :=
  (transverseBasis_parallel ⟨Real.sqrt, Real.cos, Real.sin, Real.arccos, Real.pi⟩ real_exact
    (1 / 4) (by norm_num)).2.1

end Basis

section Indices

/-- A value below `2 ^ 31` survives the conversions to `size_t` and to `int`. -/
theorem toInt_toSizeT_of_lt (x : Nat) (h : x < 2 ^ 31) : toInt (toSizeT x) = (x : Int) := by
  have h1 : x % 2 ^ 64 = x := Nat.mod_eq_of_lt (by omega)
  have h2 : x % 2 ^ 32 = x := Nat.mod_eq_of_lt (by omega)
  simp only [toInt, toSizeT, h1, h2, if_pos h]

/-- The value `2 ^ 31` stored in an `int` is negative. -/
theorem toInt_toSizeT_two_pow : toInt (toSizeT (2 ^ 31)) < 0 := by
  decide

/-- The loops of lines 68-70 visit `ix < n`, `iy < n`, `iz < n / 2 + 1`. -/
theorem mem_visited (n : Nat) (t : Nat × Nat × Nat) :
    t ∈ visited n ↔ t.1 < n ∧ t.2.1 < n ∧ t.2.2 < n / 2 + 1 := by
  obtain ⟨a, b, c⟩ := t
  simp only [visited, List.mem_flatMap, List.mem_range, List.mem_map, Prod.mk.injEq]
  constructor
  · rintro ⟨ix, hx, iy, hy, iz, hz, rfl, rfl, rfl⟩
    exact ⟨hx, hy, hz⟩
  · rintro ⟨hx, hy, hz⟩
    exact ⟨a, hx, b, hy, c, hz, rfl, rfl, rfl⟩

/-- A range of length `a * b` read as `a` consecutive blocks of length `b`. -/
theorem range_mul_eq_flatMap (a b : Nat) :
    List.range (a * b) = (List.range a).flatMap fun i => (List.range b).map fun j => i * b + j := by
  induction a with
  | zero => simp
  | succ a ih =>
    rw [Nat.succ_mul, List.range_add, ih, List.range_succ, List.flatMap_append]
    simp

/-- In visiting order the exact indices are `0, 1, ..., n * n * n2 - 1`. -/
theorem map_coefficientIndex_visited (n : Nat) :
    (visited n).map (fun t => coefficientIndex n t.1 t.2.1 t.2.2) =
      List.range (n * n * (n / 2 + 1)) := by
  rw [Nat.mul_assoc, range_mul_eq_flatMap n (n * (n / 2 + 1))]
  unfold visited
  rw [List.map_flatMap]
  congr 1
  funext ix
  rw [range_mul_eq_flatMap n (n / 2 + 1), List.map_flatMap, List.map_flatMap]
  congr 1
  funext iy
  rw [List.map_map, List.map_map]
  congr 1
  funext iz
  simp only [Function.comp, coefficientIndex]
  ring

/-- The exact index of a visited wavevector lies inside the arrays. -/
theorem coefficientIndex_lt_of_mem (n : Nat) (t : Nat × Nat × Nat) (ht : t ∈ visited n) :
    coefficientIndex n t.1 t.2.1 t.2.2 < n * n * (n / 2 + 1) := by
  have h : coefficientIndex n t.1 t.2.1 t.2.2 ∈
      (visited n).map (fun t => coefficientIndex n t.1 t.2.1 t.2.2) :=
    List.mem_map_of_mem _ ht
  rw [map_coefficientIndex_visited] at h
  exact List.mem_range.mp h

/-- With at most `2 ^ 31` elements, the index stored in `int i` is the exact one. -/
theorem initTurbulenceIndex_eq (n : Nat) (h : n * n * (n / 2 + 1) ≤ 2 ^ 31)
    (t : Nat × Nat × Nat) (ht : t ∈ visited n) :
    initTurbulenceIndex n t.1 t.2.1 t.2.2 = (coefficientIndex n t.1 t.2.1 t.2.2 : Int) := by
  have hlt := coefficientIndex_lt_of_mem n t ht
  exact toInt_toSizeT_of_lt _ (lt_of_lt_of_le hlt h)

/-- If no visited index is negative as an `int`, the arrays have at most `2 ^ 31` elements. -/
theorem size_le_of_indices_in_range (n : Nat)
    (h : ∀ u ∈ visited n, 0 ≤ initTurbulenceIndex n u.1 u.2.1 u.2.2) :
    n * n * (n / 2 + 1) ≤ 2 ^ 31 := by
  by_contra hn
  have hmem : 2 ^ 31 ∈ List.range (n * n * (n / 2 + 1)) := List.mem_range.mpr (by omega)
  rw [← map_coefficientIndex_visited] at hmem
  obtain ⟨t, ht, he⟩ := List.mem_map.mp hmem
  have h0 := h t ht
  have : initTurbulenceIndex n t.1 t.2.1 t.2.2 = toInt (toSizeT (2 ^ 31)) := by
    rw [← he]; rfl
  rw [this] at h0
  exact absurd toInt_toSizeT_two_pow (not_lt.mpr h0)

/-- Later elements of the visiting order have other indices. -/
theorem coefficientIndex_ne_of_split (n : Nat) (pre post : List (Nat × Nat × Nat))
    (t : Nat × Nat × Nat) (hv : visited n = pre ++ t :: post) :
    ∀ u ∈ post, coefficientIndex n u.1 u.2.1 u.2.2 ≠ coefficientIndex n t.1 t.2.1 t.2.2 := by
  intro u hu he
  have hnd : ((visited n).map (fun t => coefficientIndex n t.1 t.2.1 t.2.2)).Nodup := by
    rw [map_coefficientIndex_visited]; exact List.nodup_range _
  rw [hv, List.map_append, List.map_cons] at hnd
  have h2 := (List.nodup_cons.mp (List.nodup_append.mp hnd).2.1).1
  apply h2
  rw [← he]
  exact List.mem_map_of_mem (fun t => coefficientIndex n t.1 t.2.1 t.2.2) hu

/-- The element at position `k` of a filtered list splits the list, `k` elements of the part
before it passing the filter. -/
theorem filter_getElem_split {α : Type} (p : α → Bool) (L : List α) :
    ∀ (k : Nat) (t : α), (L.filter p)[k]? = some t →
      ∃ pre post, L = pre ++ t :: post ∧ (pre.filter p).length = k ∧ p t = true := by
  induction L with
  | nil => intro k t h; simp at h
  | cons a L ih =>
    intro k t h
    by_cases hp : p a = true
    · rw [List.filter_cons_of_pos hp] at h
      cases k with
      | zero =>
        simp only [List.getElem?_cons_zero, Option.some.injEq] at h
        subst h
        exact ⟨[], L, rfl, rfl, hp⟩
      | succ k =>
        simp only [List.getElem?_cons_succ] at h
        obtain ⟨pre, post, h1, h2, h3⟩ := ih k t h
        refine ⟨a :: pre, post, by rw [h1]; rfl, ?_, h3⟩
        rw [List.filter_cons_of_pos hp, List.length_cons, h2]
    · rw [List.filter_cons_of_neg hp] at h
      obtain ⟨pre, post, h1, h2, h3⟩ := ih k t h
      refine ⟨a :: pre, post, by rw [h1]; rfl, ?_, h3⟩
      rw [List.filter_cons_of_neg hp, h2]

end Indices

section Loop
variable {F : Type} [LinearOrderedField F]

/-- The step succeeds exactly when the index is inside the arrays. -/
theorem synthesisStep_range (m : Libm F) (spectrum : TurbulenceSpectrum F) (n : Nat)
    (K : Nat → F) (kMin kMax lambda : F) (st st' : Synthesis F) (t : Nat × Nat × Nat)
    (h : synthesisStep m spectrum n K kMin kMax lambda st t = .ok st') :
    0 ≤ initTurbulenceIndex n t.1 t.2.1 t.2.2 ∧
      initTurbulenceIndex n t.1 t.2.1 t.2.2 < ((n * n * (n / 2 + 1) : Nat) : Int) := by
  unfold synthesisStep at h
  simp only [] at h
  split_ifs at h with h1 h2
  · push_neg at h1; exact h1
  · push_neg at h1; exact h1

/-- The step succeeds when the index is inside the arrays. -/
theorem synthesisStep_isOk (m : Libm F) (spectrum : TurbulenceSpectrum F) (n : Nat)
    (K : Nat → F) (kMin kMax lambda : F) (st : Synthesis F) (t : Nat × Nat × Nat)
    (h0 : 0 ≤ initTurbulenceIndex n t.1 t.2.1 t.2.2)
    (h1 : initTurbulenceIndex n t.1 t.2.1 t.2.2 < ((n * n * (n / 2 + 1) : Nat) : Int)) :
    ∃ st', synthesisStep m spectrum n K kMin kMax lambda st t = .ok st' := by
  have hr : ¬ (initTurbulenceIndex n t.1 t.2.1 t.2.2 < 0 ∨
      ((n * n * (n / 2 + 1) : Nat) : Int) ≤ initTurbulenceIndex n t.1 t.2.1 t.2.2) := by
    push_neg; exact ⟨h0, h1⟩
  unfold synthesisStep
  simp only [if_neg hr]
  split_ifs
  · exact ⟨_, rfl⟩
  · exact ⟨_, rfl⟩

/-- An out-of-band step stores zeros and leaves the random stream alone. -/
theorem synthesisStep_outOfBand (m : Libm F) (spectrum : TurbulenceSpectrum F) (n : Nat)
    (K : Nat → F) (kMin kMax lambda : F) (st st' : Synthesis F) (t : Nat × Nat × Nat)
    (h : synthesisStep m spectrum n K kMin kMax lambda st t = .ok st')
    (hb : outOfBand m K kMin kMax t = true) :
    st'.random = st.random ∧
    st'.Bkx = Function.update st.Bkx (initTurbulenceIndex n t.1 t.2.1 t.2.2).toNat (some (0, 0)) ∧
    st'.Bky = Function.update st.Bky (initTurbulenceIndex n t.1 t.2.1 t.2.2).toNat (some (0, 0)) ∧
    st'.Bkz = Function.update st.Bkz (initTurbulenceIndex n t.1 t.2.1 t.2.2).toNat (some (0, 0)) := by
  unfold synthesisStep at h
  simp only [hb] at h
  split_ifs at h with h1
  cases h
  exact ⟨rfl, rfl, rfl, rfl⟩

/-- An in-band step stores the coefficients made from the next two draws. -/
theorem synthesisStep_inBand (m : Libm F) (spectrum : TurbulenceSpectrum F) (n : Nat)
    (K : Nat → F) (kMin kMax lambda : F) (st st' : Synthesis F) (t : Nat × Nat × Nat)
    (h : synthesisStep m spectrum n K kMin kMax lambda st t = .ok st')
    (hb : outOfBand m K kMin kMax t = false) :
    st'.random = ⟨st.random.stream, st.random.drawn + 2⟩ ∧
    st'.Bkx = Function.update st.Bkx (initTurbulenceIndex n t.1 t.2.1 t.2.2).toNat
      (some (modeCoefficients m spectrum lambda ⟨K t.1, K t.2.1, K t.2.2⟩
        (st.random.stream st.random.drawn) (st.random.stream (st.random.drawn + 1))).1) ∧
    st'.Bky = Function.update st.Bky (initTurbulenceIndex n t.1 t.2.1 t.2.2).toNat
      (some (modeCoefficients m spectrum lambda ⟨K t.1, K t.2.1, K t.2.2⟩
        (st.random.stream st.random.drawn) (st.random.stream (st.random.drawn + 1))).2.1) ∧
    st'.Bkz = Function.update st.Bkz (initTurbulenceIndex n t.1 t.2.1 t.2.2).toNat
      (some (modeCoefficients m spectrum lambda ⟨K t.1, K t.2.1, K t.2.2⟩
        (st.random.stream st.random.drawn) (st.random.stream (st.random.drawn + 1))).2.2) := by
  unfold synthesisStep at h
  simp only [hb, Bool.false_eq_true, if_false] at h
  split_ifs at h with h1
  cases h
  exact ⟨rfl, rfl, rfl, rfl⟩


/-- In a loop that completes every index was inside the arrays. -/
theorem foldlM_synthesisStep_range (m : Libm F) (spectrum : TurbulenceSpectrum F) (n : Nat)
    (K : Nat → F) (kMin kMax lambda : F) (L : List (Nat × Nat × Nat)) :
    ∀ (st st' : Synthesis F),
      L.foldlM (synthesisStep m spectrum n K kMin kMax lambda) st = .ok st' →
      ∀ u ∈ L, 0 ≤ initTurbulenceIndex n u.1 u.2.1 u.2.2 ∧
        initTurbulenceIndex n u.1 u.2.1 u.2.2 < ((n * n * (n / 2 + 1) : Nat) : Int) := by
  induction L with
  | nil => intro st st' _ u hu; cases hu
  | cons t L ih =>
    intro st st' h u hu
    rw [List.foldlM_cons] at h
    cases hs : synthesisStep m spectrum n K kMin kMax lambda st t with
    | error e => rw [hs] at h; cases h
    | ok s1 =>
      rw [hs] at h
      rcases List.mem_cons.mp hu with rfl | hu
      · exact synthesisStep_range m spectrum n K kMin kMax lambda st s1 u hs
      · exact ih s1 st' h u hu

/-- The loop completes when every index is inside the arrays. -/
theorem foldlM_synthesisStep_isOk (m : Libm F) (spectrum : TurbulenceSpectrum F) (n : Nat)
    (K : Nat → F) (kMin kMax lambda : F) (L : List (Nat × Nat × Nat))
    (hL : ∀ u ∈ L, 0 ≤ initTurbulenceIndex n u.1 u.2.1 u.2.2 ∧
        initTurbulenceIndex n u.1 u.2.1 u.2.2 < ((n * n * (n / 2 + 1) : Nat) : Int)) :
    ∀ st : Synthesis F, ∃ st', L.foldlM (synthesisStep m spectrum n K kMin kMax lambda) st = .ok st' := by
  induction L with
  | nil => intro st; exact ⟨st, rfl⟩
  | cons t L ih =>
    intro st
    obtain ⟨s1, hs⟩ := synthesisStep_isOk m spectrum n K kMin kMax lambda st t
      (hL t (List.mem_cons_self _ _)).1 (hL t (List.mem_cons_self _ _)).2
    obtain ⟨st', h⟩ := ih (fun u hu => hL u (List.mem_cons_of_mem _ hu)) s1
    refine ⟨st', ?_⟩
    rw [List.foldlM_cons, hs]
    exact h

/-- The loop draws two values per in-band wavevector and leaves alone the elements whose
index it does not compute. -/
theorem foldlM_synthesisStep_frame (m : Libm F) (spectrum : TurbulenceSpectrum F) (n : Nat)
    (K : Nat → F) (kMin kMax lambda : F) (L : List (Nat × Nat × Nat)) :
    ∀ (st st' : Synthesis F),
      L.foldlM (synthesisStep m spectrum n K kMin kMax lambda) st = .ok st' →
      st'.random = ⟨st.random.stream,
        st.random.drawn + 2 * (L.filter fun u => !outOfBand m K kMin kMax u).length⟩ ∧
      ∀ j, (∀ u ∈ L, (initTurbulenceIndex n u.1 u.2.1 u.2.2).toNat ≠ j) →
        st'.Bkx j = st.Bkx j ∧ st'.Bky j = st.Bky j ∧ st'.Bkz j = st.Bkz j := by
  induction L with
  | nil =>
    intro st st' h
    cases h
    exact ⟨rfl, fun j _ => ⟨rfl, rfl, rfl⟩⟩
  | cons t L ih =>
    intro st st' h
    rw [List.foldlM_cons] at h
    cases hs : synthesisStep m spectrum n K kMin kMax lambda st t with
    | error e => rw [hs] at h; cases h
    | ok s1 =>
      rw [hs] at h
      obtain ⟨hr, hf⟩ := ih s1 st' h
      cases hb : outOfBand m K kMin kMax t with
      | true =>
        obtain ⟨h1, h2, h3, h4⟩ := synthesisStep_outOfBand m spectrum n K kMin kMax lambda st s1 t hs hb
        constructor
        · rw [hr, h1]; simp [List.filter_cons, hb]
        · intro j hj
          obtain ⟨g1, g2, g3⟩ := hf j (fun u hu => hj u (List.mem_cons_of_mem _ hu))
          have hne : j ≠ (initTurbulenceIndex n t.1 t.2.1 t.2.2).toNat :=
            fun e => hj t (List.mem_cons_self _ _) e.symm
          rw [g1, g2, g3, h2, h3, h4]
          exact ⟨Function.update_noteq hne _ _, Function.update_noteq hne _ _,
            Function.update_noteq hne _ _⟩
      | false =>
        obtain ⟨h1, h2, h3, h4⟩ := synthesisStep_inBand m spectrum n K kMin kMax lambda st s1 t hs hb
        constructor
        · rw [hr, h1]; simp [List.filter_cons, hb]; ring
        · intro j hj
          obtain ⟨g1, g2, g3⟩ := hf j (fun u hu => hj u (List.mem_cons_of_mem _ hu))
          have hne : j ≠ (initTurbulenceIndex n t.1 t.2.1 t.2.2).toNat :=
            fun e => hj t (List.mem_cons_self _ _) e.symm
          rw [g1, g2, g3, h2, h3, h4]
          exact ⟨Function.update_noteq hne _ _, Function.update_noteq hne _ _,
            Function.update_noteq hne _ _⟩


/-- In a loop that completes, what the element of `t` holds when no later wavevector has the
same index: zeros, or the coefficients made from the two draws that follow those of the
in-band wavevectors before `t`. -/
theorem foldlM_synthesisStep_written (m : Libm F) (spectrum : TurbulenceSpectrum F) (n : Nat)
    (K : Nat → F) (kMin kMax lambda : F) (pre post : List (Nat × Nat × Nat))
    (t : Nat × Nat × Nat) (st st' : Synthesis F)
    (h : (pre ++ t :: post).foldlM (synthesisStep m spectrum n K kMin kMax lambda) st = .ok st')
    (hpost : ∀ u ∈ post, (initTurbulenceIndex n u.1 u.2.1 u.2.2).toNat ≠
      (initTurbulenceIndex n t.1 t.2.1 t.2.2).toNat) :
    (outOfBand m K kMin kMax t = true →
      st'.Bkx (initTurbulenceIndex n t.1 t.2.1 t.2.2).toNat = some (0, 0) ∧
      st'.Bky (initTurbulenceIndex n t.1 t.2.1 t.2.2).toNat = some (0, 0) ∧
      st'.Bkz (initTurbulenceIndex n t.1 t.2.1 t.2.2).toNat = some (0, 0)) ∧
    (outOfBand m K kMin kMax t = false →
      (st'.Bkx (initTurbulenceIndex n t.1 t.2.1 t.2.2).toNat,
       st'.Bky (initTurbulenceIndex n t.1 t.2.1 t.2.2).toNat,
       st'.Bkz (initTurbulenceIndex n t.1 t.2.1 t.2.2).toNat) =
      (some (modeCoefficients m spectrum lambda ⟨K t.1, K t.2.1, K t.2.2⟩
        (st.random.stream
          (st.random.drawn + 2 * (pre.filter fun u => !outOfBand m K kMin kMax u).length))
        (st.random.stream
          (st.random.drawn + 2 * (pre.filter fun u => !outOfBand m K kMin kMax u).length + 1))).1,
       some (modeCoefficients m spectrum lambda ⟨K t.1, K t.2.1, K t.2.2⟩
        (st.random.stream
          (st.random.drawn + 2 * (pre.filter fun u => !outOfBand m K kMin kMax u).length))
        (st.random.stream
          (st.random.drawn + 2 * (pre.filter fun u => !outOfBand m K kMin kMax u).length + 1))).2.1,
       some (modeCoefficients m spectrum lambda ⟨K t.1, K t.2.1, K t.2.2⟩
        (st.random.stream
          (st.random.drawn + 2 * (pre.filter fun u => !outOfBand m K kMin kMax u).length))
        (st.random.stream
          (st.random.drawn + 2 * (pre.filter fun u => !outOfBand m K kMin kMax u).length + 1))).2.2)) := by
  rw [List.foldlM_append] at h
  cases hp : pre.foldlM (synthesisStep m spectrum n K kMin kMax lambda) st with
  | error e => rw [hp] at h; cases h
  | ok s1 =>
    rw [hp] at h
    change (t :: post).foldlM (synthesisStep m spectrum n K kMin kMax lambda) s1 = .ok st' at h
    rw [List.foldlM_cons] at h
    cases hs : synthesisStep m spectrum n K kMin kMax lambda s1 t with
    | error e => rw [hs] at h; cases h
    | ok s2 =>
      rw [hs] at h
      change post.foldlM (synthesisStep m spectrum n K kMin kMax lambda) s2 = .ok st' at h
      obtain ⟨hr1, -⟩ := foldlM_synthesisStep_frame m spectrum n K kMin kMax lambda pre st s1 hp
      obtain ⟨-, hf⟩ := foldlM_synthesisStep_frame m spectrum n K kMin kMax lambda post s2 st' h
      obtain ⟨g1, g2, g3⟩ := hf _ hpost
      constructor
      · intro hb
        obtain ⟨-, h2, h3, h4⟩ :=
          synthesisStep_outOfBand m spectrum n K kMin kMax lambda s1 s2 t hs hb
        rw [g1, g2, g3, h2, h3, h4]
        simp only [Function.update_same, and_self]
      · intro hb
        obtain ⟨-, h2, h3, h4⟩ :=
          synthesisStep_inBand m spectrum n K kMin kMax lambda s1 s2 t hs hb
        rw [g1, g2, g3, h2, h3, h4, hr1]
        simp only [Function.update_same]

end Loop

section Synth
variable {F : Type} [LinearOrderedField F]

/-- The loop of `synthesize`, once the wavenumber table is filled. -/
theorem synthesize_eq_foldlM (m : Libm F) (rng : Nat → Nat → F) (entropy : Nat)
    (spectrum : TurbulenceSpectrum F) (grid : Grid3 F) (seed : Nat) (out : Synthesis F)
    (h : synthesize m rng entropy spectrum grid seed = .ok out) :
    grid.Nx ≠ 1 ∧
    (visited grid.Nx).foldlM
      (synthesisStep m spectrum grid.Nx (fun i => wavenumber grid.Nx i)
        (kMin spectrum grid) (kMax spectrum grid)
        (lambda m spectrum grid))
      { Bkx := fun _ => none, Bky := fun _ => none, Bkz := fun _ => none,
        random := ⟨rng (if seed ≠ 0 then seed else entropy), 0⟩ } = .ok out := by
  by_cases hK : 0 < grid.Nx ∧ grid.Nx / 2 = 0
  · unfold synthesize wavenumberTable at h
    simp only [if_pos hK] at h
    cases h
  · refine ⟨fun hn => hK (by rw [hn]; decide), ?_⟩
    unfold synthesize wavenumberTable at h
    simp only [if_neg hK] at h
    rw [← h]
    by_cases hs : seed = 0
    · simp [Random.default, Random.seed, hs]
    · simp [Random.default, Random.seed, hs]

/-- The run of `synthesize` completes when the grid has not exactly one cell per axis and
the coefficient arrays have at most `2 ^ 31` elements. -/
theorem synthesize_isOk (m : Libm F) (rng : Nat → Nat → F) (entropy : Nat)
    (spectrum : TurbulenceSpectrum F) (grid : Grid3 F) (seed : Nat)
    (h1 : grid.Nx ≠ 1) (h2 : grid.Nx * grid.Nx * (grid.Nx / 2 + 1) ≤ 2 ^ 31) :
    ∃ out, synthesize m rng entropy spectrum grid seed = .ok out := by
  have hK : ¬ (0 < grid.Nx ∧ grid.Nx / 2 = 0) := by
    rintro ⟨ha, hb⟩
    apply h1
    omega
  unfold synthesize wavenumberTable
  simp only [if_neg hK]
  apply foldlM_synthesisStep_isOk
  intro u hu
  rw [initTurbulenceIndex_eq grid.Nx h2 u hu]
  exact ⟨Int.natCast_nonneg _, by exact_mod_cast coefficientIndex_lt_of_mem grid.Nx u hu⟩


/-- The run of `synthesize` completes exactly when the grid has not exactly one cell per axis
and the coefficient arrays have at most `2 ^ 31` elements. -/
theorem synthesize_isOk_iff (m : Libm F) (rng : Nat → Nat → F) (entropy : Nat)
    (spectrum : TurbulenceSpectrum F) (grid : Grid3 F) (seed : Nat) :
    (∃ out, synthesize m rng entropy spectrum grid seed = .ok out) ↔
      grid.Nx ≠ 1 ∧ grid.Nx * grid.Nx * (grid.Nx / 2 + 1) ≤ 2 ^ 31 := by
  constructor
  · rintro ⟨out, h⟩
    obtain ⟨h1, hf⟩ := synthesize_eq_foldlM m rng entropy spectrum grid seed out h
    have hrange := foldlM_synthesisStep_range m spectrum grid.Nx _ _ _ _ _ _ _ hf
    exact ⟨h1, size_le_of_indices_in_range grid.Nx (fun u hu => (hrange u hu).1)⟩
  · rintro ⟨h1, h2⟩
    exact synthesize_isOk m rng entropy spectrum grid seed h1 h2

/-- What a completed run of `synthesize` has stored for the wavevector `t`, in terms of the
exact index `coefficientIndex`: zeros when `t` is out of band, and else the coefficients made
from the two draws that follow those of the in-band wavevectors visited before `t`. -/
theorem synthesize_written (m : Libm F) (rng : Nat → Nat → F) (entropy : Nat)
    (spectrum : TurbulenceSpectrum F) (grid : Grid3 F) (seed : Nat) (out : Synthesis F)
    (h : synthesize m rng entropy spectrum grid seed = .ok out)
    (pre post : List (Nat × Nat × Nat)) (t : Nat × Nat × Nat)
    (hv : visited grid.Nx = pre ++ t :: post) :
    (outOfBand m (fun i => wavenumber grid.Nx i) (kMin spectrum grid) (kMax spectrum grid) t = true →
      out.Bkx (coefficientIndex grid.Nx t.1 t.2.1 t.2.2) = some (0, 0) ∧
      out.Bky (coefficientIndex grid.Nx t.1 t.2.1 t.2.2) = some (0, 0) ∧
      out.Bkz (coefficientIndex grid.Nx t.1 t.2.1 t.2.2) = some (0, 0)) ∧
    (outOfBand m (fun i => wavenumber grid.Nx i) (kMin spectrum grid) (kMax spectrum grid) t = false →
      (out.Bkx (coefficientIndex grid.Nx t.1 t.2.1 t.2.2),
       out.Bky (coefficientIndex grid.Nx t.1 t.2.1 t.2.2),
       out.Bkz (coefficientIndex grid.Nx t.1 t.2.1 t.2.2)) =
      (some (modeCoefficients m spectrum (lambda m spectrum grid)
        (wavevector grid.Nx t.1 t.2.1 t.2.2)
        (rng (if seed ≠ 0 then seed else entropy)
          (2 * (pre.filter fun u => !outOfBand m (fun i => wavenumber grid.Nx i)
            (kMin spectrum grid) (kMax spectrum grid) u).length))
        (rng (if seed ≠ 0 then seed else entropy)
          (2 * (pre.filter fun u => !outOfBand m (fun i => wavenumber grid.Nx i)
            (kMin spectrum grid) (kMax spectrum grid) u).length
            + 1))).1,
       some (modeCoefficients m spectrum (lambda m spectrum grid)
        (wavevector grid.Nx t.1 t.2.1 t.2.2)
        (rng (if seed ≠ 0 then seed else entropy)
          (2 * (pre.filter fun u => !outOfBand m (fun i => wavenumber grid.Nx i)
            (kMin spectrum grid) (kMax spectrum grid) u).length))
        (rng (if seed ≠ 0 then seed else entropy)
          (2 * (pre.filter fun u => !outOfBand m (fun i => wavenumber grid.Nx i)
            (kMin spectrum grid) (kMax spectrum grid) u).length
            + 1))).2.1,
       some (modeCoefficients m spectrum (lambda m spectrum grid)
        (wavevector grid.Nx t.1 t.2.1 t.2.2)
        (rng (if seed ≠ 0 then seed else entropy)
          (2 * (pre.filter fun u => !outOfBand m (fun i => wavenumber grid.Nx i)
            (kMin spectrum grid) (kMax spectrum grid) u).length))
        (rng (if seed ≠ 0 then seed else entropy)
          (2 * (pre.filter fun u => !outOfBand m (fun i => wavenumber grid.Nx i)
            (kMin spectrum grid) (kMax spectrum grid) u).length
            + 1))).2.2)) := by
  obtain ⟨-, hf⟩ := synthesize_eq_foldlM m rng entropy spectrum grid seed out h
  have hrange := foldlM_synthesisStep_range m spectrum grid.Nx _ _ _ _ _ _ _ hf
  have hsize := size_le_of_indices_in_range grid.Nx (fun u hu => (hrange u hu).1)
  have hkey : ∀ u ∈ visited grid.Nx, (initTurbulenceIndex grid.Nx u.1 u.2.1 u.2.2).toNat =
      coefficientIndex grid.Nx u.1 u.2.1 u.2.2 := by
    intro u hu
    rw [initTurbulenceIndex_eq grid.Nx hsize u hu]
    exact Int.toNat_natCast _
  have ht : t ∈ visited grid.Nx := by rw [hv]; simp
  have hpost : ∀ u ∈ post, (initTurbulenceIndex grid.Nx u.1 u.2.1 u.2.2).toNat ≠
      (initTurbulenceIndex grid.Nx t.1 t.2.1 t.2.2).toNat := by
    intro u hu
    have hu2 : u ∈ visited grid.Nx := by rw [hv]; simp [hu]
    rw [hkey u hu2, hkey t ht]
    exact coefficientIndex_ne_of_split grid.Nx pre post t hv u hu
  rw [hv] at hf
  have hw := foldlM_synthesisStep_written m spectrum grid.Nx _ _ _ _ pre post t _ out hf hpost
  rw [hkey t ht] at hw
  simpa only [Nat.zero_add] using hw

/-- Zeros outside the band, in the runs that complete: for every grid size, spectrum and
random stream, a run of the synthesis loop that completes has stored exactly zero, in the real and in the imaginary part of `Bkx`, `Bky` and
`Bkz`, at the index `ix * n * n2 + iy * n2 + iz` of every visited wavevector whose magnitude
`k` satisfies `k < kMin` or `k > kMax`; and the run completes whenever `n ≠ 1` and the arrays
have at most `2 ^ 31` elements. -/
theorem synthesize_zero_outside_band (m : Libm F) (rng : Nat → Nat → F) (entropy : Nat)
    (spectrum : TurbulenceSpectrum F) (grid : Grid3 F) (seed : Nat) :
    (grid.Nx ≠ 1 → grid.Nx * grid.Nx * (grid.Nx / 2 + 1) ≤ 2 ^ 31 →
      ∃ out, synthesize m rng entropy spectrum grid seed = .ok out) ∧
    ∀ out, synthesize m rng entropy spectrum grid seed = .ok out →
      ∀ ix iy iz, ix < grid.Nx → iy < grid.Nx → iz < grid.Nx / 2 + 1 →
        ((wavevector grid.Nx ix iy iz).getR m < kMin spectrum grid ∨
          (wavevector grid.Nx ix iy iz).getR m > kMax spectrum grid) →
        out.Bkx (coefficientIndex grid.Nx ix iy iz) = some (0, 0) ∧
        out.Bky (coefficientIndex grid.Nx ix iy iz) = some (0, 0) ∧
        out.Bkz (coefficientIndex grid.Nx ix iy iz) = some (0, 0) := by
  refine ⟨synthesize_isOk m rng entropy spectrum grid seed, ?_⟩
  intro out h ix iy iz hx hy hz hk
  have hmem : (ix, iy, iz) ∈ visited grid.Nx := (mem_visited _ _).mpr ⟨hx, hy, hz⟩
  obtain ⟨pre, post, hv⟩ := List.append_of_mem hmem
  have hb : outOfBand m (fun i => wavenumber grid.Nx i) (kMin spectrum grid)
      (kMax spectrum grid) (ix, iy, iz) = true := by
    simp only [outOfBand, decide_eq_true_eq]
    exact hk
  exact (synthesize_written m rng entropy spectrum grid seed out h pre post (ix, iy, iz) hv).1 hb

/-- Zeros outside the band on the grid of 2 cells per axis, at the wavevector `(0, 0, 0)`,
whose magnitude 0 is below `kMin = 1 / 2`. -/
theorem synthesize_zero_outside_band_witness :
    ∃ out, synthesize (F := ℝ) ⟨Real.sqrt, Real.cos, Real.sin, Real.arccos, Real.pi⟩
        (fun _ _ => 0) 0 ⟨1, 2, 2, 8, fun _ => 1⟩
        ⟨2, 2, 2, ⟨1, 1, 1⟩, fun _ _ _ => ⟨0, 0, 0⟩⟩ 42 = .ok out ∧
      out.Bkx 0 = some (0, 0) ∧ out.Bky 0 = some (0, 0) ∧ out.Bkz 0 = some (0, 0) := by
  obtain ⟨out, h⟩ := (synthesize_zero_outside_band (F := ℝ)
    ⟨Real.sqrt, Real.cos, Real.sin, Real.arccos, Real.pi⟩ (fun _ _ => 0) 0
    ⟨1, 2, 2, 8, fun _ => 1⟩ ⟨2, 2, 2, ⟨1, 1, 1⟩, fun _ _ _ => ⟨0, 0, 0⟩⟩ 42).1
    (by decide) (by decide)
  refine ⟨out, h, ?_⟩
  exact (synthesize_zero_outside_band (F := ℝ)
    ⟨Real.sqrt, Real.cos, Real.sin, Real.arccos, Real.pi⟩ (fun _ _ => 0) 0
    ⟨1, 2, 2, 8, fun _ => 1⟩ ⟨2, 2, 2, ⟨1, 1, 1⟩, fun _ _ _ => ⟨0, 0, 0⟩⟩ 42).2 out h 0 0 0
    (by decide) (by decide) (by decide)
    (Or.inl (by simp [Vector3.getR, wavevector, wavenumber, kMin]))

/-- The draws a completed run of `synthesize` has consumed. -/
theorem synthesize_random (m : Libm F) (rng : Nat → Nat → F) (entropy : Nat)
    (spectrum : TurbulenceSpectrum F) (grid : Grid3 F) (seed : Nat) (out : Synthesis F)
    (h : synthesize m rng entropy spectrum grid seed = .ok out) :
    out.random = ⟨rng (if seed ≠ 0 then seed else entropy),
      2 * (inBandWavevectors m spectrum grid).length⟩ := by
  obtain ⟨-, hf⟩ := synthesize_eq_foldlM m rng entropy spectrum grid seed out h
  have hr := (foldlM_synthesisStep_frame m spectrum grid.Nx _ _ _ _ _ _ out hf).1
  rw [hr]
  simp only [Nat.zero_add, inBandWavevectors]

/-- The draw order in the runs that complete. An out-of-band wavevector consumes no draw and
an in-band one exactly two; the run completes exactly when `n ≠ 1` and the arrays have at most
`2 ^ 31` elements; in a run that completes, the `k`-th in-band wavevector in row-major order
(from `k = 0`) has the coefficients `(b * cos(phase), b * sin(phase))` with
`b = (e1 * cos(theta) + e2 * sin(theta)) * sqrt(E)`, where `theta / (2 * pi)` is draw `2 * k`
and `phase / (2 * pi)` is draw `2 * k + 1`, and the number of draws is twice the number of
in-band wavevectors. -/
theorem synthesize_draw_order (m : Libm F) (rng : Nat → Nat → F) (entropy : Nat)
    (spectrum : TurbulenceSpectrum F) (grid : Grid3 F) (seed : Nat) :
    (∀ (st st' : Synthesis F) (t : Nat × Nat × Nat),
      synthesisStep m spectrum grid.Nx (fun i => wavenumber grid.Nx i) (kMin spectrum grid)
        (kMax spectrum grid) (lambda m spectrum grid) st t = .ok st' →
      st'.random.stream = st.random.stream ∧
      st'.random.drawn = st.random.drawn +
        (if outOfBand m (fun i => wavenumber grid.Nx i) (kMin spectrum grid)
          (kMax spectrum grid) t then 0 else 2)) ∧
    ((∃ out, synthesize m rng entropy spectrum grid seed = .ok out) ↔
      grid.Nx ≠ 1 ∧ grid.Nx * grid.Nx * (grid.Nx / 2 + 1) ≤ 2 ^ 31) ∧
    ∀ out, synthesize m rng entropy spectrum grid seed = .ok out →
      out.random.stream = rng (if seed ≠ 0 then seed else entropy) ∧
      out.random.drawn = 2 * (inBandWavevectors m spectrum grid).length ∧
      ∀ (k : Nat) (t : Nat × Nat × Nat), (inBandWavevectors m spectrum grid)[k]? = some t →
        ∃ b : Vector3 F,
          b = (((transverseBasis m (wavevector grid.Nx t.1 t.2.1 t.2.2)).1.mul
                (m.cos (2 * m.pi * rng (if seed ≠ 0 then seed else entropy) (2 * k)))).add
              ((transverseBasis m (wavevector grid.Nx t.1 t.2.1 t.2.2)).2.mul
                (m.sin (2 * m.pi * rng (if seed ≠ 0 then seed else entropy) (2 * k))))).mul
            (m.sqrt (spectrum.energySpectrum
              ((wavevector (F := F) grid.Nx t.1 t.2.1 t.2.2).getR m *
                lambda m spectrum grid))) ∧
          out.Bkx (coefficientIndex grid.Nx t.1 t.2.1 t.2.2) = some
            (b.x * m.cos (2 * m.pi * rng (if seed ≠ 0 then seed else entropy) (2 * k + 1)),
             b.x * m.sin (2 * m.pi * rng (if seed ≠ 0 then seed else entropy) (2 * k + 1))) ∧
          out.Bky (coefficientIndex grid.Nx t.1 t.2.1 t.2.2) = some
            (b.y * m.cos (2 * m.pi * rng (if seed ≠ 0 then seed else entropy) (2 * k + 1)),
             b.y * m.sin (2 * m.pi * rng (if seed ≠ 0 then seed else entropy) (2 * k + 1))) ∧
          out.Bkz (coefficientIndex grid.Nx t.1 t.2.1 t.2.2) = some
            (b.z * m.cos (2 * m.pi * rng (if seed ≠ 0 then seed else entropy) (2 * k + 1)),
             b.z * m.sin (2 * m.pi * rng (if seed ≠ 0 then seed else entropy) (2 * k + 1))) := by
  refine ⟨?_, synthesize_isOk_iff m rng entropy spectrum grid seed, ?_⟩
  · intro st st' t hs
    cases hb : outOfBand m (fun i => wavenumber grid.Nx i) (kMin spectrum grid)
        (kMax spectrum grid) t with
    | true =>
      have h1 := (synthesisStep_outOfBand m spectrum grid.Nx _ _ _ _ st st' t hs hb).1
      rw [h1]
      simp
    | false =>
      have h1 := (synthesisStep_inBand m spectrum grid.Nx _ _ _ _ st st' t hs hb).1
      rw [h1]
      simp
  · intro out h
    have hr := synthesize_random m rng entropy spectrum grid seed out h
    refine ⟨by rw [hr], by rw [hr], ?_⟩
    intro k t hk
    obtain ⟨pre, post, hv, hlen, hp⟩ := filter_getElem_split _ (visited grid.Nx) k t hk
    have hb : outOfBand m (fun i => wavenumber grid.Nx i) (kMin spectrum grid)
        (kMax spectrum grid) t = false := by
      simpa using hp
    have hw := (synthesize_written m rng entropy spectrum grid seed out h pre post t hv).2 hb
    rw [hlen] at hw
    simp only [Prod.mk.injEq] at hw
    refine ⟨_, rfl, ?_, ?_, ?_⟩
    · rw [hw.1]; rfl
    · rw [hw.2.1]; rfl
    · rw [hw.2.2]; rfl

/-- The draw order on the grid of 2 cells per axis with `kMin = kMax = 1 / 2`: the first
in-band wavevector in row-major order is `(0, 0, 1)`, and its coefficients (at index 1) are
made with the draw 0 of the stream of seed 42 as the angle and the draw 1 as the phase. -/
theorem synthesize_draw_order_witness :
    ∃ out, synthesize (F := ℝ) ⟨Real.sqrt, Real.cos, Real.sin, Real.arccos, Real.pi⟩
        (fun s i => ((s + i : Nat) : ℝ) / 100) 0 ⟨1, 2, 2, 8, fun _ => 1⟩
        ⟨2, 2, 2, ⟨1, 1, 1⟩, fun _ _ _ => ⟨0, 0, 0⟩⟩ 42 = .ok out ∧
      ∃ b : Vector3 ℝ,
        b = (((transverseBasis ⟨Real.sqrt, Real.cos, Real.sin, Real.arccos, Real.pi⟩
                (wavevector 2 0 0 1)).1.mul
                (Real.cos (2 * Real.pi * (((42 + 2 * 0 : Nat) : ℝ) / 100)))).add
              ((transverseBasis ⟨Real.sqrt, Real.cos, Real.sin, Real.arccos, Real.pi⟩
                (wavevector 2 0 0 1)).2.mul
                (Real.sin (2 * Real.pi * (((42 + 2 * 0 : Nat) : ℝ) / 100))))).mul
            (Real.sqrt 1) ∧
        out.Bkx 1 = some
          (b.x * Real.cos (2 * Real.pi * (((42 + (2 * 0 + 1) : Nat) : ℝ) / 100)),
           b.x * Real.sin (2 * Real.pi * (((42 + (2 * 0 + 1) : Nat) : ℝ) / 100))) := by
  obtain ⟨out, h⟩ := synthesize_isOk (F := ℝ)
    ⟨Real.sqrt, Real.cos, Real.sin, Real.arccos, Real.pi⟩ (fun s i => ((s + i : Nat) : ℝ) / 100) 0
    ⟨1, 2, 2, 8, fun _ => 1⟩ ⟨2, 2, 2, ⟨1, 1, 1⟩, fun _ _ _ => ⟨0, 0, 0⟩⟩ 42
    (by decide) (by decide)
  refine ⟨out, h, ?_⟩
  have hv : visited 2 =
      [(0, 0, 0), (0, 0, 1), (0, 1, 0), (0, 1, 1), (1, 0, 0), (1, 0, 1), (1, 1, 0), (1, 1, 1)] := by
    decide
  have hs : Real.sqrt (((2 : ℝ)⁻¹ - 1) * (2⁻¹ - 1)) = 2⁻¹ := by
    rw [Real.sqrt_mul_self_eq_abs, abs_of_neg (by norm_num)]; norm_num
  have hk : (inBandWavevectors (F := ℝ) ⟨Real.sqrt, Real.cos, Real.sin, Real.arccos, Real.pi⟩
      ⟨1, 2, 2, 8, fun _ => 1⟩ ⟨2, 2, 2, ⟨1, 1, 1⟩, fun _ _ _ => ⟨0, 0, 0⟩⟩)[0]?
      = some (0, 0, 1) := by
    simp [inBandWavevectors, hv, List.filter_cons, outOfBand, Vector3.getR, wavenumber, kMin,
      kMax, hs]
  obtain ⟨b, hb, hx, -, -⟩ := ((synthesize_draw_order (F := ℝ)
    ⟨Real.sqrt, Real.cos, Real.sin, Real.arccos, Real.pi⟩ (fun s i => ((s + i : Nat) : ℝ) / 100) 0
    ⟨1, 2, 2, 8, fun _ => 1⟩ ⟨2, 2, 2, ⟨1, 1, 1⟩, fun _ _ _ => ⟨0, 0, 0⟩⟩ 42).2.2 out h).2.2
    0 (0, 0, 1) hk
  exact ⟨b, hb, hx⟩

end Synth

section Determinism
variable {F : Type} [LinearOrderedField F]

/-- With a nonzero seed the synthesis does not depend on how the default constructor of
`Random` seeded the generator. -/
theorem synthesize_seeded (m : Libm F) (rng : Nat → Nat → F) (entropy1 entropy2 : Nat)
    (spectrum : TurbulenceSpectrum F) (grid : Grid3 F) (seed : Nat) (hseed : seed ≠ 0) :
    synthesize m rng entropy1 spectrum grid seed = synthesize m rng entropy2 spectrum grid seed := by
  unfold synthesize
  simp only [if_pos hseed, Random.seed]

/-- C6: for every nonzero seed, two runs of the constructor with the same spectrum, grid
properties and seed end the same way, with identical coefficient arrays, identical draw
counts and identical output grids, whatever the generator was seeded with before
`random.seed(seed)`. -/
theorem construct_deterministic (m : Libm F) (c2r : Nat → (Nat → Option (F × F)) → Nat → F)
    (rng : Nat → Nat → F) (entropy1 entropy2 : Nat) (spectrum : TurbulenceSpectrum F)
    (gridProp : GridProperties F) (seed : Nat) (hseed : seed ≠ 0) :
    construct m c2r rng entropy1 spectrum gridProp seed =
      construct m c2r rng entropy2 spectrum gridProp seed := by
  have hs := synthesize_seeded m rng entropy1 entropy2 spectrum (initGrid gridProp) seed hseed
  have hi : initTurbulence m c2r rng entropy1 spectrum (initGrid gridProp) seed =
      initTurbulence m c2r rng entropy2 spectrum (initGrid gridProp) seed := by
    unfold initTurbulence unnormalizedField
    rw [hs]
  unfold construct
  simp only [hs, hi]

/-- C6, for seed 42 on the grid of 2 cells per axis, the generator seeded with 0 or with 1 by
its default constructor. -/
theorem construct_deterministic_witness :
    construct (F := ℝ) ⟨Real.sqrt, Real.cos, Real.sin, Real.arccos, Real.pi⟩ (fun _ _ _ => 0)
        (fun s i => ((s + i : Nat) : ℝ) / 100) 0 ⟨1, 2, 2, 8, fun _ => 1⟩
        ⟨2, 2, 2, ⟨1, 1, 1⟩⟩ 42 =
      construct (F := ℝ) ⟨Real.sqrt, Real.cos, Real.sin, Real.arccos, Real.pi⟩ (fun _ _ _ => 0)
        (fun s i => ((s + i : Nat) : ℝ) / 100) 1 ⟨1, 2, 2, 8, fun _ => 1⟩
        ⟨2, 2, 2, ⟨1, 1, 1⟩⟩ 42 :=
  construct_deterministic _ _ _ 0 1 _ _ 42 (by decide)

end Determinism

section Copy
variable {F : Type}

/-- The loops of lines 180-182 visit `ix < n`, `iy < n`, `iz < n`. -/
theorem mem_cells (n : Nat) (t : Nat × Nat × Nat) :
    t ∈ cells n ↔ t.1 < n ∧ t.2.1 < n ∧ t.2.2 < n := by
  obtain ⟨a, b, c⟩ := t
  simp only [cells, List.mem_flatMap, List.mem_range, List.mem_map, Prod.mk.injEq]
  constructor
  · rintro ⟨ix, hx, iy, hy, iz, hz, rfl, rfl, rfl⟩
    exact ⟨hx, hy, hz⟩
  · rintro ⟨hx, hy, hz⟩
    exact ⟨a, hx, b, hy, c, hz, rfl, rfl, rfl⟩

/-- The padded index of a cell lies inside the real array. -/
theorem paddedIndex_lt (n ix iy iz : Nat) (hx : ix < n) (hy : iy < n) (hz : iz < n) :
    paddedIndex n ix iy iz < 2 * (n * n * (n / 2 + 1)) := by
  unfold paddedIndex
  have hA : n < 2 * (n / 2 + 1) := by omega
  have h1 : iy * 2 * (n / 2 + 1) + iz < n * (2 * (n / 2 + 1)) := by
    have : (iy + 1) * (2 * (n / 2 + 1)) ≤ n * (2 * (n / 2 + 1)) :=
      Nat.mul_le_mul_right _ hy
    nlinarith
  have h2 : (ix + 1) * (n * (2 * (n / 2 + 1))) ≤ n * (n * (2 * (n / 2 + 1))) :=
    Nat.mul_le_mul_right _ hx
  nlinarith

/-- With at most `2 ^ 31` real elements, the index stored in `int i` is the exact one. -/
theorem executeInverseFFTIndex_eq (n : Nat) (h : 2 * (n * n * (n / 2 + 1)) ≤ 2 ^ 31)
    (t : Nat × Nat × Nat) (ht : t ∈ cells n) :
    executeInverseFFTIndex n t.1 t.2.1 t.2.2 = (paddedIndex n t.1 t.2.1 t.2.2 : Int) := by
  obtain ⟨hx, hy, hz⟩ := (mem_cells n t).mp ht
  have hlt := paddedIndex_lt n t.1 t.2.1 t.2.2 hx hy hz
  exact toInt_toSizeT_of_lt _ (lt_of_lt_of_le hlt h)

/-- What the copy loop leaves in the grid: the cells of `L` hold the samples at their index,
the other cells and the shape of the grid are unchanged. -/
theorem foldlM_copyStep (n : Nat) (Bx By Bz : Nat → F) (L : List (Nat × Nat × Nat)) :
    ∀ (g g' : Grid3 F), L.foldlM (copyStep n Bx By Bz) g = .ok g' →
      (g'.Nx = g.Nx ∧ g'.Ny = g.Ny ∧ g'.Nz = g.Nz ∧ g'.spacing = g.spacing) ∧
      ∀ a b c, g'.data a b c =
        if (a, b, c) ∈ L then
          ⟨Bx (executeInverseFFTIndex n a b c).toNat, By (executeInverseFFTIndex n a b c).toNat,
            Bz (executeInverseFFTIndex n a b c).toNat⟩
        else g.data a b c := by
  induction L with
  | nil =>
    intro g g' h
    cases h
    exact ⟨⟨rfl, rfl, rfl, rfl⟩, fun a b c => by simp⟩
  | cons t L ih =>
    intro g g' h
    rw [List.foldlM_cons] at h
    cases hs : copyStep n Bx By Bz g t with
    | error e => rw [hs] at h; cases h
    | ok g1 =>
      rw [hs] at h
      obtain ⟨hd, hdata⟩ := ih g1 g' h
      unfold copyStep at hs
      simp only [] at hs
      split_ifs at hs with hr
      cases hs
      refine ⟨hd, ?_⟩
      intro a b c
      rw [hdata a b c]
      by_cases hL : (a, b, c) ∈ L
      · simp [hL]
      · by_cases ht : (a, b, c) = t
        · subst ht
          simp [hL, Grid3.set]
        · have ht' : ¬ (a = t.1 ∧ b = t.2.1 ∧ c = t.2.2) := by
            rintro ⟨h1, h2, h3⟩
            apply ht
            rw [h1, h2, h3]
          simp [hL, ht, Grid3.set, ht']

/-- In a copy loop that completes every index was inside the real arrays. -/
theorem foldlM_copyStep_range (n : Nat) (Bx By Bz : Nat → F) (L : List (Nat × Nat × Nat)) :
    ∀ (g g' : Grid3 F), L.foldlM (copyStep n Bx By Bz) g = .ok g' →
      ∀ u ∈ L, 0 ≤ executeInverseFFTIndex n u.1 u.2.1 u.2.2 ∧
        executeInverseFFTIndex n u.1 u.2.1 u.2.2 < ((2 * (n * n * (n / 2 + 1)) : Nat) : Int) := by
  induction L with
  | nil => intro g g' _ u hu; cases hu
  | cons t L ih =>
    intro g g' h u hu
    rw [List.foldlM_cons] at h
    cases hs : copyStep n Bx By Bz g t with
    | error e => rw [hs] at h; cases h
    | ok g1 =>
      rw [hs] at h
      rcases List.mem_cons.mp hu with rfl | hu
      · unfold copyStep at hs
        simp only [] at hs
        split_ifs at hs with hr
        push_neg at hr
        exact hr
      · exact ih g1 g' h u hu

/-- The copy loop completes when every index is inside the real arrays. -/
theorem foldlM_copyStep_isOk (n : Nat) (Bx By Bz : Nat → F) (L : List (Nat × Nat × Nat))
    (hL : ∀ u ∈ L, 0 ≤ executeInverseFFTIndex n u.1 u.2.1 u.2.2 ∧
      executeInverseFFTIndex n u.1 u.2.1 u.2.2 < ((2 * (n * n * (n / 2 + 1)) : Nat) : Int)) :
    ∀ g : Grid3 F, ∃ g', L.foldlM (copyStep n Bx By Bz) g = .ok g' := by
  induction L with
  | nil => intro g; exact ⟨g, rfl⟩
  | cons t L ih =>
    intro g
    have hr : ¬ (executeInverseFFTIndex n t.1 t.2.1 t.2.2 < 0 ∨
        ((2 * (n * n * (n / 2 + 1)) : Nat) : Int) ≤ executeInverseFFTIndex n t.1 t.2.1 t.2.2) := by
      push_neg
      exact hL t (List.mem_cons_self _ _)
    obtain ⟨g', h⟩ := ih (fun u hu => hL u (List.mem_cons_of_mem _ hu))
      (g.set t.1 t.2.1 t.2.2
        ⟨Bx (executeInverseFFTIndex n t.1 t.2.1 t.2.2).toNat,
          By (executeInverseFFTIndex n t.1 t.2.1 t.2.2).toNat,
          Bz (executeInverseFFTIndex n t.1 t.2.1 t.2.2).toNat⟩)
    refine ⟨g', ?_⟩
    rw [List.foldlM_cons]
    simp only [copyStep, if_neg hr]
    exact h

/-- The copy loop completes when the real arrays have at most `2 ^ 31` elements. -/
theorem executeInverseFFTInplace_isOk (c2r : Nat → (Nat → Option (F × F)) → Nat → F)
    (grid : Grid3 F) (Bkx Bky Bkz : Nat → Option (F × F))
    (h : 2 * (grid.Nx * grid.Nx * (grid.Nx / 2 + 1)) ≤ 2 ^ 31) :
    ∃ g', executeInverseFFTInplace c2r grid Bkx Bky Bkz = .ok g' := by
  unfold executeInverseFFTInplace
  apply foldlM_copyStep_isOk
  intro u hu
  rw [executeInverseFFTIndex_eq grid.Nx h u hu]
  obtain ⟨hx, hy, hz⟩ := (mem_cells _ u).mp hu
  exact ⟨Int.natCast_nonneg _, by exact_mod_cast paddedIndex_lt grid.Nx u.1 u.2.1 u.2.2 hx hy hz⟩

end Copy

section Normalization
variable {F : Type} [LinearOrderedField F]

/-- The squared norm of a scaled vector. -/
theorem getR2_mul (v : Vector3 F) (a : F) : (v.mul a).getR2 = a * a * v.getR2 := by
  simp only [Vector3.mul, Vector3.getR2]; ring

/-- A squared norm is not negative. -/
theorem getR2_nonneg (v : Vector3 F) : 0 ≤ v.getR2 := by
  simp only [Vector3.getR2]
  have hx := mul_self_nonneg v.x
  have hy := mul_self_nonneg v.y
  have hz := mul_self_nonneg v.z
  linarith

/-- Scaling the grid by `a` scales its RMS by `|a|`. -/
theorem rmsFieldStrength_scaleGrid {m : Libm F} (hm : m.Exact) (g : Grid3 F) (a : F) :
    rmsFieldStrength m (scaleGrid g a) = |a| * rmsFieldStrength m g := by
  have hsum : (∑ ix in Finset.range g.Nx, ∑ iy in Finset.range g.Ny, ∑ iz in Finset.range g.Nz,
      ((scaleGrid g a).data ix iy iz).getR2) =
      a * a * ∑ ix in Finset.range g.Nx, ∑ iy in Finset.range g.Ny, ∑ iz in Finset.range g.Nz,
        (g.data ix iy iz).getR2 := by
    rw [Finset.mul_sum]
    refine Finset.sum_congr rfl fun ix hx => ?_
    rw [Finset.mul_sum]
    refine Finset.sum_congr rfl fun iy hy => ?_
    rw [Finset.mul_sum]
    refine Finset.sum_congr rfl fun iz hz => ?_
    have hin : ix < g.Nx ∧ iy < g.Ny ∧ iz < g.Nz :=
      ⟨Finset.mem_range.mp hx, Finset.mem_range.mp hy, Finset.mem_range.mp hz⟩
    simp only [scaleGrid, if_pos hin, getR2_mul]
  have hq : 0 ≤ (∑ ix in Finset.range g.Nx, ∑ iy in Finset.range g.Ny,
      ∑ iz in Finset.range g.Nz, (g.data ix iy iz).getR2) / (g.Nx : F) / (g.Ny : F) / (g.Nz : F) := by
    apply div_nonneg (div_nonneg (div_nonneg _ (Nat.cast_nonneg _)) (Nat.cast_nonneg _))
      (Nat.cast_nonneg _)
    exact Finset.sum_nonneg fun ix _ => Finset.sum_nonneg fun iy _ =>
      Finset.sum_nonneg fun iz _ => getR2_nonneg _
  unfold rmsFieldStrength
  have hdims : (scaleGrid g a).Nx = g.Nx ∧ (scaleGrid g a).Ny = g.Ny ∧
      (scaleGrid g a).Nz = g.Nz := ⟨rfl, rfl, rfl⟩
  rw [hdims.1, hdims.2.1, hdims.2.2, hsum]
  apply hm.sqrt_eq (mul_nonneg (abs_nonneg a) (hm.sqrt_nonneg _))
  have hs := hm.sqrt_mul_self _ hq
  calc |a| * m.sqrt _ * (|a| * m.sqrt _) = |a| * |a| * (m.sqrt _ * m.sqrt _) := by ring
    _ = a * a * _ := by rw [hs, abs_mul_abs_self]
    _ = _ := by ring


/-- In a run of `synthesize` that completes, the index stored in `int i` is the exact one. -/
theorem synthesize_index (m : Libm F) (rng : Nat → Nat → F) (entropy : Nat)
    (spectrum : TurbulenceSpectrum F) (grid : Grid3 F) (seed : Nat) (out : Synthesis F)
    (h : synthesize m rng entropy spectrum grid seed = .ok out) :
    ∀ u ∈ visited grid.Nx, (initTurbulenceIndex grid.Nx u.1 u.2.1 u.2.2).toNat =
      coefficientIndex grid.Nx u.1 u.2.1 u.2.2 := by
  obtain ⟨-, hf⟩ := synthesize_eq_foldlM m rng entropy spectrum grid seed out h
  have hrange := foldlM_synthesisStep_range m spectrum grid.Nx _ _ _ _ _ _ _ hf
  have hsize := size_le_of_indices_in_range grid.Nx (fun u hu => (hrange u hu).1)
  intro u hu
  rw [initTurbulenceIndex_eq grid.Nx hsize u hu]
  exact Int.toNat_natCast _

/-- A run of `synthesize` writes nothing at or beyond the size of the arrays. -/
theorem synthesize_untouched (m : Libm F) (rng : Nat → Nat → F) (entropy : Nat)
    (spectrum : TurbulenceSpectrum F) (grid : Grid3 F) (seed : Nat) (out : Synthesis F)
    (h : synthesize m rng entropy spectrum grid seed = .ok out) (j : Nat)
    (hj : grid.Nx * grid.Nx * (grid.Nx / 2 + 1) ≤ j) :
    out.Bkx j = none ∧ out.Bky j = none ∧ out.Bkz j = none := by
  obtain ⟨-, hf⟩ := synthesize_eq_foldlM m rng entropy spectrum grid seed out h
  have hkey := synthesize_index m rng entropy spectrum grid seed out h
  have hne : ∀ u ∈ visited grid.Nx, (initTurbulenceIndex grid.Nx u.1 u.2.1 u.2.2).toNat ≠ j := by
    intro u hu
    rw [hkey u hu]
    have := coefficientIndex_lt_of_mem grid.Nx u hu
    omega
  exact (foldlM_synthesisStep_frame m spectrum grid.Nx _ _ _ _ _ _ out hf).2 j hne

/-- When every visited wavevector is out of band, the three arrays are zero throughout. -/
theorem synthesize_all_outOfBand (m : Libm F) (rng : Nat → Nat → F) (entropy : Nat)
    (spectrum : TurbulenceSpectrum F) (grid : Grid3 F) (seed : Nat) (out : Synthesis F)
    (h : synthesize m rng entropy spectrum grid seed = .ok out)
    (hall : ∀ t ∈ visited grid.Nx, outOfBand m (fun i => wavenumber grid.Nx i)
      (kMin spectrum grid) (kMax spectrum grid) t = true) :
    out.Bkx = (fun j => if j < grid.Nx * grid.Nx * (grid.Nx / 2 + 1) then some (0, 0) else none) ∧
    out.Bky = (fun j => if j < grid.Nx * grid.Nx * (grid.Nx / 2 + 1) then some (0, 0) else none) ∧
    out.Bkz = (fun j => if j < grid.Nx * grid.Nx * (grid.Nx / 2 + 1) then some (0, 0) else none) := by
  have key : ∀ j, out.Bkx j = (if j < grid.Nx * grid.Nx * (grid.Nx / 2 + 1) then some (0, 0)
        else none) ∧
      out.Bky j = (if j < grid.Nx * grid.Nx * (grid.Nx / 2 + 1) then some (0, 0) else none) ∧
      out.Bkz j = (if j < grid.Nx * grid.Nx * (grid.Nx / 2 + 1) then some (0, 0) else none) := by
    intro j
    by_cases hj : j < grid.Nx * grid.Nx * (grid.Nx / 2 + 1)
    · simp only [if_pos hj]
      have hmem : j ∈ List.range (grid.Nx * grid.Nx * (grid.Nx / 2 + 1)) := List.mem_range.mpr hj
      rw [← map_coefficientIndex_visited] at hmem
      obtain ⟨t, ht, he⟩ := List.mem_map.mp hmem
      obtain ⟨pre, post, hv⟩ := List.append_of_mem ht
      have hw := (synthesize_written m rng entropy spectrum grid seed out h pre post t hv).1
        (hall t ht)
      rw [← he]
      exact hw
    · simp only [if_neg hj]
      exact synthesize_untouched m rng entropy spectrum grid seed out h j (not_lt.mp hj)
  exact ⟨funext fun j => (key j).1, funext fun j => (key j).2.1, funext fun j => (key j).2.2⟩

/-- The run up to the inverse transform completes when the grid has not exactly one cell per
axis and the real arrays have at most `2 ^ 31` elements. -/
theorem unnormalizedField_isOk (m : Libm F) (c2r : Nat → (Nat → Option (F × F)) → Nat → F)
    (rng : Nat → Nat → F) (entropy : Nat) (spectrum : TurbulenceSpectrum F) (grid : Grid3 F)
    (seed : Nat) (h1 : grid.Nx ≠ 1) (h2 : 2 * (grid.Nx * grid.Nx * (grid.Nx / 2 + 1)) ≤ 2 ^ 31) :
    ∃ s g, synthesize m rng entropy spectrum grid seed = .ok s ∧
      executeInverseFFTInplace c2r grid s.Bkx s.Bky s.Bkz = .ok g ∧
      unnormalizedField m c2r rng entropy spectrum grid seed = .ok g := by
  obtain ⟨s, hs⟩ := synthesize_isOk m rng entropy spectrum grid seed h1 (by omega)
  obtain ⟨g, hg⟩ := executeInverseFFTInplace_isOk c2r grid s.Bkx s.Bky s.Bkz h2
  refine ⟨s, g, hs, hg, ?_⟩
  simp only [unnormalizedField, hs, hg]

/-- The RMS depends on the cells of the grid only. -/
theorem rmsFieldStrength_congr (m : Libm F) (g g' : Grid3 F) (hx : g'.Nx = g.Nx)
    (hy : g'.Ny = g.Ny) (hz : g'.Nz = g.Nz)
    (hdata : ∀ a b c, a < g.Nx → b < g.Ny → c < g.Nz → g'.data a b c = g.data a b c) :
    rmsFieldStrength m g' = rmsFieldStrength m g := by
  unfold rmsFieldStrength
  rw [hx, hy, hz]
  congr 4
  refine Finset.sum_congr rfl fun ix hix => ?_
  refine Finset.sum_congr rfl fun iy hiy => ?_
  refine Finset.sum_congr rfl fun iz hiz => ?_
  rw [hdata ix iy iz (Finset.mem_range.mp hix) (Finset.mem_range.mp hiy) (Finset.mem_range.mp hiz)]


/-- C5, amended: when the run reaches the final step with a grid `g` whose RMS is not zero,
`initTurbulence` returns `scaleGrid(g, Brms / rmsFieldStrength(g))`, and the RMS of that grid
is `|Brms|`: it equals `Brms` when `Brms ≥ 0`. -/
theorem initTurbulence_rms (m : Libm F) (hm : m.Exact)
    (c2r : Nat → (Nat → Option (F × F)) → Nat → F) (rng : Nat → Nat → F) (entropy : Nat)
    (spectrum : TurbulenceSpectrum F) (grid : Grid3 F) (seed : Nat) (g : Grid3 F)
    (h : unnormalizedField m c2r rng entropy spectrum grid seed = .ok g)
    (hr : rmsFieldStrength m g ≠ 0) :
    initTurbulence m c2r rng entropy spectrum grid seed =
      .ok (scaleGrid g (spectrum.Brms / rmsFieldStrength m g)) ∧
    rmsFieldStrength m (scaleGrid g (spectrum.Brms / rmsFieldStrength m g)) = |spectrum.Brms| ∧
    (0 ≤ spectrum.Brms →
      rmsFieldStrength m (scaleGrid g (spectrum.Brms / rmsFieldStrength m g)) = spectrum.Brms) := by
  have hpos : 0 < rmsFieldStrength m g :=
    lt_of_le_of_ne (hm.sqrt_nonneg _) (Ne.symm hr)
  have habs : rmsFieldStrength m (scaleGrid g (spectrum.Brms / rmsFieldStrength m g)) =
      |spectrum.Brms| := by
    rw [rmsFieldStrength_scaleGrid hm, abs_div, abs_of_pos hpos, div_mul_cancel₀ _ hr]
  refine ⟨?_, habs, ?_⟩
  · simp only [initTurbulence, h]
  · intro h0
    rw [habs, abs_of_nonneg h0]


/-- C5 as amended, on the grid of 2 cells per axis with a transform that returns the constant
array 1: the grid before normalization has RMS `sqrt 3`, the normalized one has RMS
`Brms = 1`. -/
theorem initTurbulence_rms_witness :
    ∃ g field, unnormalizedField (F := ℝ) ⟨Real.sqrt, Real.cos, Real.sin, Real.arccos, Real.pi⟩
        (fun _ _ _ => 1) (fun _ _ => 0) 0 ⟨1, 2, 2, 8, fun _ => 1⟩
        (initGrid ⟨2, 2, 2, ⟨1, 1, 1⟩⟩) 42 = .ok g ∧
      rmsFieldStrength ⟨Real.sqrt, Real.cos, Real.sin, Real.arccos, Real.pi⟩ g ≠ 0 ∧
      initTurbulence (F := ℝ) ⟨Real.sqrt, Real.cos, Real.sin, Real.arccos, Real.pi⟩
        (fun _ _ _ => 1) (fun _ _ => 0) 0 ⟨1, 2, 2, 8, fun _ => 1⟩
        (initGrid ⟨2, 2, 2, ⟨1, 1, 1⟩⟩) 42 = .ok field ∧
      rmsFieldStrength ⟨Real.sqrt, Real.cos, Real.sin, Real.arccos, Real.pi⟩ field = 1 := by
  obtain ⟨s, g, -, hg, hu⟩ := unnormalizedField_isOk (F := ℝ)
    ⟨Real.sqrt, Real.cos, Real.sin, Real.arccos, Real.pi⟩ (fun _ _ _ => 1) (fun _ _ => 0) 0
    ⟨1, 2, 2, 8, fun _ => 1⟩ (initGrid ⟨2, 2, 2, ⟨1, 1, 1⟩⟩) 42 (by decide) (by decide)
  obtain ⟨⟨hx, hy, hz, -⟩, hdata⟩ := foldlM_copyStep _ _ _ _ _ _ g hg
  have hrms : rmsFieldStrength ⟨Real.sqrt, Real.cos, Real.sin, Real.arccos, Real.pi⟩ g =
      Real.sqrt 3 := by
    rw [rmsFieldStrength_congr _ ⟨2, 2, 2, ⟨1, 1, 1⟩, fun _ _ _ => ⟨1, 1, 1⟩⟩ g hx hy hz]
    · simp only [rmsFieldStrength, Finset.sum_range_succ, Finset.sum_range_zero, Vector3.getR2]
      norm_num
    · intro a b c ha hb hc
      rw [hdata a b c, if_pos ((mem_cells _ _).mpr ⟨ha, hb, hc⟩)]
  have hne : rmsFieldStrength ⟨Real.sqrt, Real.cos, Real.sin, Real.arccos, Real.pi⟩ g ≠ 0 := by
    rw [hrms]
    exact (Real.sqrt_pos.mpr (by norm_num)).ne'
  have key := initTurbulence_rms (F := ℝ) ⟨Real.sqrt, Real.cos, Real.sin, Real.arccos, Real.pi⟩
    real_exact (fun _ _ _ => 1) (fun _ _ => 0) 0 ⟨1, 2, 2, 8, fun _ => 1⟩
    (initGrid ⟨2, 2, 2, ⟨1, 1, 1⟩⟩) 42 g hu hne
  exact ⟨g, _, hu, hne, key.1, key.2.2 (by norm_num)⟩

/-- C5 fails in two ways. On the grid of 2 cells per axis with `Brms = -1` every run ends with
a grid whose RMS is not `Brms` (an RMS is never negative). On the grid of 4 cells per axis with
`lMin = lMax = 3` no wavevector has the magnitude `1 / 3`, all coefficients are zero, and with
a transform that maps zero coefficients to zero samples the RMS stays 0, not `Brms = 1`. Both
grids pass `checkGridRequirements`. -/
theorem initTurbulence_rms_counterexample :
    (checkGridRequirements (F := ℝ) (initGrid ⟨2, 2, 2, ⟨1, 1, 1⟩⟩) 2 2 = .ok () ∧
      ∀ (c2r : Nat → (Nat → Option (ℝ × ℝ)) → Nat → ℝ) (rng : Nat → Nat → ℝ)
        (entropy seed : Nat),
        ∃ g, initTurbulence ⟨Real.sqrt, Real.cos, Real.sin, Real.arccos, Real.pi⟩ c2r rng entropy
            ⟨-1, 2, 2, 8, fun _ => 1⟩ (initGrid ⟨2, 2, 2, ⟨1, 1, 1⟩⟩) seed = .ok g ∧
          rmsFieldStrength ⟨Real.sqrt, Real.cos, Real.sin, Real.arccos, Real.pi⟩ g ≠ -1) ∧
    (checkGridRequirements (F := ℝ) (initGrid ⟨4, 4, 4, ⟨1, 1, 1⟩⟩) 3 3 = .ok () ∧
      ∀ (c2r : Nat → (Nat → Option (ℝ × ℝ)) → Nat → ℝ),
        c2r 4 (fun j => if j < 4 * 4 * (4 / 2 + 1) then some (0, 0) else none) = (fun _ => 0) →
        ∀ (rng : Nat → Nat → ℝ) (entropy seed : Nat),
          ∃ g, initTurbulence ⟨Real.sqrt, Real.cos, Real.sin, Real.arccos, Real.pi⟩ c2r rng
              entropy ⟨1, 3, 3, 8, fun _ => 1⟩ (initGrid ⟨4, 4, 4, ⟨1, 1, 1⟩⟩) seed = .ok g ∧
            rmsFieldStrength ⟨Real.sqrt, Real.cos, Real.sin, Real.arccos, Real.pi⟩ g = 0 ∧
            rmsFieldStrength ⟨Real.sqrt, Real.cos, Real.sin, Real.arccos, Real.pi⟩ g ≠ 1) := by
  refine ⟨⟨?_, ?_⟩, ⟨?_, ?_⟩⟩
  · simp [checkGridRequirements, initGrid, Grid3.ofProperties]
  · intro c2r rng entropy seed
    obtain ⟨s, g, -, -, hu⟩ := unnormalizedField_isOk (F := ℝ)
      ⟨Real.sqrt, Real.cos, Real.sin, Real.arccos, Real.pi⟩ c2r rng entropy
      ⟨-1, 2, 2, 8, fun _ => 1⟩ (initGrid ⟨2, 2, 2, ⟨1, 1, 1⟩⟩) seed (by decide) (by decide)
    refine ⟨scaleGrid g ((-1) / rmsFieldStrength
      ⟨Real.sqrt, Real.cos, Real.sin, Real.arccos, Real.pi⟩ g),
      by simp only [initTurbulence, hu], ?_⟩
    intro hneg
    have h0 : (0 : ℝ) ≤ rmsFieldStrength ⟨Real.sqrt, Real.cos, Real.sin, Real.arccos, Real.pi⟩
        (scaleGrid g ((-1) / rmsFieldStrength
          ⟨Real.sqrt, Real.cos, Real.sin, Real.arccos, Real.pi⟩ g)) := Real.sqrt_nonneg _
    linarith
  · simp [checkGridRequirements, initGrid, Grid3.ofProperties]
    norm_num
  · intro c2r hc2r rng entropy seed
    obtain ⟨s, g, hs, hg, hu⟩ := unnormalizedField_isOk (F := ℝ)
      ⟨Real.sqrt, Real.cos, Real.sin, Real.arccos, Real.pi⟩ c2r rng entropy
      ⟨1, 3, 3, 8, fun _ => 1⟩ (initGrid ⟨4, 4, 4, ⟨1, 1, 1⟩⟩) seed (by decide) (by decide)
    have hall : ∀ t ∈ visited 4, outOfBand (F := ℝ)
        ⟨Real.sqrt, Real.cos, Real.sin, Real.arccos, Real.pi⟩ (fun i => wavenumber 4 i)
        (kMin ⟨1, 3, 3, 8, fun _ => 1⟩ (initGrid ⟨4, 4, 4, ⟨1, 1, 1⟩⟩))
        (kMax ⟨1, 3, 3, 8, fun _ => 1⟩ (initGrid ⟨4, 4, 4, ⟨1, 1, 1⟩⟩)) t = true := by
      intro t ht
      obtain ⟨h1, h2, h3⟩ := (mem_visited 4 t).mp ht
      obtain ⟨a, b, c⟩ := t
      simp only at h1 h2 h3
      simp only [outOfBand, decide_eq_true_eq, Vector3.getR, kMin, kMax, initGrid,
        Grid3.ofProperties]
      apply lt_or_gt_of_ne
      intro hsq
      have hx : wavenumber (F := ℝ) 4 a * wavenumber 4 a + wavenumber 4 b * wavenumber 4 b +
          wavenumber 4 c * wavenumber 4 c = 1 / 9 := by
        have h0 : (0 : ℝ) ≤ wavenumber (F := ℝ) 4 a * wavenumber 4 a +
            wavenumber 4 b * wavenumber 4 b + wavenumber 4 c * wavenumber 4 c := by
          have := mul_self_nonneg (wavenumber (F := ℝ) 4 a)
          have := mul_self_nonneg (wavenumber (F := ℝ) 4 b)
          have := mul_self_nonneg (wavenumber (F := ℝ) 4 c)
          linarith
        have := Real.mul_self_sqrt h0
        rw [hsq] at this
        linarith
      interval_cases a <;> interval_cases b <;> interval_cases c <;>
        norm_num [wavenumber] at hx
    obtain ⟨hbx, hby, hbz⟩ := synthesize_all_outOfBand _ _ _ _ _ _ s hs hall
    obtain ⟨⟨hx, hy, hz, -⟩, hdata⟩ := foldlM_copyStep _ _ _ _ _ _ g hg
    have hzero : ∀ a b c, g.data a b c = ⟨0, 0, 0⟩ := by
      intro a b c
      rw [hdata a b c, hbx, hby, hbz]
      simp only [initGrid, Grid3.ofProperties, hc2r, ite_self]
    refine ⟨scaleGrid g (1 / rmsFieldStrength
      ⟨Real.sqrt, Real.cos, Real.sin, Real.arccos, Real.pi⟩ g),
      by simp only [initTurbulence, hu], ?_⟩
    have hr : rmsFieldStrength ⟨Real.sqrt, Real.cos, Real.sin, Real.arccos, Real.pi⟩
        (scaleGrid g (1 / rmsFieldStrength
          ⟨Real.sqrt, Real.cos, Real.sin, Real.arccos, Real.pi⟩ g)) = 0 := by
      simp [rmsFieldStrength, scaleGrid, hzero, Vector3.mul, Vector3.getR2]
    rw [hr]
    exact ⟨rfl, by norm_num⟩

end Normalization

section Coverage
variable {F : Type} [LinearOrderedField F]

/-- A run of `synthesize` that completes has written every element of the three arrays. -/
theorem synthesize_filled (m : Libm F) (rng : Nat → Nat → F) (entropy : Nat)
    (spectrum : TurbulenceSpectrum F) (grid : Grid3 F) (seed : Nat) (out : Synthesis F)
    (h : synthesize m rng entropy spectrum grid seed = .ok out) (j : Nat)
    (hj : j < grid.Nx * grid.Nx * (grid.Nx / 2 + 1)) :
    (out.Bkx j).isSome = true ∧ (out.Bky j).isSome = true ∧ (out.Bkz j).isSome = true := by
  have hmem : j ∈ List.range (grid.Nx * grid.Nx * (grid.Nx / 2 + 1)) := List.mem_range.mpr hj
  rw [← map_coefficientIndex_visited] at hmem
  obtain ⟨t, ht, he⟩ := List.mem_map.mp hmem
  obtain ⟨pre, post, hv⟩ := List.append_of_mem ht
  have hw := synthesize_written m rng entropy spectrum grid seed out h pre post t hv
  rw [← he]
  cases hb : outOfBand m (fun i => wavenumber grid.Nx i) (kMin spectrum grid)
      (kMax spectrum grid) t with
  | true =>
    obtain ⟨h1, h2, h3⟩ := hw.1 hb
    simp only [h1, h2, h3, Option.isSome_some, and_self]
  | false =>
    have h1 := hw.2 hb
    simp only [Prod.mk.injEq] at h1
    simp only [h1.1, h1.2.1, h1.2.2, Option.isSome_some, and_self]

/-- Coverage of the coefficient arrays, for the exact index and in the runs that complete:
for every grid size `n` the write index `ix * n * n2 + iy * n2 + iz` maps the
visited triples (`ix < n`, `iy < n`, `iz ≤ n div 2`) one-to-one onto `0, ..., n * n * n2 - 1`,
in visiting order it runs through `0, 1, ..., n * n * n2 - 1`; a run of the synthesis loop that
completes has written every element of the three arrays and nothing beyond them, and the run
completes when `n ≠ 1` and the arrays have at most `2 ^ 31` elements. -/
theorem synthesize_coverage (m : Libm F) (rng : Nat → Nat → F) (entropy : Nat)
    (spectrum : TurbulenceSpectrum F) (grid : Grid3 F) (seed : Nat) :
    (∀ t, t ∈ visited grid.Nx ↔ t.1 < grid.Nx ∧ t.2.1 < grid.Nx ∧ t.2.2 ≤ grid.Nx / 2) ∧
    (∀ t ∈ visited grid.Nx,
      coefficientIndex grid.Nx t.1 t.2.1 t.2.2 < grid.Nx * grid.Nx * (grid.Nx / 2 + 1)) ∧
    (∀ t ∈ visited grid.Nx, ∀ u ∈ visited grid.Nx,
      coefficientIndex grid.Nx t.1 t.2.1 t.2.2 = coefficientIndex grid.Nx u.1 u.2.1 u.2.2 →
      t = u) ∧
    (∀ j, j < grid.Nx * grid.Nx * (grid.Nx / 2 + 1) →
      ∃ t ∈ visited grid.Nx, coefficientIndex grid.Nx t.1 t.2.1 t.2.2 = j) ∧
    (visited grid.Nx).map (fun t => coefficientIndex grid.Nx t.1 t.2.1 t.2.2) =
      List.range (grid.Nx * grid.Nx * (grid.Nx / 2 + 1)) ∧
    (∀ out, synthesize m rng entropy spectrum grid seed = .ok out →
      (∀ t ∈ visited grid.Nx, (initTurbulenceIndex grid.Nx t.1 t.2.1 t.2.2).toNat =
        coefficientIndex grid.Nx t.1 t.2.1 t.2.2) ∧
      (∀ j, j < grid.Nx * grid.Nx * (grid.Nx / 2 + 1) →
        (out.Bkx j).isSome = true ∧ (out.Bky j).isSome = true ∧ (out.Bkz j).isSome = true) ∧
      (∀ j, grid.Nx * grid.Nx * (grid.Nx / 2 + 1) ≤ j →
        out.Bkx j = none ∧ out.Bky j = none ∧ out.Bkz j = none)) ∧
    (grid.Nx ≠ 1 → grid.Nx * grid.Nx * (grid.Nx / 2 + 1) ≤ 2 ^ 31 →
      ∃ out, synthesize m rng entropy spectrum grid seed = .ok out) := by
  have hnodup : ((visited grid.Nx).map
      (fun t => coefficientIndex grid.Nx t.1 t.2.1 t.2.2)).Nodup := by
    rw [map_coefficientIndex_visited]; exact List.nodup_range _
  refine ⟨?_, coefficientIndex_lt_of_mem grid.Nx, ?_, ?_, map_coefficientIndex_visited grid.Nx,
    ?_, synthesize_isOk m rng entropy spectrum grid seed⟩
  · intro t
    rw [mem_visited]
    constructor
    · rintro ⟨h1, h2, h3⟩; exact ⟨h1, h2, by omega⟩
    · rintro ⟨h1, h2, h3⟩; exact ⟨h1, h2, by omega⟩
  · intro t ht u hu he
    exact List.inj_on_of_nodup_map hnodup ht hu he
  · intro j hj
    have hmem : j ∈ List.range (grid.Nx * grid.Nx * (grid.Nx / 2 + 1)) := List.mem_range.mpr hj
    rw [← map_coefficientIndex_visited] at hmem
    obtain ⟨t, ht, he⟩ := List.mem_map.mp hmem
    exact ⟨t, ht, he⟩
  · intro out h
    exact ⟨synthesize_index m rng entropy spectrum grid seed out h,
      synthesize_filled m rng entropy spectrum grid seed out h,
      synthesize_untouched m rng entropy spectrum grid seed out h⟩

/-- Coverage on the grid of 2 cells per axis: the run completes and the element 7, the last of
the `2 * 2 * 2` elements, is written, the element 8 is not. -/
theorem synthesize_coverage_witness :
    ∃ out, synthesize (F := ℝ) ⟨Real.sqrt, Real.cos, Real.sin, Real.arccos, Real.pi⟩
        (fun _ _ => 0) 0 ⟨1, 2, 2, 8, fun _ => 1⟩
        ⟨2, 2, 2, ⟨1, 1, 1⟩, fun _ _ _ => ⟨0, 0, 0⟩⟩ 42 = .ok out ∧
      (out.Bkx 7).isSome = true ∧ out.Bkx 8 = none := by
  obtain ⟨out, h⟩ := (synthesize_coverage (F := ℝ)
    ⟨Real.sqrt, Real.cos, Real.sin, Real.arccos, Real.pi⟩ (fun _ _ => 0) 0
    ⟨1, 2, 2, 8, fun _ => 1⟩ ⟨2, 2, 2, ⟨1, 1, 1⟩, fun _ _ _ => ⟨0, 0, 0⟩⟩ 42).2.2.2.2.2.2
    (by decide) (by decide)
  have key := (synthesize_coverage (F := ℝ)
    ⟨Real.sqrt, Real.cos, Real.sin, Real.arccos, Real.pi⟩ (fun _ _ => 0) 0
    ⟨1, 2, 2, 8, fun _ => 1⟩ ⟨2, 2, 2, ⟨1, 1, 1⟩, fun _ _ _ => ⟨0, 0, 0⟩⟩ 42).2.2.2.2.2.1 out h
  exact ⟨out, h, (key.2.1 7 (by decide)).1, (key.2.2 8 (by decide)).1⟩

end Coverage

section Padding

/-- The padded index read row by row: its remainder by the row length is `iz`, its quotient
is `ix * n + iy`. -/
theorem paddedIndex_eq (n ix iy iz : Nat) :
    paddedIndex n ix iy iz = (ix * n + iy) * (2 * (n / 2 + 1)) + iz := by
  unfold paddedIndex; ring

/-- The padded-row formula in exact integers: for every grid size `n ≥ 1` and all
`ix, iy, iz < n` the read index
`i = ix * n * 2 * n2 + iy * 2 * n2 + iz` is below `n * n * 2 * n2`, its position in its padded
row, `i mod (2 * n2)`, is `iz`, which is below `n` while the row has `2 * n2 > n` elements (so
no trailing padding element is addressed), and distinct cells have distinct indices; when the
real arrays have at most `2 ^ 31` elements it is the index stored in `int i`. -/
theorem paddedIndex_never_padding (n ix iy iz : Nat) (hn : 1 ≤ n) (hx : ix < n) (hy : iy < n)
    (hz : iz < n) :
    paddedIndex n ix iy iz < n * n * 2 * (n / 2 + 1) ∧
    paddedIndex n ix iy iz % (2 * (n / 2 + 1)) = iz ∧
    iz < n ∧ n < 2 * (n / 2 + 1) ∧
    (∀ ix' iy' iz', ix' < n → iy' < n → iz' < n →
      paddedIndex n ix iy iz = paddedIndex n ix' iy' iz' → ix = ix' ∧ iy = iy' ∧ iz = iz') ∧
    (2 * (n * n * (n / 2 + 1)) ≤ 2 ^ 31 →
      executeInverseFFTIndex n ix iy iz = (paddedIndex n ix iy iz : Int)) := by
  have hrow : n < 2 * (n / 2 + 1) := by omega
  have hmod : ∀ a b c, c < n → paddedIndex n a b c % (2 * (n / 2 + 1)) = c := by
    intro a b c hc
    rw [paddedIndex_eq, Nat.mul_add_mod_of_lt (by omega)]
  have hdiv : ∀ a b c, c < n → paddedIndex n a b c / (2 * (n / 2 + 1)) = a * n + b := by
    intro a b c hc
    rw [paddedIndex_eq, Nat.add_comm, Nat.add_mul_div_right _ _ (by omega),
      Nat.div_eq_of_lt (by omega), Nat.zero_add]
  refine ⟨?_, hmod ix iy iz hz, hz, hrow, ?_, ?_⟩
  · have := paddedIndex_lt n ix iy iz hx hy hz
    calc paddedIndex n ix iy iz < 2 * (n * n * (n / 2 + 1)) := this
      _ = n * n * 2 * (n / 2 + 1) := by ring
  · intro ix' iy' iz' hx' hy' hz' he
    have h1 : iz = iz' := by
      have := congrArg (· % (2 * (n / 2 + 1))) he
      simp only [hmod ix iy iz hz, hmod ix' iy' iz' hz'] at this
      exact this
    have h2 : ix * n + iy = ix' * n + iy' := by
      have := congrArg (· / (2 * (n / 2 + 1))) he
      simp only [hdiv ix iy iz hz, hdiv ix' iy' iz' hz'] at this
      exact this
    have h3 : iy = iy' := by
      have := congrArg (· % n) h2
      simp only [Nat.mul_add_mod_of_lt hy, Nat.mul_add_mod_of_lt hy'] at this
      exact this
    have h4 : ix = ix' := by
      have h5 : ix * n = ix' * n := by omega
      exact Nat.eq_of_mul_eq_mul_right (by omega) h5
    exact ⟨h4, h3, h1⟩
  · intro hsize
    exact executeInverseFFTIndex_eq n hsize (ix, iy, iz) ((mem_cells n _).mpr ⟨hx, hy, hz⟩)

/-- The padded-row formula for the last cell of the grid of 4 cells per axis: the index 93 is
below `4 * 4 * 2 * 3 = 96` and its position in the row of 6 elements is 3. -/
theorem paddedIndex_never_padding_witness :
    paddedIndex 4 3 3 3 < 4 * 4 * 2 * (4 / 2 + 1) ∧ paddedIndex 4 3 3 3 % (2 * (4 / 2 + 1)) = 3 :=
  ⟨(paddedIndex_never_padding 4 3 3 3 (by decide) (by decide) (by decide) (by decide)).1,
   (paddedIndex_never_padding 4 3 3 3 (by decide) (by decide) (by decide) (by decide)).2.1⟩

/-- C16 fails on the grid of 2048 cells per axis: at the cell `(512, 0, 0)` the padded-row
formula gives 2149580800, above `2 ^ 31`, and the index stored in `int i` by
`executeInverseFFTInplace` is -2145386496; at the wavevector `(1024, 0, 0)` the write index
of `initTurbulence` is 2149580800 by the formula and -2145386496 as stored. -/
theorem index_narrowing_2048 :
    paddedIndex 2048 512 0 0 = 2149580800 ∧
    executeInverseFFTIndex 2048 512 0 0 = -2145386496 ∧
    coefficientIndex 2048 1024 0 0 = 2149580800 ∧
    initTurbulenceIndex 2048 1024 0 0 = -2145386496 := by
  refine ⟨?_, ?_, ?_, ?_⟩ <;> decide

end Padding

section Band
variable {F : Type} [LinearOrderedField F]

/-- An accepted grid with positive spacing and `lMin ≤ lMax` has at least 2 cells per axis. -/
theorem two_le_Nx_of_accepted (grid : Grid3 F) (lMin lMax : F)
    (hcheck : checkGridRequirements grid lMin lMax = .ok ()) (hsp : 0 < grid.spacing.x)
    (hle : lMin ≤ lMax) : 2 ≤ grid.Nx := by
  obtain ⟨-, -, h3, h4⟩ := constraints_of_checkGridRequirements grid lMin lMax hcheck
  have h : (2 : F) * grid.spacing.x ≤ (grid.Nx : F) * grid.spacing.x := le_trans h3 (le_trans hle h4)
  have h2 : (2 : F) ≤ (grid.Nx : F) := le_of_mul_le_mul_right h hsp
  exact_mod_cast h2

/-- On an accepted grid with positive spacing the upper cutoff is at most `1 / 2`. -/
theorem kMax_le_half (spectrum : TurbulenceSpectrum F) (grid : Grid3 F)
    (hcheck : checkGridRequirements grid spectrum.lMin spectrum.lMax = .ok ())
    (hsp : 0 < grid.spacing.x) : kMax spectrum grid ≤ 1 / 2 := by
  obtain ⟨-, -, h3, -⟩ := constraints_of_checkGridRequirements grid _ _ hcheck
  have hl : 0 < spectrum.lMin := lt_of_lt_of_le (by linarith) h3
  unfold kMax
  rw [div_le_iff₀ hl]
  linarith

/-- With positive spacing and positive `lMax` the lower cutoff is positive. -/
theorem kMin_pos (spectrum : TurbulenceSpectrum F) (grid : Grid3 F)
    (hsp : 0 < grid.spacing.x) (hl : 0 < spectrum.lMax) : 0 < kMin spectrum grid :=
  div_pos hsp hl

/-- On an accepted grid with positive spacing and positive `lMax` the lower cutoff is at
least `1 / Nx`. -/
theorem inv_Nx_le_kMin (spectrum : TurbulenceSpectrum F) (grid : Grid3 F)
    (hcheck : checkGridRequirements grid spectrum.lMin spectrum.lMax = .ok ())
    (hsp : 0 < grid.spacing.x) (hl : 0 < spectrum.lMax) :
    1 / (grid.Nx : F) ≤ kMin spectrum grid := by
  obtain ⟨-, -, -, h4⟩ := constraints_of_checkGridRequirements grid _ _ hcheck
  have hN : (0 : F) < (grid.Nx : F) := by
    by_contra hn
    have h0 : (grid.Nx : F) ≤ 0 := not_lt.mp hn
    have : (grid.Nx : F) * grid.spacing.x ≤ 0 := mul_nonpos_of_nonpos_of_nonneg h0 hsp.le
    linarith
  unfold kMin
  rw [div_le_div_iff₀ hN hl]
  linarith

/-- C18: on every grid with positive spacing that `checkGridRequirements` accepts for
`lMin ≤ lMax`, the grid size is at least 2, so the divisor `n / 2` of the table `K` is not
zero and filling the table is defined; without `lMin ≤ lMax` the grid of 1 cell per axis with
spacing 1 is accepted for `lMin = 2`, `lMax = 1`, and there the divisor is zero. -/
theorem wavenumberTable_defined (grid : Grid3 F) (lMin lMax : F)
    (hcheck : checkGridRequirements grid lMin lMax = .ok ()) (hsp : 0 < grid.spacing.x)
    (hle : lMin ≤ lMax) :
    (2 ≤ grid.Nx ∧ grid.Nx / 2 ≠ 0 ∧
      wavenumberTable (F := F) grid.Nx = .ok (fun i => wavenumber grid.Nx i)) ∧
    (checkGridRequirements (F := F) ⟨1, 1, 1, ⟨1, 1, 1⟩, fun _ _ _ => ⟨0, 0, 0⟩⟩ 2 1 = .ok () ∧
      (1 : Nat) / 2 = 0 ∧ wavenumberTable (F := F) 1 = .error .undefinedBehaviour) := by
  have hN := two_le_Nx_of_accepted grid lMin lMax hcheck hsp hle
  have hd : grid.Nx / 2 ≠ 0 := by omega
  refine ⟨⟨hN, hd, ?_⟩, ?_, by decide, ?_⟩
  · have : ¬ (0 < grid.Nx ∧ grid.Nx / 2 = 0) := fun h => hd h.2
    simp only [wavenumberTable, if_neg this]
  · simp [checkGridRequirements]
  · simp [wavenumberTable]

/-- C18, on the grid of 32 cells per axis with spacing 1, `lMin = 2` and `lMax = 32`. -/
theorem wavenumberTable_defined_witness :
    2 ≤ 32 ∧ 32 / 2 ≠ 0 ∧
      wavenumberTable (F := ℚ) 32 = .ok (fun i => wavenumber 32 i) :=
  (wavenumberTable_defined (F := ℚ) ⟨32, 32, 32, ⟨1, 1, 1⟩, fun _ _ _ => ⟨0, 0, 0⟩⟩ 2 32
    (by simp [checkGridRequirements]) (by norm_num) (by norm_num)).1


/-- C19: on every grid with positive spacing that `checkGridRequirements` accepts for positive
`lMax` (`lMin` is then positive as well), the cutoffs satisfy `1 / N ≤ kMin` and
`kMax ≤ 1 / 2`; so a wavevector that is not out of band has its magnitude in `[1 / N, 1 / 2]`,
and in a run that completes so has every visited wavevector whose stored coefficients are not
all zero. -/
theorem band_within_fundamental_and_nyquist (m : Libm F) (rng : Nat → Nat → F) (entropy : Nat)
    (spectrum : TurbulenceSpectrum F) (grid : Grid3 F) (seed : Nat)
    (hcheck : checkGridRequirements grid spectrum.lMin spectrum.lMax = .ok ())
    (hsp : 0 < grid.spacing.x) (hlMax : 0 < spectrum.lMax) :
    1 / (grid.Nx : F) ≤ kMin spectrum grid ∧ kMax spectrum grid ≤ 1 / 2 ∧
    (∀ t : Nat × Nat × Nat,
      outOfBand m (fun i => wavenumber grid.Nx i) (kMin spectrum grid) (kMax spectrum grid) t
        = false →
      1 / (grid.Nx : F) ≤ (wavevector grid.Nx t.1 t.2.1 t.2.2).getR m ∧
        (wavevector grid.Nx t.1 t.2.1 t.2.2).getR m ≤ 1 / 2) ∧
    (∀ out, synthesize m rng entropy spectrum grid seed = .ok out →
      ∀ t ∈ visited grid.Nx,
        ¬ (out.Bkx (coefficientIndex grid.Nx t.1 t.2.1 t.2.2) = some (0, 0) ∧
          out.Bky (coefficientIndex grid.Nx t.1 t.2.1 t.2.2) = some (0, 0) ∧
          out.Bkz (coefficientIndex grid.Nx t.1 t.2.1 t.2.2) = some (0, 0)) →
        1 / (grid.Nx : F) ≤ (wavevector grid.Nx t.1 t.2.1 t.2.2).getR m ∧
          (wavevector grid.Nx t.1 t.2.1 t.2.2).getR m ≤ 1 / 2) := by
  have h1 := inv_Nx_le_kMin spectrum grid hcheck hsp hlMax
  have h2 := kMax_le_half spectrum grid hcheck hsp
  have hband : ∀ t : Nat × Nat × Nat,
      outOfBand m (fun i => wavenumber grid.Nx i) (kMin spectrum grid) (kMax spectrum grid) t
        = false →
      1 / (grid.Nx : F) ≤ (wavevector grid.Nx t.1 t.2.1 t.2.2).getR m ∧
        (wavevector grid.Nx t.1 t.2.1 t.2.2).getR m ≤ 1 / 2 := by
    intro t hb
    simp only [outOfBand, decide_eq_false_iff_not, not_or, not_lt] at hb
    exact ⟨le_trans h1 hb.1, le_trans hb.2 h2⟩
  refine ⟨h1, h2, hband, ?_⟩
  intro out h t ht hne
  apply hband
  cases hb : outOfBand m (fun i => wavenumber grid.Nx i) (kMin spectrum grid)
      (kMax spectrum grid) t with
  | false => rfl
  | true =>
    obtain ⟨pre, post, hv⟩ := List.append_of_mem ht
    exact absurd ((synthesize_written m rng entropy spectrum grid seed out h pre post t hv).1 hb)
      hne

/-- C19, on the grid of 32 cells per axis with spacing 1, `lMin = 2` and `lMax = 32`. -/
theorem band_within_fundamental_and_nyquist_witness :
    1 / ((32 : Nat) : ℝ) ≤ kMin (F := ℝ) ⟨1, 2, 32, 8, fun _ => 1⟩
        ⟨32, 32, 32, ⟨1, 1, 1⟩, fun _ _ _ => ⟨0, 0, 0⟩⟩ ∧
      kMax (F := ℝ) ⟨1, 2, 32, 8, fun _ => 1⟩
        ⟨32, 32, 32, ⟨1, 1, 1⟩, fun _ _ _ => ⟨0, 0, 0⟩⟩ ≤ 1 / 2 :=
  ⟨(band_within_fundamental_and_nyquist (F := ℝ)
      ⟨Real.sqrt, Real.cos, Real.sin, Real.arccos, Real.pi⟩ (fun _ _ => 0) 0
      ⟨1, 2, 32, 8, fun _ => 1⟩ ⟨32, 32, 32, ⟨1, 1, 1⟩, fun _ _ _ => ⟨0, 0, 0⟩⟩ 42
      (by simp [checkGridRequirements]) (by norm_num) (by norm_num)).1,
   (band_within_fundamental_and_nyquist (F := ℝ)
      ⟨Real.sqrt, Real.cos, Real.sin, Real.arccos, Real.pi⟩ (fun _ _ => 0) 0
      ⟨1, 2, 32, 8, fun _ => 1⟩ ⟨32, 32, 32, ⟨1, 1, 1⟩, fun _ _ _ => ⟨0, 0, 0⟩⟩ 42
      (by simp [checkGridRequirements]) (by norm_num) (by norm_num)).2.1⟩

end Band

section DC
variable {F : Type} [LinearOrderedField F]

end DC

section Branch
variable {F : Type} [LinearOrderedField F]

/-- The norm is not negative and its square is the squared norm. -/
theorem getR_mul_self {m : Libm F} (hm : m.Exact) (v : Vector3 F) :
    0 ≤ v.getR m ∧ v.getR m * v.getR m = v.x * v.x + v.y * v.y + v.z * v.z := by
  have h0 : 0 ≤ v.x * v.x + v.y * v.y + v.z * v.z := by
    have := mul_self_nonneg v.x
    have := mul_self_nonneg v.y
    have := mul_self_nonneg v.z
    linarith
  exact ⟨hm.sqrt_nonneg _, hm.sqrt_mul_self _ h0⟩

/-- A positive multiple of `(1, 1, 1)` takes the special case. -/
theorem isParallelTo_diagonal {m : Libm F} (hm : m.Exact) (c : F) (hc : 0 < c) :
    Vector3.isParallelTo m ⟨c, c, c⟩ ⟨1, 1, 1⟩ (1 / 1000) = true := by
  have h3 : (0 : F) < 1 * 1 + 1 * 1 + 1 * 1 := by norm_num
  have hs := hm.sqrt_mul_self _ h3.le
  have hspos := hm.sqrt_pos h3
  have hek : m.sqrt (c * c + c * c + c * c) = c * m.sqrt (1 * 1 + 1 * 1 + 1 * 1) := by
    apply hm.sqrt_eq (mul_nonneg hc.le hspos.le)
    calc c * m.sqrt (1 * 1 + 1 * 1 + 1 * 1) * (c * m.sqrt (1 * 1 + 1 * 1 + 1 * 1))
        = c * c * (m.sqrt (1 * 1 + 1 * 1 + 1 * 1) * m.sqrt (1 * 1 + 1 * 1 + 1 * 1)) := by ring
      _ = c * c + c * c + c * c := by rw [hs]; ring
  simp only [Vector3.isParallelTo, Vector3.getAngleTo, Vector3.dot, Vector3.getR,
    decide_eq_true_eq]
  have hq : (c * 1 + c * 1 + c * 1) / m.sqrt (1 * 1 + 1 * 1 + 1 * 1) /
      m.sqrt (c * c + c * c + c * c) = 1 := by
    rw [hek, div_div, div_eq_one_iff_eq (by positivity)]
    calc c * 1 + c * 1 + c * 1
        = c * (1 * 1 + 1 * 1 + 1 * 1) := by ring
      _ = c * (m.sqrt (1 * 1 + 1 * 1 + 1 * 1) * m.sqrt (1 * 1 + 1 * 1 + 1 * 1)) := by rw [hs]
      _ = m.sqrt (1 * 1 + 1 * 1 + 1 * 1) * (c * m.sqrt (1 * 1 + 1 * 1 + 1 * 1)) := by ring
  rw [hq, hm.acos_one]
  norm_num

/-- In the half-space `i ≤ N div 2` a table entry is either not negative or at most `-1/2`. -/
theorem wavenumber_halfspace (N i : Nat) (hN : 2 ≤ N) (hi : i ≤ N / 2) :
    0 ≤ wavenumber (F := F) N i ∨ wavenumber (F := F) N i ≤ -1 / 2 := by
  have hNpos : (0 : F) < (N : F) := by exact_mod_cast (by omega : 0 < N)
  rcases Nat.lt_or_ge i (N / 2) with h | h
  · left
    simp only [wavenumber, Nat.div_eq_of_lt h, Nat.cast_zero, sub_zero]
    exact div_nonneg (Nat.cast_nonneg _) hNpos.le
  · right
    have he : i = N / 2 := le_antisymm hi h
    have hd : i / (N / 2) = 1 := by rw [he]; exact Nat.div_self (by omega)
    have h2 : (2 : F) * (i : F) ≤ (N : F) := by exact_mod_cast (by omega : 2 * i ≤ N)
    have h3 : (i : F) / (N : F) ≤ 1 / 2 := by
      rw [div_le_iff₀ hNpos]; linarith
    simp only [wavenumber, hd, Nat.cast_one]
    linarith

/-- A vector whose cross product with `(1, 1, 1)` vanishes has three equal components. -/
theorem eq_diagonal_of_cross_eq_zero (ek : Vector3 F)
    (h : Vector3.cross ⟨1, 1, 1⟩ ek = ⟨0, 0, 0⟩) : ek = ⟨ek.z, ek.z, ek.z⟩ := by
  have h1 := congrArg Vector3.x h
  have h2 := congrArg Vector3.y h
  simp only [Vector3.cross, one_mul] at h1 h2
  cases ek with
  | mk x y z =>
    simp only at h1 h2
    have hx : x = z := by linarith
    have hy : y = z := by linarith
    rw [hx, hy]

/-- The magnitude of a negative multiple of `(1, 1, 1)` in the half-space is above `1 / 2`. -/
theorem getR_antiparallel {m : Libm F} (hm : m.Exact) (N ix iy iz : Nat) (hN : 2 ≤ N)
    (hz : iz ≤ N / 2) (c : F) (hc : c < 0) (hek : wavevector (F := F) N ix iy iz = ⟨c, c, c⟩) :
    1 / 2 < (wavevector (F := F) N ix iy iz).getR m := by
  have hcz : wavenumber (F := F) N iz = c := by
    have := congrArg Vector3.z hek
    simpa [wavevector] using this
  have hle : c ≤ -1 / 2 := by
    rcases wavenumber_halfspace (F := F) N iz hN hz with h | h
    · rw [hcz] at h; linarith
    · rw [hcz] at h; exact h
  obtain ⟨h0, hsq⟩ := getR_mul_self hm (wavevector (F := F) N ix iy iz)
  rw [hek] at h0 hsq ⊢
  simp only at hsq
  by_contra hn
  have hk : (Vector3.getR m ⟨c, c, c⟩) ≤ 1 / 2 := not_lt.mp hn
  have h1 : Vector3.getR m ⟨c, c, c⟩ * Vector3.getR m ⟨c, c, c⟩ ≤ 1 / 2 * (1 / 2) :=
    mul_le_mul hk hk h0 (by norm_num)
  nlinarith

/-- An in-band wavevector of the half-space whose cross product with `(1, 1, 1)` vanishes is
a strictly positive multiple of `(1, 1, 1)`, when `kMin > 0` and `kMax ≤ 1 / 2`. -/
theorem diagonal_pos_of_inBand {m : Libm F} (hm : m.Exact) (N ix iy iz : Nat) (kMin kMax : F)
    (hN : 2 ≤ N) (hz : iz ≤ N / 2) (hkMin : 0 < kMin) (hkMax : kMax ≤ 1 / 2)
    (hband : outOfBand m (fun i => wavenumber N i) kMin kMax (ix, iy, iz) = false)
    (hcross : Vector3.cross ⟨1, 1, 1⟩ (wavevector (F := F) N ix iy iz) = ⟨0, 0, 0⟩) :
    ∃ c : F, 0 < c ∧ wavevector (F := F) N ix iy iz = ⟨c, c, c⟩ := by
  have hek := eq_diagonal_of_cross_eq_zero _ hcross
  have hb : kMin ≤ (wavevector (F := F) N ix iy iz).getR m ∧
      (wavevector (F := F) N ix iy iz).getR m ≤ kMax := by
    simpa [outOfBand, wavevector] using hband
  obtain ⟨c, hc⟩ : ∃ c : F, wavevector (F := F) N ix iy iz = ⟨c, c, c⟩ := ⟨_, hek⟩
  refine ⟨c, ?_, hc⟩
  rcases lt_trichotomy c 0 with hneg | hzero | hpos
  · have := getR_antiparallel hm N ix iy iz hN hz c hneg hc
    linarith
  · exfalso
    obtain ⟨-, hsq⟩ := getR_mul_self hm (wavevector (F := F) N ix iy iz)
    rw [hc] at hsq hb
    simp only [hzero, mul_zero, add_zero] at hsq hb
    have h0 := mul_self_eq_zero.mp hsq
    rw [h0] at hb
    linarith
  · exact hpos


/-- C17: for every grid size `N ≥ 2`, every index with `iz ≤ N div 2` and every band with
`kMin > 0` and `kMax ≤ 1 / 2`: an in-band wavevector `ek` with `n0 x ek = 0` is a strictly
positive multiple of `(1, 1, 1)` and takes the special case; a negative multiple of
`(1, 1, 1)` has `k > kMax` and is out of band (for even `N` the wavevector at
`ix = iy = iz = N / 2` is `(-1/2, -1/2, -1/2)`); so whenever an in-band wavevector takes the
cross-product branch, `e1 = n0 x ek` is not zero and its norm is positive. -/
theorem crossProduct_branch_nonzero (m : Libm F) (hm : m.Exact) (N ix iy iz : Nat)
    (kMin kMax : F) (hN : 2 ≤ N) (hz : iz ≤ N / 2) (hkMin : 0 < kMin) (hkMax : kMax ≤ 1 / 2) :
    (outOfBand m (fun i => wavenumber N i) kMin kMax (ix, iy, iz) = false →
      Vector3.cross ⟨1, 1, 1⟩ (wavevector (F := F) N ix iy iz) = ⟨0, 0, 0⟩ →
      ∃ c : F, 0 < c ∧ wavevector (F := F) N ix iy iz = ⟨c, c, c⟩ ∧
        (wavevector (F := F) N ix iy iz).isParallelTo m ⟨1, 1, 1⟩ (1 / 1000) = true) ∧
    (∀ c : F, c < 0 → wavevector (F := F) N ix iy iz = ⟨c, c, c⟩ →
      kMax < (wavevector (F := F) N ix iy iz).getR m ∧
      outOfBand m (fun i => wavenumber N i) kMin kMax (ix, iy, iz) = true) ∧
    (N % 2 = 0 → wavevector (F := F) N (N / 2) (N / 2) (N / 2) = ⟨-1 / 2, -1 / 2, -1 / 2⟩) ∧
    (outOfBand m (fun i => wavenumber N i) kMin kMax (ix, iy, iz) = false →
      (wavevector (F := F) N ix iy iz).isParallelTo m ⟨1, 1, 1⟩ (1 / 1000) = false →
      Vector3.cross ⟨1, 1, 1⟩ (wavevector (F := F) N ix iy iz) ≠ ⟨0, 0, 0⟩ ∧
      0 < (Vector3.cross ⟨1, 1, 1⟩ (wavevector (F := F) N ix iy iz)).getR m) := by
  have hdiag : outOfBand m (fun i => wavenumber N i) kMin kMax (ix, iy, iz) = false →
      Vector3.cross ⟨1, 1, 1⟩ (wavevector (F := F) N ix iy iz) = ⟨0, 0, 0⟩ →
      ∃ c : F, 0 < c ∧ wavevector (F := F) N ix iy iz = ⟨c, c, c⟩ ∧
        (wavevector (F := F) N ix iy iz).isParallelTo m ⟨1, 1, 1⟩ (1 / 1000) = true := by
    intro hband hcross
    obtain ⟨c, hc, hek⟩ :=
      diagonal_pos_of_inBand hm N ix iy iz kMin kMax hN hz hkMin hkMax hband hcross
    refine ⟨c, hc, hek, ?_⟩
    rw [hek]
    exact isParallelTo_diagonal hm c hc
  refine ⟨hdiag, ?_, ?_, ?_⟩
  · intro c hc hek
    have hk := getR_antiparallel hm N ix iy iz hN hz c hc hek
    have hlt : kMax < (wavevector (F := F) N ix iy iz).getR m := lt_of_le_of_lt hkMax hk
    refine ⟨hlt, ?_⟩
    simp only [outOfBand, decide_eq_true_eq]
    right
    exact hlt
  · intro heven
    have hNpos : (0 : F) < (N : F) := by exact_mod_cast (by omega : 0 < N)
    have hd : N / 2 / (N / 2) = 1 := Nat.div_self (by omega)
    have h2 : (2 : F) * ((N / 2 : Nat) : F) = (N : F) := by
      exact_mod_cast (by omega : 2 * (N / 2) = N)
    have hK : wavenumber (F := F) N (N / 2) = -1 / 2 := by
      simp only [wavenumber, hd, Nat.cast_one]
      have : ((N / 2 : Nat) : F) / (N : F) = 1 / 2 := by
        rw [div_eq_div_iff hNpos.ne' (by norm_num)]
        linarith
      rw [this]
      norm_num
    simp only [wavevector, hK]
  · intro hband hpar
    have hne : Vector3.cross ⟨1, 1, 1⟩ (wavevector (F := F) N ix iy iz) ≠ ⟨0, 0, 0⟩ := by
      intro hcross
      obtain ⟨c, -, -, hp⟩ := hdiag hband hcross
      rw [hp] at hpar
      cases hpar
    exact ⟨hne, hm.sqrt_pos (getR2_pos_of_ne_zero _ hne)⟩

/-- C17, on the grid of 4 cells per axis with `kMin = 1 / 4`, `kMax = 1 / 2` at the
wavevector `(1/4, -1/4, 0)` of index `(1, 3, 0)`: it is in band, at a right angle to
`(1, 1, 1)`, and `e1 = n0 x ek` has a positive norm. -/
theorem crossProduct_branch_nonzero_witness :
    0 < (Vector3.cross ⟨1, 1, 1⟩ (wavevector (F := ℝ) 4 1 3 0)).getR
      ⟨Real.sqrt, Real.cos, Real.sin, Real.arccos, Real.pi⟩ := by
  refine ((crossProduct_branch_nonzero (F := ℝ)
    ⟨Real.sqrt, Real.cos, Real.sin, Real.arccos, Real.pi⟩ real_exact 4 1 3 0 (1 / 4) (1 / 2)
    (by decide) (by decide) (by norm_num) (by norm_num)).2.2.2 ?_ ?_).2
  · simp only [outOfBand, Vector3.getR, wavenumber, decide_eq_false_iff_not, not_or, not_lt]
    norm_num
    have h1 : Real.sqrt 8 ≤ 4 := by rw [Real.sqrt_le_iff]; norm_num
    have h2 : 2 ≤ Real.sqrt 8 := by rw [Real.le_sqrt (by norm_num)] <;> norm_num
    have hp : 0 < Real.sqrt 8 := by linarith
    rw [inv_eq_one_div]
    exact ⟨one_div_le_one_div_of_le hp h1, one_div_le_one_div_of_le (by norm_num) h2⟩
  · simp only [Vector3.isParallelTo, Vector3.getAngleTo, Vector3.dot, Vector3.getR, wavevector,
      wavenumber, decide_eq_false_iff_not, not_lt]
    norm_num
    linarith [Real.pi_gt_three]

end Branch

section Amplitude
variable {F : Type} [LinearOrderedField F]

/-- A vector of positive squared norm divided by its norm has squared norm 1. -/
theorem dot_self_div_getR {m : Libm F} (hm : m.Exact) (v : Vector3 F)
    (hv : 0 < v.x * v.x + v.y * v.y + v.z * v.z) :
    (v.div (v.getR m)).dot (v.div (v.getR m)) = 1 := by
  have hs := hm.sqrt_mul_self _ hv.le
  have hpos := hm.sqrt_pos hv
  rw [dot_div_div]
  simp only [Vector3.dot, Vector3.getR]
  rw [hs]
  exact div_self hv.ne'

/-- The base `e1`, `e2` is orthonormal when the special case is taken or `n0 x ek` is not
zero. -/
theorem transverseBasis_dot {m : Libm F} (hm : m.Exact) (ek : Vector3 F)
    (h : ek.isParallelTo m ⟨1, 1, 1⟩ (1 / 1000) = true ∨
      Vector3.cross ⟨1, 1, 1⟩ ek ≠ ⟨0, 0, 0⟩) :
    (transverseBasis m ek).1.dot (transverseBasis m ek).1 = 1 ∧
    (transverseBasis m ek).2.dot (transverseBasis m ek).2 = 1 ∧
    (transverseBasis m ek).1.dot (transverseBasis m ek).2 = 0 := by
  cases hpar : ek.isParallelTo m ⟨1, 1, 1⟩ (1 / 1000) with
  | true =>
    have hb : transverseBasis m ek =
        ((⟨-1, 1, 0⟩ : Vector3 F).div ((⟨-1, 1, 0⟩ : Vector3 F).getR m),
          (⟨1, 1, -2⟩ : Vector3 F).div ((⟨1, 1, -2⟩ : Vector3 F).getR m)) := by
      simp only [transverseBasis, hpar, if_true]
    rw [hb]
    refine ⟨dot_self_div_getR hm _ (by norm_num), dot_self_div_getR hm _ (by norm_num), ?_⟩
    rw [dot_div_div]
    simp [Vector3.dot]
  | false =>
    have hcross : Vector3.cross ⟨1, 1, 1⟩ ek ≠ ⟨0, 0, 0⟩ := by
      rcases h with h | h
      · rw [hpar] at h; cases h
      · exact h
    have h1 := getR2_pos_of_ne_zero _ hcross
    have h2 : 0 < (ek.cross (Vector3.cross ⟨1, 1, 1⟩ ek)).x *
        (ek.cross (Vector3.cross ⟨1, 1, 1⟩ ek)).x
        + (ek.cross (Vector3.cross ⟨1, 1, 1⟩ ek)).y * (ek.cross (Vector3.cross ⟨1, 1, 1⟩ ek)).y
        + (ek.cross (Vector3.cross ⟨1, 1, 1⟩ ek)).z *
          (ek.cross (Vector3.cross ⟨1, 1, 1⟩ ek)).z := by
      have hek : 0 < ek.x * ek.x + ek.y * ek.y + ek.z * ek.z := by
        apply getR2_pos_of_ne_zero
        intro h0
        apply hcross
        rw [h0]
        simp [Vector3.cross]
      have hprod := mul_pos hek h1
      simp only [Vector3.cross] at hprod ⊢
      nlinarith [hprod]
    have hb : transverseBasis m ek =
        ((Vector3.cross ⟨1, 1, 1⟩ ek).div ((Vector3.cross ⟨1, 1, 1⟩ ek).getR m),
          (ek.cross (Vector3.cross ⟨1, 1, 1⟩ ek)).div
            ((ek.cross (Vector3.cross ⟨1, 1, 1⟩ ek)).getR m)) := by
      simp only [transverseBasis, hpar, Bool.false_eq_true, if_false]
    rw [hb]
    refine ⟨dot_self_div_getR hm _ h1, dot_self_div_getR hm _ h2, ?_⟩
    rw [dot_div_div]
    have : (Vector3.cross ⟨1, 1, 1⟩ ek).dot (ek.cross (Vector3.cross ⟨1, 1, 1⟩ ek)) = 0 := by
      simp only [Vector3.cross, Vector3.dot]; ring
    rw [this, zero_div]

/-- The squared modulus of `(e1 * a + e2 * b) * s` with the phase `(p, q)`, for an orthonormal
pair `e1`, `e2`, `a * a + b * b = 1` and `p * p + q * q = 1`, is `s * s`. -/
theorem modulus_identity (x1 y1 z1 x2 y2 z2 a b p q s E : F)
    (h11 : x1 * x1 + y1 * y1 + z1 * z1 = 1) (h22 : x2 * x2 + y2 * y2 + z2 * z2 = 1)
    (h12 : x1 * x2 + y1 * y2 + z1 * z2 = 0) (ht : a * a + b * b = 1) (hp : p * p + q * q = 1)
    (hs : s * s = E) :
    (x1 * a + x2 * b) * s * p * ((x1 * a + x2 * b) * s * p) +
      (x1 * a + x2 * b) * s * q * ((x1 * a + x2 * b) * s * q) +
      ((y1 * a + y2 * b) * s * p * ((y1 * a + y2 * b) * s * p) +
        (y1 * a + y2 * b) * s * q * ((y1 * a + y2 * b) * s * q)) +
      ((z1 * a + z2 * b) * s * p * ((z1 * a + z2 * b) * s * p) +
        (z1 * a + z2 * b) * s * q * ((z1 * a + z2 * b) * s * q)) = E := by
  linear_combination (s * s * (p * p + q * q) * (a * a)) * h11 +
    (s * s * (p * p + q * q) * (b * b)) * h22 + (s * s * (p * p + q * q) * (2 * a * b)) * h12 +
    (s * s * (p * p + q * q)) * ht + (s * s) * hp + hs

/-- The squared modulus of the coefficients of a wavevector with an orthonormal base is the
spectrum value, when that is not negative. -/
theorem modeCoefficients_modulus_of_basis {m : Libm F} (hm : m.Exact)
    (spectrum : TurbulenceSpectrum F) (lam : F) (ek : Vector3 F) (r1 r2 : F)
    (h : ek.isParallelTo m ⟨1, 1, 1⟩ (1 / 1000) = true ∨
      Vector3.cross ⟨1, 1, 1⟩ ek ≠ ⟨0, 0, 0⟩)
    (hE : 0 ≤ spectrum.energySpectrum (ek.getR m * lam)) :
    squaredModulus (modeCoefficients m spectrum lam ek r1 r2)
      = spectrum.energySpectrum (ek.getR m * lam) := by
  obtain ⟨h11, h22, h12⟩ := transverseBasis_dot hm ek h
  simp only [Vector3.dot] at h11 h22 h12
  simp only [squaredModulus, modeCoefficients, Vector3.mul, Vector3.add]
  exact modulus_identity _ _ _ _ _ _ _ _ _ _ _ _ h11 h22 h12 (hm.cos_sq_add_sin_sq _)
    (hm.cos_sq_add_sin_sq _) (hm.sqrt_mul_self _ hE)


/-- An in-band wavevector of an accepted grid has an orthonormal base: it takes the special
case or `n0 x ek` is not zero. -/
theorem inBand_basis {m : Libm F} (hm : m.Exact) (spectrum : TurbulenceSpectrum F)
    (grid : Grid3 F) (hcheck : checkGridRequirements grid spectrum.lMin spectrum.lMax = .ok ())
    (hsp : 0 < grid.spacing.x) (hle : spectrum.lMin ≤ spectrum.lMax) (ix iy iz : Nat)
    (hz : iz ≤ grid.Nx / 2)
    (hband : outOfBand m (fun i => wavenumber grid.Nx i) (kMin spectrum grid)
      (kMax spectrum grid) (ix, iy, iz) = false) :
    (wavevector (F := F) grid.Nx ix iy iz).isParallelTo m ⟨1, 1, 1⟩ (1 / 1000) = true ∨
      Vector3.cross ⟨1, 1, 1⟩ (wavevector (F := F) grid.Nx ix iy iz) ≠ ⟨0, 0, 0⟩ := by
  obtain ⟨-, -, h3, -⟩ := constraints_of_checkGridRequirements grid _ _ hcheck
  have hlMin : 0 < spectrum.lMin := lt_of_lt_of_le (by linarith) h3
  have hN := two_le_Nx_of_accepted grid _ _ hcheck hsp hle
  have hk1 := kMin_pos spectrum grid hsp (lt_of_lt_of_le hlMin hle)
  have hk2 := kMax_le_half spectrum grid hcheck hsp
  cases hpar : (wavevector (F := F) grid.Nx ix iy iz).isParallelTo m ⟨1, 1, 1⟩ (1 / 1000) with
  | true => exact Or.inl rfl
  | false =>
    right
    intro hcross
    obtain ⟨c, hc, hek⟩ := diagonal_pos_of_inBand hm grid.Nx ix iy iz _ _ hN hz hk1 hk2 hband
      hcross
    rw [hek, isParallelTo_diagonal hm c hc] at hpar
    cases hpar

/-- C13: for every grid and spectrum accepted by `checkGridRequirements` with positive spacing
and `lMin ≤ lMax` (so `0 < lMin`), every in-band wavevector of the half-space and every pair of
draws, the squared modulus of the coefficient vector that the loop computes (with the `lambda`
of line 62) is `energySpectrum(k * (lBendover / spacing.x * 2 * pi))`, whenever that spectrum
value is not negative; in a run that completes this holds of the coefficients stored for every
in-band wavevector, and the run completes when the arrays have at most `2 ^ 31` elements. -/
theorem modeCoefficients_spectral_amplitude (m : Libm F) (hm : m.Exact) (rng : Nat → Nat → F)
    (entropy : Nat) (spectrum : TurbulenceSpectrum F) (grid : Grid3 F) (seed : Nat)
    (hcheck : checkGridRequirements grid spectrum.lMin spectrum.lMax = .ok ())
    (hsp : 0 < grid.spacing.x) (hle : spectrum.lMin ≤ spectrum.lMax) :
    (∀ ix iy iz : Nat, iz ≤ grid.Nx / 2 →
      outOfBand m (fun i => wavenumber grid.Nx i) (kMin spectrum grid) (kMax spectrum grid)
        (ix, iy, iz) = false →
      0 ≤ spectrum.energySpectrum ((wavevector (F := F) grid.Nx ix iy iz).getR m *
        (spectrum.lBendover / grid.spacing.x * 2 * m.pi)) →
      ∀ r1 r2 : F,
        squaredModulus (modeCoefficients m spectrum (lambda m spectrum grid)
          (wavevector grid.Nx ix iy iz) r1 r2) =
        spectrum.energySpectrum ((wavevector (F := F) grid.Nx ix iy iz).getR m *
          (spectrum.lBendover / grid.spacing.x * 2 * m.pi))) ∧
    (∀ out, synthesize m rng entropy spectrum grid seed = .ok out →
      ∀ t ∈ inBandWavevectors m spectrum grid,
        0 ≤ spectrum.energySpectrum ((wavevector (F := F) grid.Nx t.1 t.2.1 t.2.2).getR m *
          (spectrum.lBendover / grid.spacing.x * 2 * m.pi)) →
        ∃ c : (F × F) × (F × F) × (F × F),
          out.Bkx (coefficientIndex grid.Nx t.1 t.2.1 t.2.2) = some c.1 ∧
          out.Bky (coefficientIndex grid.Nx t.1 t.2.1 t.2.2) = some c.2.1 ∧
          out.Bkz (coefficientIndex grid.Nx t.1 t.2.1 t.2.2) = some c.2.2 ∧
          squaredModulus c = spectrum.energySpectrum
            ((wavevector (F := F) grid.Nx t.1 t.2.1 t.2.2).getR m *
              (spectrum.lBendover / grid.spacing.x * 2 * m.pi))) ∧
    (grid.Nx * grid.Nx * (grid.Nx / 2 + 1) ≤ 2 ^ 31 →
      ∃ out, synthesize m rng entropy spectrum grid seed = .ok out) := by
  have hlam : lambda m spectrum grid = spectrum.lBendover / grid.spacing.x * 2 * m.pi := rfl
  have hmode : ∀ ix iy iz : Nat, iz ≤ grid.Nx / 2 →
      outOfBand m (fun i => wavenumber grid.Nx i) (kMin spectrum grid) (kMax spectrum grid)
        (ix, iy, iz) = false →
      0 ≤ spectrum.energySpectrum ((wavevector (F := F) grid.Nx ix iy iz).getR m *
        (spectrum.lBendover / grid.spacing.x * 2 * m.pi)) →
      ∀ r1 r2 : F,
        squaredModulus (modeCoefficients m spectrum (lambda m spectrum grid)
          (wavevector grid.Nx ix iy iz) r1 r2) =
        spectrum.energySpectrum ((wavevector (F := F) grid.Nx ix iy iz).getR m *
          (spectrum.lBendover / grid.spacing.x * 2 * m.pi)) := by
    intro ix iy iz hz hband hE r1 r2
    rw [← hlam] at hE ⊢
    exact modeCoefficients_modulus_of_basis hm spectrum _ _ r1 r2
      (inBand_basis hm spectrum grid hcheck hsp hle ix iy iz hz hband) hE
  refine ⟨hmode, ?_, ?_⟩
  · intro out h t ht hE
    obtain ⟨hv, hb⟩ := List.mem_filter.mp ht
    have hb' : outOfBand m (fun i => wavenumber grid.Nx i) (kMin spectrum grid)
        (kMax spectrum grid) t = false := by simpa using hb
    obtain ⟨-, -, hz⟩ := (mem_visited _ _).mp hv
    obtain ⟨pre, post, hsplit⟩ := List.append_of_mem hv
    have hw :=
      (synthesize_written m rng entropy spectrum grid seed out h pre post t hsplit).2 hb'
    simp only [Prod.mk.injEq] at hw
    exact ⟨_, hw.1, hw.2.1, hw.2.2,
      hmode t.1 t.2.1 t.2.2 (by omega) hb' hE _ _⟩
  · intro hsize
    have hN := two_le_Nx_of_accepted grid _ _ hcheck hsp hle
    exact synthesize_isOk m rng entropy spectrum grid seed (by omega) hsize

/-- C13, on the grid of 2 cells per axis with `lMin = lMax = 2`, `lBendover = 8` and the
spectrum `E(x) = x * x`, at the in-band wavevector `(0, 0, -1/2)` of index `(0, 0, 1)`, for the
draws `1/4` and `3/4`: `k = 1/2`, `lambda = 16 * pi` and the squared modulus is
`(8 * pi) * (8 * pi)`. -/
theorem modeCoefficients_spectral_amplitude_witness :
    squaredModulus (modeCoefficients (F := ℝ)
      ⟨Real.sqrt, Real.cos, Real.sin, Real.arccos, Real.pi⟩ ⟨1, 2, 2, 8, fun x => x * x⟩
      (lambda ⟨Real.sqrt, Real.cos, Real.sin, Real.arccos, Real.pi⟩ ⟨1, 2, 2, 8, fun x => x * x⟩
        ⟨2, 2, 2, ⟨1, 1, 1⟩, fun _ _ _ => ⟨0, 0, 0⟩⟩)
      (wavevector 2 0 0 1) (1 / 4) (3 / 4)) = 8 * Real.pi * (8 * Real.pi) := by
  have hs : Real.sqrt (((2 : ℝ)⁻¹ - 1) * (2⁻¹ - 1)) = 2⁻¹ := by
    rw [Real.sqrt_mul_self_eq_abs, abs_of_neg (by norm_num)]; norm_num
  have hk : (wavevector (F := ℝ) 2 0 0 1).getR
      ⟨Real.sqrt, Real.cos, Real.sin, Real.arccos, Real.pi⟩ = 2⁻¹ := by
    simp [wavevector, wavenumber, Vector3.getR, hs]
  have h := (modeCoefficients_spectral_amplitude (F := ℝ)
    ⟨Real.sqrt, Real.cos, Real.sin, Real.arccos, Real.pi⟩ real_exact (fun _ _ => 0) 0
    ⟨1, 2, 2, 8, fun x => x * x⟩ ⟨2, 2, 2, ⟨1, 1, 1⟩, fun _ _ _ => ⟨0, 0, 0⟩⟩ 42
    (by simp [checkGridRequirements]) (by norm_num) (by norm_num)).1 0 0 1 (by decide)
    (by simp [outOfBand, Vector3.getR, wavenumber, kMin, kMax, hs]) (mul_self_nonneg _)
    (1 / 4) (3 / 4)
  rw [h, hk]
  ring

end Amplitude

section Transverse

/-- The entries 590 and 591 of the table `K` for 2048 cells per axis. -/
theorem wavenumber_2048 :
    wavenumber (F := ℝ) 2048 590 = 590 / 2048 ∧ wavenumber (F := ℝ) 2048 591 = 591 / 2048 := by
  constructor <;> norm_num [wavenumber]

/-- The wavevector `(590, 590, 591) / 2048` is within the tolerance `1 / 1000` of the
direction `(1, 1, 1)`. -/
theorem isParallelTo_near_diagonal :
    Vector3.isParallelTo ⟨Real.sqrt, Real.cos, Real.sin, Real.arccos, Real.pi⟩
      (⟨590 / 2048, 590 / 2048, 591 / 2048⟩ : Vector3 ℝ) ⟨1, 1, 1⟩ (1 / 1000) = true := by
  simp only [Vector3.isParallelTo, Vector3.getAngleTo, Vector3.dot, Vector3.getR,
    decide_eq_true_eq]
  have hcos : Real.cos (1 / 1000) < 1 - 4 / 10 ^ 7 := by
    have hb := Real.cos_bound (x := 1 / 1000) (by rw [abs_of_pos] <;> norm_num)
    have h1 := (abs_le.mp hb).2
    rw [abs_of_pos (by norm_num : (0 : ℝ) < 1 / 1000)] at h1
    norm_num at h1 ⊢
    linarith
  have hq : (0 : ℝ) < 590 / 2048 * (590 / 2048) + 590 / 2048 * (590 / 2048) +
      591 / 2048 * (591 / 2048) := by norm_num
  have h3 : (0 : ℝ) < 1 * 1 + 1 * 1 + 1 * 1 := by norm_num
  have hc : (1 : ℝ) - 4 / 10 ^ 7 ≤
      (590 / 2048 * 1 + 590 / 2048 * 1 + 591 / 2048 * 1) / Real.sqrt (1 * 1 + 1 * 1 + 1 * 1) /
        Real.sqrt (590 / 2048 * (590 / 2048) + 590 / 2048 * (590 / 2048) +
          591 / 2048 * (591 / 2048)) := by
    rw [div_div, le_div_iff₀ (mul_pos (Real.sqrt_pos.mpr h3) (Real.sqrt_pos.mpr hq)),
      ← Real.sqrt_mul h3.le, ← le_div_iff₀' (by norm_num), Real.sqrt_le_iff]
    constructor <;> norm_num
  rw [Real.arccos_eq_pi_div_two_sub_arcsin]
  have hlt : Real.pi / 2 - 1 / 1000 < Real.arcsin
      ((590 / 2048 * 1 + 590 / 2048 * 1 + 591 / 2048 * 1) / Real.sqrt (1 * 1 + 1 * 1 + 1 * 1) /
        Real.sqrt (590 / 2048 * (590 / 2048) + 590 / 2048 * (590 / 2048) +
          591 / 2048 * (591 / 2048))) := by
    rw [Real.lt_arcsin_iff_sin_lt' ⟨by linarith [Real.pi_gt_three], by linarith⟩,
      Real.sin_pi_div_two_sub]
    exact lt_of_lt_of_le hcos hc
  linarith


/-- C12 fails for a wavevector within the tolerance of the direction `(1, 1, 1)` but not on
it. The grid of 2048 cells per axis with spacing 1 is accepted for `lMin = 2`, `lMax = 2048`;
the visited wavevector `(590, 590, 591) / 2048` is in band and takes the special case; with
the constant spectrum 1 and the draws `1/4` (angle) and `0` (phase) the real parts of its
coefficients are `e2 = (1, 1, -2) / sqrt 6`, whose dot product with `ek` is not zero. -/
theorem modeCoefficients_transverse_counterexample :
    checkGridRequirements (F := ℝ) ⟨2048, 2048, 2048, ⟨1, 1, 1⟩, fun _ _ _ => ⟨0, 0, 0⟩⟩ 2 2048
      = .ok () ∧
    (590, 590, 591) ∈ visited 2048 ∧
    outOfBand (F := ℝ) ⟨Real.sqrt, Real.cos, Real.sin, Real.arccos, Real.pi⟩
      (fun i => wavenumber 2048 i)
      (kMin ⟨1, 2, 2048, 8, fun _ => 1⟩ ⟨2048, 2048, 2048, ⟨1, 1, 1⟩, fun _ _ _ => ⟨0, 0, 0⟩⟩)
      (kMax ⟨1, 2, 2048, 8, fun _ => 1⟩ ⟨2048, 2048, 2048, ⟨1, 1, 1⟩, fun _ _ _ => ⟨0, 0, 0⟩⟩)
      (590, 590, 591) = false ∧
    Vector3.isParallelTo ⟨Real.sqrt, Real.cos, Real.sin, Real.arccos, Real.pi⟩
      (wavevector (F := ℝ) 2048 590 590 591) ⟨1, 1, 1⟩ (1 / 1000) = true ∧
    (wavevector (F := ℝ) 2048 590 590 591).dot
      ⟨(modeCoefficients ⟨Real.sqrt, Real.cos, Real.sin, Real.arccos, Real.pi⟩
          ⟨1, 2, 2048, 8, fun _ => 1⟩ (8 / 1 * 2 * Real.pi)
          (wavevector 2048 590 590 591) (1 / 4) 0).1.1,
        (modeCoefficients ⟨Real.sqrt, Real.cos, Real.sin, Real.arccos, Real.pi⟩
          ⟨1, 2, 2048, 8, fun _ => 1⟩ (8 / 1 * 2 * Real.pi)
          (wavevector 2048 590 590 591) (1 / 4) 0).2.1.1,
        (modeCoefficients ⟨Real.sqrt, Real.cos, Real.sin, Real.arccos, Real.pi⟩
          ⟨1, 2, 2048, 8, fun _ => 1⟩ (8 / 1 * 2 * Real.pi)
          (wavevector 2048 590 590 591) (1 / 4) 0).2.2.1⟩ ≠ 0 := by
  have hw : wavevector (F := ℝ) 2048 590 590 591 = ⟨590 / 2048, 590 / 2048, 591 / 2048⟩ := by
    simp only [wavevector, wavenumber_2048.1, wavenumber_2048.2]
  have hpar := isParallelTo_near_diagonal
  refine ⟨?_, ?_, ?_, ?_, ?_⟩
  · simp [checkGridRequirements]
  · rw [mem_visited]; decide
  · simp only [outOfBand, Vector3.getR, wavenumber_2048.1, wavenumber_2048.2, kMin, kMax,
      decide_eq_false_iff_not, not_or, not_lt]
    constructor
    · rw [Real.le_sqrt (by norm_num)] <;> norm_num
    · rw [Real.sqrt_le_iff]; norm_num
  · rw [hw]; exact hpar
  · rw [hw]
    have ht : 2 * Real.pi * (1 / 4) = Real.pi / 2 := by ring
    have h6 : (0 : ℝ) < Real.sqrt (1 * 1 + 1 * 1 + -2 * -2) := Real.sqrt_pos.mpr (by norm_num)
    simp only [modeCoefficients, transverseBasis, hpar, if_true, ht, Real.cos_pi_div_two,
      Real.sin_pi_div_two, mul_zero, Real.cos_zero, Real.sqrt_one, Vector3.mul, Vector3.add,
      Vector3.div, Vector3.dot, Vector3.getR, mul_one, zero_add]
    intro h
    field_simp at h
    norm_num at h


section
variable {F : Type} [LinearOrderedField F]

/-- The vectors the base is made of, before they are divided by their norms: the norms that
the code divides by (`|ek|` and `|n0|` for the angle, `|e1|`, `|e2|` for the base) are
positive and `e1`, `e2` are orthogonal to `ek`, when `ek` takes the cross-product branch with
`n0 x ek` not zero, or is a positive multiple of `(1, 1, 1)`. -/
theorem transverseBasis_divisors {m : Libm F} (hm : m.Exact) (ek : Vector3 F)
    (h : (ek.isParallelTo m ⟨1, 1, 1⟩ (1 / 1000) = false ∧
        Vector3.cross ⟨1, 1, 1⟩ ek ≠ ⟨0, 0, 0⟩) ∨
      (∃ c : F, 0 < c ∧ ek = ⟨c, c, c⟩)) :
    0 < ek.getR m ∧ 0 < (⟨1, 1, 1⟩ : Vector3 F).getR m ∧
    ∃ e1 e2 : Vector3 F, 0 < e1.getR m ∧ 0 < e2.getR m ∧
      transverseBasis m ek = (e1.div (e1.getR m), e2.div (e2.getR m)) ∧
      e1.dot ek = 0 ∧ e2.dot ek = 0 := by
  have hn0 : 0 < (⟨1, 1, 1⟩ : Vector3 F).getR m := hm.sqrt_pos (by norm_num)
  rcases h with ⟨hpar, hcross⟩ | ⟨c, hc, rfl⟩
  · have h1 := getR2_pos_of_ne_zero _ hcross
    have hek : 0 < ek.x * ek.x + ek.y * ek.y + ek.z * ek.z := by
      apply getR2_pos_of_ne_zero
      intro h0
      apply hcross
      rw [h0]
      simp [Vector3.cross]
    have h2 : 0 < (ek.cross (Vector3.cross ⟨1, 1, 1⟩ ek)).x *
        (ek.cross (Vector3.cross ⟨1, 1, 1⟩ ek)).x
        + (ek.cross (Vector3.cross ⟨1, 1, 1⟩ ek)).y * (ek.cross (Vector3.cross ⟨1, 1, 1⟩ ek)).y
        + (ek.cross (Vector3.cross ⟨1, 1, 1⟩ ek)).z *
          (ek.cross (Vector3.cross ⟨1, 1, 1⟩ ek)).z := by
      have hprod := mul_pos hek h1
      simp only [Vector3.cross] at hprod ⊢
      nlinarith [hprod]
    refine ⟨hm.sqrt_pos hek, hn0, Vector3.cross ⟨1, 1, 1⟩ ek,
      ek.cross (Vector3.cross ⟨1, 1, 1⟩ ek), hm.sqrt_pos h1, hm.sqrt_pos h2, ?_, ?_, ?_⟩
    · simp only [transverseBasis, hpar, Bool.false_eq_true, if_false]
    · simp only [Vector3.cross, Vector3.dot]; ring
    · simp only [Vector3.cross, Vector3.dot]; ring
  · have hpar := isParallelTo_diagonal hm c hc
    have hek : 0 < c * c + c * c + c * c := by positivity
    refine ⟨hm.sqrt_pos hek, hn0, ⟨-1, 1, 0⟩, ⟨1, 1, -2⟩, hm.sqrt_pos (by norm_num),
      hm.sqrt_pos (by norm_num), ?_, ?_, ?_⟩
    · simp only [transverseBasis, hpar, if_true]
    · simp only [Vector3.dot]; ring
    · simp only [Vector3.dot]; ring

/-- The real parts and the imaginary parts of the coefficients of `ek` are orthogonal to `ek`
when the two vectors of the base are. -/
theorem modeCoefficients_dot_of_basis (m : Libm F) (spectrum : TurbulenceSpectrum F) (lam : F)
    (ek : Vector3 F) (r1 r2 : F)
    (h1 : (transverseBasis m ek).1.dot ek = 0) (h2 : (transverseBasis m ek).2.dot ek = 0) :
    ek.dot ⟨(modeCoefficients m spectrum lam ek r1 r2).1.1,
      (modeCoefficients m spectrum lam ek r1 r2).2.1.1,
      (modeCoefficients m spectrum lam ek r1 r2).2.2.1⟩ = 0 ∧
    ek.dot ⟨(modeCoefficients m spectrum lam ek r1 r2).1.2,
      (modeCoefficients m spectrum lam ek r1 r2).2.1.2,
      (modeCoefficients m spectrum lam ek r1 r2).2.2.2⟩ = 0 := by
  simp only [Vector3.dot] at h1 h2
  simp only [modeCoefficients, Vector3.mul, Vector3.add, Vector3.dot]
  constructor
  · linear_combination
      (m.cos (2 * m.pi * r1) * m.sqrt (spectrum.energySpectrum (ek.getR m * lam)) *
        m.cos (2 * m.pi * r2)) * h1 +
      (m.sin (2 * m.pi * r1) * m.sqrt (spectrum.energySpectrum (ek.getR m * lam)) *
        m.cos (2 * m.pi * r2)) * h2
  · linear_combination
      (m.cos (2 * m.pi * r1) * m.sqrt (spectrum.energySpectrum (ek.getR m * lam)) *
        m.sin (2 * m.pi * r2)) * h1 +
      (m.sin (2 * m.pi * r1) * m.sqrt (spectrum.energySpectrum (ek.getR m * lam)) *
        m.sin (2 * m.pi * r2)) * h2

/-- The coefficients of a wavevector whose base is made with nonzero divisors are
transverse. -/
theorem modeCoefficients_dot_of_divisors {m : Libm F} (hm : m.Exact)
    (spectrum : TurbulenceSpectrum F) (lam : F) (ek : Vector3 F) (r1 r2 : F)
    (h : (ek.isParallelTo m ⟨1, 1, 1⟩ (1 / 1000) = false ∧
        Vector3.cross ⟨1, 1, 1⟩ ek ≠ ⟨0, 0, 0⟩) ∨
      (∃ c : F, 0 < c ∧ ek = ⟨c, c, c⟩)) :
    ek.dot ⟨(modeCoefficients m spectrum lam ek r1 r2).1.1,
      (modeCoefficients m spectrum lam ek r1 r2).2.1.1,
      (modeCoefficients m spectrum lam ek r1 r2).2.2.1⟩ = 0 ∧
    ek.dot ⟨(modeCoefficients m spectrum lam ek r1 r2).1.2,
      (modeCoefficients m spectrum lam ek r1 r2).2.1.2,
      (modeCoefficients m spectrum lam ek r1 r2).2.2.2⟩ = 0 := by
  obtain ⟨-, -, e1, e2, -, -, hb, h1, h2⟩ := transverseBasis_divisors hm ek h
  apply modeCoefficients_dot_of_basis
  · rw [hb, dot_div_left, h1, zero_div]
  · rw [hb, dot_div_left, h2, zero_div]

/-- On an accepted grid an in-band wavevector that takes the cross-product branch has
`n0 x ek` not zero, and one with three equal components is a positive multiple of
`(1, 1, 1)`. -/
theorem inBand_divisors {m : Libm F} (hm : m.Exact) (spectrum : TurbulenceSpectrum F)
    (grid : Grid3 F) (hcheck : checkGridRequirements grid spectrum.lMin spectrum.lMax = .ok ())
    (hsp : 0 < grid.spacing.x) (hle : spectrum.lMin ≤ spectrum.lMax) (t : Nat × Nat × Nat)
    (ht : t ∈ inBandWavevectors m spectrum grid)
    (h : (wavevector (F := F) grid.Nx t.1 t.2.1 t.2.2).isParallelTo m ⟨1, 1, 1⟩ (1 / 1000)
        = false ∨
      ((wavevector (F := F) grid.Nx t.1 t.2.1 t.2.2).x =
          (wavevector (F := F) grid.Nx t.1 t.2.1 t.2.2).y ∧
        (wavevector (F := F) grid.Nx t.1 t.2.1 t.2.2).y =
          (wavevector (F := F) grid.Nx t.1 t.2.1 t.2.2).z)) :
    ((wavevector (F := F) grid.Nx t.1 t.2.1 t.2.2).isParallelTo m ⟨1, 1, 1⟩ (1 / 1000)
        = false ∧
      Vector3.cross ⟨1, 1, 1⟩ (wavevector (F := F) grid.Nx t.1 t.2.1 t.2.2) ≠ ⟨0, 0, 0⟩) ∨
    (∃ c : F, 0 < c ∧ wavevector (F := F) grid.Nx t.1 t.2.1 t.2.2 = ⟨c, c, c⟩) := by
  obtain ⟨hv, hb⟩ := List.mem_filter.mp ht
  have hb' : outOfBand m (fun i => wavenumber grid.Nx i) (kMin spectrum grid)
      (kMax spectrum grid) (t.1, t.2.1, t.2.2) = false := by simpa using hb
  obtain ⟨-, -, hz⟩ := (mem_visited _ _).mp hv
  have hz' : t.2.2 ≤ grid.Nx / 2 := by omega
  obtain ⟨-, -, h3, -⟩ := constraints_of_checkGridRequirements grid _ _ hcheck
  have hlMin : 0 < spectrum.lMin := lt_of_lt_of_le (by linarith) h3
  have hN := two_le_Nx_of_accepted grid _ _ hcheck hsp hle
  have hk1 := kMin_pos spectrum grid hsp (lt_of_lt_of_le hlMin hle)
  have hk2 := kMax_le_half spectrum grid hcheck hsp
  rcases h with hpar | ⟨hxy, hyz⟩
  · left
    refine ⟨hpar, ?_⟩
    rcases inBand_basis hm spectrum grid hcheck hsp hle t.1 t.2.1 t.2.2 hz' hb' with h | h
    · rw [hpar] at h; cases h
    · exact h
  · right
    have hcross : Vector3.cross ⟨1, 1, 1⟩ (wavevector (F := F) grid.Nx t.1 t.2.1 t.2.2)
        = ⟨0, 0, 0⟩ := by
      simp only [Vector3.cross, one_mul, hxy, hyz, sub_self]
    exact diagonal_pos_of_inBand hm grid.Nx t.1 t.2.1 t.2.2 _ _ hN hz' hk1 hk2 hb' hcross

/-- C12, amended: for every wavevector `ek` that takes the cross-product branch with
`n0 x ek` not zero, or is a positive multiple of `(1, 1, 1)`, and every pair of draws: the
norms `|ek|`, `|n0|` the angle is divided by are positive, the base is `e1 / |e1|`,
`e2 / |e2|` with both divisors positive and `e1`, `e2` orthogonal to `ek`, the real and the
imaginary parts of the coefficients are
`b * cos(phase)` and `b * sin(phase)` with `b = (e1 * cos(theta) + e2 * sin(theta)) * sqrt(E)`,
and both are transverse to `ek`. On a grid accepted by `checkGridRequirements` with positive
spacing and `lMin ≤ lMax`, every in-band wavevector visited by the loop that takes the
cross-product branch or has three equal components is of this kind; a run that completes has
stored transverse coefficients for it, and the run completes when the arrays have at most
`2 ^ 31` elements. -/
theorem modeCoefficients_transverse (m : Libm F) (hm : m.Exact) (rng : Nat → Nat → F)
    (entropy : Nat) (spectrum : TurbulenceSpectrum F) (grid : Grid3 F) (seed : Nat) :
    (∀ (lam : F) (ek : Vector3 F) (r1 r2 : F),
      ((ek.isParallelTo m ⟨1, 1, 1⟩ (1 / 1000) = false ∧
          Vector3.cross ⟨1, 1, 1⟩ ek ≠ ⟨0, 0, 0⟩) ∨
        (∃ c : F, 0 < c ∧ ek = ⟨c, c, c⟩)) →
      (0 < ek.getR m ∧ 0 < (⟨1, 1, 1⟩ : Vector3 F).getR m ∧
        ∃ e1 e2 : Vector3 F, 0 < e1.getR m ∧ 0 < e2.getR m ∧
          transverseBasis m ek = (e1.div (e1.getR m), e2.div (e2.getR m)) ∧
          e1.dot ek = 0 ∧ e2.dot ek = 0) ∧
      (⟨(modeCoefficients m spectrum lam ek r1 r2).1.1,
          (modeCoefficients m spectrum lam ek r1 r2).2.1.1,
          (modeCoefficients m spectrum lam ek r1 r2).2.2.1⟩ : Vector3 F) =
        ((((transverseBasis m ek).1.mul (m.cos (2 * m.pi * r1))).add
          ((transverseBasis m ek).2.mul (m.sin (2 * m.pi * r1)))).mul
            (m.sqrt (spectrum.energySpectrum (ek.getR m * lam)))).mul (m.cos (2 * m.pi * r2)) ∧
      (⟨(modeCoefficients m spectrum lam ek r1 r2).1.2,
          (modeCoefficients m spectrum lam ek r1 r2).2.1.2,
          (modeCoefficients m spectrum lam ek r1 r2).2.2.2⟩ : Vector3 F) =
        ((((transverseBasis m ek).1.mul (m.cos (2 * m.pi * r1))).add
          ((transverseBasis m ek).2.mul (m.sin (2 * m.pi * r1)))).mul
            (m.sqrt (spectrum.energySpectrum (ek.getR m * lam)))).mul (m.sin (2 * m.pi * r2)) ∧
      ek.dot ⟨(modeCoefficients m spectrum lam ek r1 r2).1.1,
        (modeCoefficients m spectrum lam ek r1 r2).2.1.1,
        (modeCoefficients m spectrum lam ek r1 r2).2.2.1⟩ = 0 ∧
      ek.dot ⟨(modeCoefficients m spectrum lam ek r1 r2).1.2,
        (modeCoefficients m spectrum lam ek r1 r2).2.1.2,
        (modeCoefficients m spectrum lam ek r1 r2).2.2.2⟩ = 0) ∧
    (checkGridRequirements grid spectrum.lMin spectrum.lMax = .ok () → 0 < grid.spacing.x →
      spectrum.lMin ≤ spectrum.lMax →
      (∀ t ∈ inBandWavevectors m spectrum grid,
        ((wavevector (F := F) grid.Nx t.1 t.2.1 t.2.2).isParallelTo m ⟨1, 1, 1⟩ (1 / 1000)
            = false ∨
          ((wavevector (F := F) grid.Nx t.1 t.2.1 t.2.2).x =
              (wavevector (F := F) grid.Nx t.1 t.2.1 t.2.2).y ∧
            (wavevector (F := F) grid.Nx t.1 t.2.1 t.2.2).y =
              (wavevector (F := F) grid.Nx t.1 t.2.1 t.2.2).z)) →
        (((wavevector (F := F) grid.Nx t.1 t.2.1 t.2.2).isParallelTo m ⟨1, 1, 1⟩ (1 / 1000)
              = false ∧
            Vector3.cross ⟨1, 1, 1⟩ (wavevector (F := F) grid.Nx t.1 t.2.1 t.2.2)
              ≠ ⟨0, 0, 0⟩) ∨
          (∃ c : F, 0 < c ∧ wavevector (F := F) grid.Nx t.1 t.2.1 t.2.2 = ⟨c, c, c⟩)) ∧
        ∀ out, synthesize m rng entropy spectrum grid seed = .ok out →
          ∃ c : (F × F) × (F × F) × (F × F),
            out.Bkx (coefficientIndex grid.Nx t.1 t.2.1 t.2.2) = some c.1 ∧
            out.Bky (coefficientIndex grid.Nx t.1 t.2.1 t.2.2) = some c.2.1 ∧
            out.Bkz (coefficientIndex grid.Nx t.1 t.2.1 t.2.2) = some c.2.2 ∧
            (wavevector (F := F) grid.Nx t.1 t.2.1 t.2.2).dot ⟨c.1.1, c.2.1.1, c.2.2.1⟩ = 0 ∧
            (wavevector (F := F) grid.Nx t.1 t.2.1 t.2.2).dot ⟨c.1.2, c.2.1.2, c.2.2.2⟩ = 0) ∧
      (grid.Nx * grid.Nx * (grid.Nx / 2 + 1) ≤ 2 ^ 31 →
        ∃ out, synthesize m rng entropy spectrum grid seed = .ok out)) := by
  refine ⟨fun lam ek r1 r2 h => ⟨transverseBasis_divisors hm ek h, ?_, ?_,
    modeCoefficients_dot_of_divisors hm spectrum lam ek r1 r2 h⟩, ?_⟩
  · simp only [modeCoefficients, Vector3.mul, Vector3.add]
  · simp only [modeCoefficients, Vector3.mul, Vector3.add]
  · intro hcheck hsp hle
    refine ⟨?_, ?_⟩
    · intro t ht hcond
      have hdiv := inBand_divisors hm spectrum grid hcheck hsp hle t ht hcond
      refine ⟨hdiv, ?_⟩
      intro out h
      obtain ⟨hv, hb⟩ := List.mem_filter.mp ht
      have hb' : outOfBand m (fun i => wavenumber grid.Nx i) (kMin spectrum grid)
          (kMax spectrum grid) t = false := by simpa using hb
      obtain ⟨pre, post, hsplit⟩ := List.append_of_mem hv
      have hw :=
        (synthesize_written m rng entropy spectrum grid seed out h pre post t hsplit).2 hb'
      simp only [Prod.mk.injEq] at hw
      obtain ⟨h1, h2⟩ := modeCoefficients_dot_of_divisors hm spectrum (lambda m spectrum grid)
        (wavevector (F := F) grid.Nx t.1 t.2.1 t.2.2)
        (rng (if seed ≠ 0 then seed else entropy)
          (2 * (pre.filter fun u => !outOfBand m (fun i => wavenumber grid.Nx i)
            (kMin spectrum grid) (kMax spectrum grid) u).length))
        (rng (if seed ≠ 0 then seed else entropy)
          (2 * (pre.filter fun u => !outOfBand m (fun i => wavenumber grid.Nx i)
            (kMin spectrum grid) (kMax spectrum grid) u).length + 1)) hdiv
      exact ⟨_, hw.1, hw.2.1, hw.2.2, h1, h2⟩
    · intro hsize
      have hN := two_le_Nx_of_accepted grid _ _ hcheck hsp hle
      exact synthesize_isOk m rng entropy spectrum grid seed (by omega) hsize

end

/-- C12 as amended, for the wavevector `(1/4, -1/4, 0)` of index `(1, 3, 0)` on the grid of 4
cells per axis, which takes the cross-product branch with `n0 x ek = (1/4, 1/4, -1/2)`, and
the draws `1/4` and `3/4`. -/
theorem modeCoefficients_transverse_witness :
    (wavevector (F := ℝ) 4 1 3 0).dot
      ⟨(modeCoefficients ⟨Real.sqrt, Real.cos, Real.sin, Real.arccos, Real.pi⟩
          ⟨1, 2, 4, 8, fun _ => 1⟩ (8 / 1 * 2 * Real.pi) (wavevector 4 1 3 0) (1 / 4) (3 / 4)).1.1,
        (modeCoefficients ⟨Real.sqrt, Real.cos, Real.sin, Real.arccos, Real.pi⟩
          ⟨1, 2, 4, 8, fun _ => 1⟩ (8 / 1 * 2 * Real.pi) (wavevector 4 1 3 0) (1 / 4)
          (3 / 4)).2.1.1,
        (modeCoefficients ⟨Real.sqrt, Real.cos, Real.sin, Real.arccos, Real.pi⟩
          ⟨1, 2, 4, 8, fun _ => 1⟩ (8 / 1 * 2 * Real.pi) (wavevector 4 1 3 0) (1 / 4)
          (3 / 4)).2.2.1⟩ = 0 :=
  ((modeCoefficients_transverse (F := ℝ) ⟨Real.sqrt, Real.cos, Real.sin, Real.arccos, Real.pi⟩
    real_exact (fun _ _ => 0) 0 ⟨1, 2, 4, 8, fun _ => 1⟩
    ⟨4, 4, 4, ⟨1, 1, 1⟩, fun _ _ _ => ⟨0, 0, 0⟩⟩ 42).1
    (8 / 1 * 2 * Real.pi) (wavevector 4 1 3 0) (1 / 4) (3 / 4)
    (Or.inl ⟨by
      simp only [Vector3.isParallelTo, Vector3.getAngleTo, Vector3.dot, Vector3.getR,
        wavevector, wavenumber, decide_eq_false_iff_not, not_lt]
      norm_num
      linarith [Real.pi_gt_three], by
      intro h
      have := congrArg Vector3.z h
      norm_num [Vector3.cross, wavevector, wavenumber] at this⟩)).2.2.2.1

end Transverse

section Failures
variable {F : Type} [LinearOrderedField F]

/-- The grid of 2048 cells per axis with spacing 1 is accepted for `lMin = 2`,
`lMax = 2048`. -/
theorem checkGridRequirements_2048 :
    checkGridRequirements (F := ℝ) ⟨2048, 2048, 2048, ⟨1, 1, 1⟩, fun _ _ _ => ⟨0, 0, 0⟩⟩ 2 2048
      = .ok () := by
  simp [checkGridRequirements]

/-- The loop of `synthesize` does not complete on a grid of 2048 cells per axis. -/
theorem synthesize_2048 (m : Libm F) (rng : Nat → Nat → F) (entropy : Nat)
    (spectrum : TurbulenceSpectrum F) (grid : Grid3 F) (seed : Nat) (hN : grid.Nx = 2048)
    (out : Synthesis F) : synthesize m rng entropy spectrum grid seed ≠ .ok out := by
  intro h
  have h2 := ((synthesize_isOk_iff m rng entropy spectrum grid seed).mp ⟨out, h⟩).2
  rw [hN] at h2
  exact absurd h2 (by decide)

/-- C9 fails for odd grid sizes. The grid of 3 cells per axis with spacing 1 is accepted for
`lMin = 2`, `lMax = 3` and its table is filled without a fault; the table is
`K = (0, -2/3, -4/3)`, while the frequencies of 3 cells folded into `[-1/2, 1/2)` are
`(0, 1/3, -1/3)`: `K[2]` is not `i/N - 1`, neither `K[1]` nor `K[2]` is inside `[-1/2, 1/2)`,
and with `kMin = 1/3`, `kMax = 1/2` every visited wavevector is out of band. -/
theorem wavenumber_odd_grid :
    checkGridRequirements (F := ℝ) ⟨3, 3, 3, ⟨1, 1, 1⟩, fun _ _ _ => ⟨0, 0, 0⟩⟩ 2 3 = .ok () ∧
    wavenumberTable (F := ℝ) 3 = .ok (fun i => wavenumber 3 i) ∧
    (wavenumber (F := ℝ) 3 0 = 0 ∧ wavenumber (F := ℝ) 3 1 = -2 / 3 ∧
      wavenumber (F := ℝ) 3 2 = -4 / 3) ∧
    ((2 ≤ 3 ∧ 3 / 2 ≤ 2 ∧ 2 < 3) ∧ wavenumber (F := ℝ) 3 2 ≠ (2 : ℝ) / 3 - 1) ∧
    ¬ (-1 / 2 ≤ wavenumber (F := ℝ) 3 1) ∧ ¬ (-1 / 2 ≤ wavenumber (F := ℝ) 3 2) ∧
    inBandWavevectors (F := ℝ) ⟨Real.sqrt, Real.cos, Real.sin, Real.arccos, Real.pi⟩
      ⟨1, 2, 3, 8, fun _ => 1⟩ ⟨3, 3, 3, ⟨1, 1, 1⟩, fun _ _ _ => ⟨0, 0, 0⟩⟩ = [] := by
  have hK0 : wavenumber (F := ℝ) 3 0 = 0 := by norm_num [wavenumber]
  have hK1 : wavenumber (F := ℝ) 3 1 = -2 / 3 := by norm_num [wavenumber]
  have hK2 : wavenumber (F := ℝ) 3 2 = -4 / 3 := by norm_num [wavenumber]
  refine ⟨by simp [checkGridRequirements], by simp [wavenumberTable], ⟨hK0, hK1, hK2⟩,
    ⟨by decide, ?_⟩, ?_, ?_, ?_⟩
  · rw [hK2]; norm_num
  · rw [hK1]; norm_num
  · rw [hK2]; norm_num
  · rw [inBandWavevectors, List.filter_eq_nil_iff]
    intro t ht
    obtain ⟨a, b, c⟩ := t
    obtain ⟨ha, hb, hc⟩ := (mem_visited _ _).mp ht
    simp only at ha hb hc
    have hc2 : c < 2 := by omega
    simp only [outOfBand, kMin, kMax, Vector3.getR]
    interval_cases a <;> interval_cases b <;> interval_cases c <;>
      simp only [hK0, hK1, hK2, Bool.not_eq_false_eq_eq_true, Bool.not_eq_eq_eq_not,
        Bool.not_false, Bool.not_true, decide_eq_true_eq, decide_eq_false_iff_not, not_not] <;>
      first
        | (right; rw [gt_iff_lt, Real.lt_sqrt (by norm_num)]; norm_num; done)
        | (left; norm_num)

/-- C4 fails on the grid of 2048 cells per axis (spacing 1, `lMin = 2`, `lMax = 2048`, accepted
by `checkGridRequirements`): the visited wavevector `(1024, 1024, 0)` is `(-1/2, -1/2, 0)`, out
of band (`k > kMax = 1/2`); its index `ix * n * n2 + iy * n2 + iz` is 2150630400, inside the
arrays, but the index stored in `int i` is -2144336896, so the zeros are stored outside the
arrays and the step has no defined behaviour, whatever the state of the loop. -/
theorem zero_store_out_of_bounds_2048 :
    checkGridRequirements (F := ℝ) ⟨2048, 2048, 2048, ⟨1, 1, 1⟩, fun _ _ _ => ⟨0, 0, 0⟩⟩ 2 2048
      = .ok () ∧
    (1024, 1024, 0) ∈ visited 2048 ∧
    wavevector (F := ℝ) 2048 1024 1024 0 = ⟨-1 / 2, -1 / 2, 0⟩ ∧
    outOfBand (F := ℝ) ⟨Real.sqrt, Real.cos, Real.sin, Real.arccos, Real.pi⟩
      (fun i => wavenumber 2048 i)
      (kMin ⟨1, 2, 2048, 8, fun _ => 1⟩ ⟨2048, 2048, 2048, ⟨1, 1, 1⟩, fun _ _ _ => ⟨0, 0, 0⟩⟩)
      (kMax ⟨1, 2, 2048, 8, fun _ => 1⟩ ⟨2048, 2048, 2048, ⟨1, 1, 1⟩, fun _ _ _ => ⟨0, 0, 0⟩⟩)
      (1024, 1024, 0) = true ∧
    coefficientIndex 2048 1024 1024 0 = 2150630400 ∧
    coefficientIndex 2048 1024 1024 0 < 2048 * 2048 * (2048 / 2 + 1) ∧
    initTurbulenceIndex 2048 1024 1024 0 = -2144336896 ∧
    ∀ st : Synthesis ℝ,
      synthesisStep ⟨Real.sqrt, Real.cos, Real.sin, Real.arccos, Real.pi⟩
        ⟨1, 2, 2048, 8, fun _ => 1⟩ 2048 (fun i => wavenumber 2048 i)
        (kMin ⟨1, 2, 2048, 8, fun _ => 1⟩ ⟨2048, 2048, 2048, ⟨1, 1, 1⟩, fun _ _ _ => ⟨0, 0, 0⟩⟩)
        (kMax ⟨1, 2, 2048, 8, fun _ => 1⟩ ⟨2048, 2048, 2048, ⟨1, 1, 1⟩, fun _ _ _ => ⟨0, 0, 0⟩⟩)
        (lambda ⟨Real.sqrt, Real.cos, Real.sin, Real.arccos, Real.pi⟩
          ⟨1, 2, 2048, 8, fun _ => 1⟩ ⟨2048, 2048, 2048, ⟨1, 1, 1⟩, fun _ _ _ => ⟨0, 0, 0⟩⟩)
        st (1024, 1024, 0) = .error .undefinedBehaviour := by
  have hi : initTurbulenceIndex 2048 1024 1024 0 = -2144336896 := by decide
  have hK : wavenumber (F := ℝ) 2048 1024 = -1 / 2 := by norm_num [wavenumber]
  have hK0 : wavenumber (F := ℝ) 2048 0 = 0 := by norm_num [wavenumber]
  refine ⟨checkGridRequirements_2048, ?_, ?_, ?_, by decide, by decide, hi, ?_⟩
  · exact (mem_visited _ _).mpr ⟨by decide, by decide, by decide⟩
  · simp only [wavevector, hK, hK0]
  · simp only [outOfBand, Vector3.getR, hK, hK0, kMin, kMax, decide_eq_true_eq]
    right
    rw [gt_iff_lt, Real.lt_sqrt (by norm_num)]
    norm_num
  · intro st
    unfold synthesisStep
    simp only [hi]
    rw [if_pos (Or.inl (by decide))]

/-- C14 fails on the grid of 2048 cells per axis (spacing 1, `lMin = 2`, `lMax = 2048`,
accepted by `checkGridRequirements`): at the visited wavevector `(1023, 1, 1023)` the index
`ix * n * n2 + iy * n2 + iz` is `2 ^ 31 = 2147483648`, inside the arrays of
`n * n * n2 = 4299161600` elements, but the index stored in `int i` is -2147483648: the store
is outside the arrays, the step has no defined behaviour and no run of the loop completes. -/
theorem coefficient_store_out_of_bounds_2048 :
    checkGridRequirements (F := ℝ) ⟨2048, 2048, 2048, ⟨1, 1, 1⟩, fun _ _ _ => ⟨0, 0, 0⟩⟩ 2 2048
      = .ok () ∧
    (1023, 1, 1023) ∈ visited 2048 ∧
    coefficientIndex 2048 1023 1 1023 = 2147483648 ∧
    2048 * 2048 * (2048 / 2 + 1) = 4299161600 ∧
    initTurbulenceIndex 2048 1023 1 1023 = -2147483648 ∧
    (∀ (spectrum : TurbulenceSpectrum ℝ) (kMin kMax lambda : ℝ) (st : Synthesis ℝ),
      synthesisStep ⟨Real.sqrt, Real.cos, Real.sin, Real.arccos, Real.pi⟩ spectrum 2048
        (fun i => wavenumber 2048 i) kMin kMax lambda st (1023, 1, 1023)
        = .error .undefinedBehaviour) ∧
    ∀ (rng : Nat → Nat → ℝ) (entropy seed : Nat) (spectrum : TurbulenceSpectrum ℝ)
      (out : Synthesis ℝ),
      synthesize ⟨Real.sqrt, Real.cos, Real.sin, Real.arccos, Real.pi⟩ rng entropy spectrum
        ⟨2048, 2048, 2048, ⟨1, 1, 1⟩, fun _ _ _ => ⟨0, 0, 0⟩⟩ seed ≠ .ok out := by
  have hi : initTurbulenceIndex 2048 1023 1 1023 = -2147483648 := by decide
  refine ⟨checkGridRequirements_2048, ?_, by decide, by decide, hi, ?_, ?_⟩
  · exact (mem_visited _ _).mpr ⟨by decide, by decide, by decide⟩
  · intro spectrum kMin kMax lambda st
    unfold synthesisStep
    simp only [hi]
    rw [if_pos (Or.inl (by decide))]
  · intro rng entropy seed spectrum out
    exact synthesize_2048 _ rng entropy spectrum _ seed rfl out

/-- C15 fails on the grid of 2048 cells per axis: at the cell `(511, 1025, 0)` the index
`ix * n * 2 * n2 + iy * 2 * n2 + iz` is 2147483650, below the `n * n * 2 * n2 = 8598323200`
elements of the padded real arrays, but the index stored in `int i` is -2147483646: the read
is outside the arrays, the step has no defined behaviour and the copy loop does not
complete. -/
theorem padded_read_out_of_bounds_2048 :
    (511, 1025, 0) ∈ cells 2048 ∧
    paddedIndex 2048 511 1025 0 = 2147483650 ∧
    2048 * 2048 * 2 * (2048 / 2 + 1) = 8598323200 ∧
    executeInverseFFTIndex 2048 511 1025 0 = -2147483646 ∧
    (∀ (Bx By Bz : Nat → ℝ) (g : Grid3 ℝ),
      copyStep 2048 Bx By Bz g (511, 1025, 0) = .error .undefinedBehaviour) ∧
    ∀ (c2r : Nat → (Nat → Option (ℝ × ℝ)) → Nat → ℝ) (Bkx Bky Bkz : Nat → Option (ℝ × ℝ))
      (g : Grid3 ℝ),
      executeInverseFFTInplace c2r ⟨2048, 2048, 2048, ⟨1, 1, 1⟩, fun _ _ _ => ⟨0, 0, 0⟩⟩
        Bkx Bky Bkz ≠ .ok g := by
  have hi : executeInverseFFTIndex 2048 511 1025 0 = -2147483646 := by decide
  have hmem : (511, 1025, 0) ∈ cells 2048 :=
    (mem_cells _ _).mpr ⟨by decide, by decide, by decide⟩
  refine ⟨hmem, by decide, by decide, hi, ?_, ?_⟩
  · intro Bx By Bz g
    unfold copyStep
    simp only [hi]
    rw [if_pos (Or.inl (by decide))]
  · intro c2r Bkx Bky Bkz g h
    unfold executeInverseFFTInplace at h
    have hr := (foldlM_copyStep_range 2048 _ _ _ _ _ _ h (511, 1025, 0) hmem).1
    rw [hi] at hr
    exact absurd hr (by decide)

/-- C10 fails on the grid of 2048 cells per axis (spacing 1, `lMin = 2`, `lMax = 2048`,
accepted by `checkGridRequirements`): the wavevector `(0, 0, 1)` is in band, so the claimed
number of draws is not zero, but no run of the loop completes (the store at `(1023, 1, 1023)`
is outside the arrays), whatever the stream and the seed: the run ends with no defined
behaviour before the in-band wavevectors behind `(1023, 1, 1023)` have had their draws. -/
theorem draw_order_undefined_2048 :
    checkGridRequirements (F := ℝ) ⟨2048, 2048, 2048, ⟨1, 1, 1⟩, fun _ _ _ => ⟨0, 0, 0⟩⟩ 2 2048
      = .ok () ∧
    (0, 0, 1) ∈ inBandWavevectors (F := ℝ)
      ⟨Real.sqrt, Real.cos, Real.sin, Real.arccos, Real.pi⟩ ⟨1, 2, 2048, 8, fun _ => 1⟩
      ⟨2048, 2048, 2048, ⟨1, 1, 1⟩, fun _ _ _ => ⟨0, 0, 0⟩⟩ ∧
    (2047, 0, 0) ∈ inBandWavevectors (F := ℝ)
      ⟨Real.sqrt, Real.cos, Real.sin, Real.arccos, Real.pi⟩ ⟨1, 2, 2048, 8, fun _ => 1⟩
      ⟨2048, 2048, 2048, ⟨1, 1, 1⟩, fun _ _ _ => ⟨0, 0, 0⟩⟩ ∧
    ∀ (rng : Nat → Nat → ℝ) (entropy seed : Nat) (out : Synthesis ℝ),
      synthesize ⟨Real.sqrt, Real.cos, Real.sin, Real.arccos, Real.pi⟩ rng entropy
        ⟨1, 2, 2048, 8, fun _ => 1⟩
        ⟨2048, 2048, 2048, ⟨1, 1, 1⟩, fun _ _ _ => ⟨0, 0, 0⟩⟩ seed ≠ .ok out := by
  have hK0 : wavenumber (F := ℝ) 2048 0 = 0 := by norm_num [wavenumber]
  have hK1 : wavenumber (F := ℝ) 2048 1 = 1 / 2048 := by norm_num [wavenumber]
  have hK2 : wavenumber (F := ℝ) 2048 2047 = -1 / 2048 := by norm_num [wavenumber]
  have hs1 : Real.sqrt (0 * 0 + 0 * 0 + 1 / 2048 * (1 / 2048)) = 1 / 2048 := by
    rw [zero_mul, zero_add, zero_add, Real.sqrt_mul_self (by norm_num)]
  have hs2 : Real.sqrt (-1 / 2048 * (-1 / 2048) + 0 * 0 + 0 * 0) = 1 / 2048 := by
    rw [zero_mul, add_zero, add_zero, Real.sqrt_mul_self_eq_abs, abs_of_neg (by norm_num)]
    norm_num
  refine ⟨checkGridRequirements_2048, ?_, ?_, ?_⟩
  · refine List.mem_filter.mpr ⟨(mem_visited _ _).mpr ⟨by decide, by decide, by decide⟩, ?_⟩
    simp only [outOfBand, Vector3.getR, hK0, hK1, hs1, kMin, kMax]
    norm_num
  · refine List.mem_filter.mpr ⟨(mem_visited _ _).mpr ⟨by decide, by decide, by decide⟩, ?_⟩
    simp only [outOfBand, Vector3.getR, hK0, hK2, hs2, kMin, kMax]
    norm_num
  · intro rng entropy seed out
    exact synthesize_2048 _ rng entropy _ _ seed rfl out

end Failures

end crpropa
